import Mathlib

/-!
# GooseFEM: quadrature kernels and layout conversion

A shallow embedding of the planar and axisymmetric four-node quadrilateral
quadrature classes (`ElementQuad4.cpp`, `ElementQuad4Axisymmetric.hpp`) and of the
`Vector` layout conversions exercised by `develop/Vector.cpp`.

Conventions of the embedding.

* `double` is rendered as an arbitrary linearly ordered field `α`: arithmetic is
  exact, rounding is not modelled.  Concrete evaluations use `ℚ`.
* A dense array (`ArrD`, `xt::xtensor`) is a shape together with its row-major
  storage.  Reading is by flat position; the multi-index accessors compute the flat
  position from the strides of the shape, as the array library does.
* `assert(...)` lines of the source are input contracts: they appear as hypotheses of
  the theorems, never as a failure of the embedded function.  `throw` is rendered by
  `Except.error`.
* A loop `for (i = 0; i < n; ++i)` is a left fold over `List.range n`.  The loops over
  elements marked `omp for` write one block per element; the output storage is the
  concatenation of these blocks in element order.
* Fixed-size local buffers (`cppmat::tiny::matrix`, fixed-shape views) are maps from
  the flat row-major position to the stored value.
-/

namespace GooseFEM

/-! ## Dense row-major arrays -/

/-- Dense array: `shape` lists the extent of every axis, `data` is the row-major
storage. -/
structure ArrD (α : Type) where
  shape : List Nat
  data : List α
deriving DecidableEq, Repr

namespace ArrD

variable {α : Type}

/-- Number of axes. -/
def rank (a : ArrD α) : Nat := a.shape.length

/-- Number of stored entries (`size()`). -/
def size (a : ArrD α) : Nat := a.data.length

/-- Row-major strides of a shape: the stride of an axis is the product of the
extents of the axes after it. -/
def strides : List Nat → List Nat
  | [] => []
  | _ :: s => s.prod :: strides s

/-- Flat position of a (possibly partial) multi-index, `operator()(a, b, ...)` and
`item(a, b, ...)` of the array library: the indices are paired with the leading
strides. -/
def offset (a : ArrD α) (idx : List Nat) : Nat :=
  (List.zipWith (fun i s => i * s) idx (strides a.shape)).sum

/-- Entry at a flat position. -/
def read [Zero α] (a : ArrD α) (p : Nat) : α := a.data.getD p 0

/-- Entry `a(i)` of a rank-1 array. -/
def get1 [Zero α] (a : ArrD α) (i : Nat) : α := a.read (a.offset [i])

/-- Entry `a(i,j)` of a rank-2 array. -/
def get2 [Zero α] (a : ArrD α) (i j : Nat) : α := a.read (a.offset [i, j])

/-- Entry `a(i,j,k)` of a rank-3 array. -/
def get3 [Zero α] (a : ArrD α) (i j k : Nat) : α := a.read (a.offset [i, j, k])

/-- Entry `a(i,j,k,l)` of a rank-4 array. -/
def get4 [Zero α] (a : ArrD α) (i j k l : Nat) : α := a.read (a.offset [i, j, k, l])

/-- The array has the given shape and its storage holds exactly that many entries. -/
def hasShape (a : ArrD α) (s : List Nat) : Prop :=
  a.shape = s ∧ a.data.length = s.prod

instance (a : ArrD α) (s : List Nat) : Decidable (a.hasShape s) := by
  unfold hasShape; infer_instance

/-- Zero-filled array of a given shape (`ArrD::Zero`). -/
def zero [Zero α] (s : List Nat) : ArrD α :=
  { shape := s, data := List.replicate s.prod 0 }

end ArrD

/-! ## Fixed-size local buffers -/

/-- A fixed-size local buffer or view, addressed by flat row-major position. -/
abbrev Tiny (α : Type) := Nat → α

namespace Tiny

variable {α : Type}

/-- All entries zero (`setZero`). -/
def zero [Zero α] : Tiny α := fun _ => 0

/-- Assignment `t[p] = v`. -/
def set (t : Tiny α) (p : Nat) (v : α) : Tiny α := fun r => if r = p then v else t r

/-- Accumulation `t[p] += v`. -/
def add [Add α] (t : Tiny α) (p : Nat) (v : α) : Tiny α :=
  fun r => if r = p then t r + v else t r

/-- The first `n` entries in storage order (`begin()` to `end()`). -/
def toList (n : Nat) (t : Tiny α) : List α := (List.range n).map t

end Tiny

/-- View of fixed extent into an array, starting at flat position `off`
(`setMap(&a(e))`, `xt::adapt(&a(e,0,0), ...)`). -/
def ArrD.view {α : Type} [Zero α] (a : ArrD α) (off : Nat) : Tiny α :=
  fun r => a.read (off + r)

/-- Two-index access `v(m,i)` to a view or local matrix with `ncols` columns. -/
def Tiny.at2 {α : Type} (t : Tiny α) (ncols m i : Nat) : α := t (m * ncols + i)

/-! ## Tensor storage classes used as template arguments -/

/-- Modelled from the spec: the two second-order tensor storage classes of the tensor
library (`cartesian::tensor2<double,2>` and `cartesian::tensor2s<double,2>`), which
are not part of the sources.  The full tensor stores its four components row-major;
the symmetric tensor stores the three components xx, xy, yy. -/
inductive TensorStorage
  | tensor2
  | tensor2s
deriving DecidableEq, Repr

namespace TensorStorage

/-- Number of stored components (`T::Size()`). -/
def Size : TensorStorage → Nat
  | tensor2 => 4
  | tensor2s => 3

/-- Storage position of component `(i,j)`. -/
def idx : TensorStorage → Nat → Nat → Nat
  | tensor2, i, j => i * 2 + j
  | tensor2s, i, j => if i ≤ j then i * 2 - (i - 1) * i / 2 + j - i
                      else j * 2 - (j - 1) * j / 2 + i - j

end TensorStorage

/-- Modelled from the spec: the local 2x2 tensor type of the Jacobian
(`cartesian::tensor2<double,2>` of the tensor library, `xt::xtensor_fixed` with the
helper `inv(J, Jinv)` in the axisymmetric header); its determinant and inverse
routines are not part of the sources.  The spec says the Jacobian is inverted and its
determinant taken; they are rendered by the closed 2x2 formulas, without any test on
the determinant. -/
structure Tensor2 (α : Type) where
  c00 : α
  c01 : α
  c10 : α
  c11 : α
deriving DecidableEq, Repr

namespace Tensor2

variable {α : Type} [LinearOrderedField α]

/-- Determinant (`J.det()`). -/
def det (J : Tensor2 α) : α := J.c00 * J.c11 - J.c01 * J.c10

/-- Inverse (`J.inv()`): adjugate divided by the determinant. -/
def inv (J : Tensor2 α) : Tensor2 α :=
  { c00 := J.c11 / J.det
    c01 := -1 * J.c01 / J.det
    c10 := -1 * J.c10 / J.det
    c11 := J.c00 / J.det }

end Tensor2

/-! ## Planar quadrature (`ElementQuad4.cpp`) -/

namespace Element.Quad4

variable {α : Type} [LinearOrderedField α]

namespace Gauss

/-- Number of integration points. -/
def nip : Nat := 4

/-- Integration point coordinates; `sqrt3` is the value of `std::sqrt(3.)`. -/
def xi (sqrt3 : α) : ArrD α :=
  { shape := [4, 2]
    data := [-1 / sqrt3, -1 / sqrt3,
             1 / sqrt3, -1 / sqrt3,
             1 / sqrt3, 1 / sqrt3,
             -1 / sqrt3, 1 / sqrt3] }

/-- Integration point weights. -/
def w : ArrD α := { shape := [4], data := [1, 1, 1, 1] }

end Gauss

namespace Nodal

/-- Number of integration points. -/
def nip : Nat := 4

/-- Integration point coordinates: the element nodes. -/
def xi : ArrD α :=
  { shape := [4, 2]
    data := [-1, -1,
             1, -1,
             1, 1,
             -1, 1] }

/-- Integration point weights. -/
def w : ArrD α := { shape := [4], data := [1, 1, 1, 1] }

end Nodal

/-- State of `Quadrature`.  The static members `m_nne = 4` and `m_ndim = 2` are written
as literals. -/
structure Quadrature (α : Type) where
  m_nelem : Nat
  m_nip : Nat
  m_x : ArrD α
  m_w : ArrD α
  m_xi : ArrD α
  m_N : ArrD α
  m_dNxi : ArrD α
  m_dNx : ArrD α
  m_vol : ArrD α
deriving DecidableEq, Repr

namespace Quadrature

/-- Jacobian at element `e`, integration point `k`:
`J(i,j) += dNxi(m,i) * xe(m,j)`, unrolled as in the source. -/
def jacobian (q : Quadrature α) (e k : Nat) : Tensor2 α :=
  let x := (q.m_x.view (q.m_x.offset [e])).at2 2
  let dNxi := (q.m_dNxi.view (q.m_dNxi.offset [k])).at2 2
  { c00 := dNxi 0 0 * x 0 0 + dNxi 1 0 * x 1 0 + dNxi 2 0 * x 2 0 + dNxi 3 0 * x 3 0
    c01 := dNxi 0 0 * x 0 1 + dNxi 1 0 * x 1 1 + dNxi 2 0 * x 2 1 + dNxi 3 0 * x 3 1
    c10 := dNxi 0 1 * x 0 0 + dNxi 1 1 * x 1 0 + dNxi 2 1 * x 2 0 + dNxi 3 1 * x 3 0
    c11 := dNxi 0 1 * x 0 1 + dNxi 1 1 * x 1 1 + dNxi 2 1 * x 2 1 + dNxi 3 1 * x 3 1 }

/-- Local matrix `dNx` of `compute_dN` at `(e,k)`:
`dNx(m,i) += Jinv(i,j) * dNxi(m,j)` for every node `m`. -/
def dNxBlock (q : Quadrature α) (e k : Nat) : Tiny α :=
  let dNxi := (q.m_dNxi.view (q.m_dNxi.offset [k])).at2 2
  let Jinv := (q.jacobian e k).inv
  (List.range 4).foldl
    (fun dNx m =>
      (dNx.set (m * 2 + 0) (Jinv.c00 * dNxi m 0 + Jinv.c01 * dNxi m 1)).set
        (m * 2 + 1) (Jinv.c10 * dNxi m 0 + Jinv.c11 * dNxi m 1))
    Tiny.zero

/-- Shape function gradients in global coordinates and integration point volumes
(`compute_dN`): for every element and integration point the block `dNx` is copied to
`m_dNx.item(e,k)` and `m_vol(e,k) = m_w(k) * Jdet`. -/
def compute_dN (q : Quadrature α) : Quadrature α :=
  { q with
    m_dNx :=
      { shape := q.m_dNx.shape
        data := (List.range q.m_nelem).flatMap fun e =>
          (List.range q.m_nip).flatMap fun k => Tiny.toList (4 * 2) (q.dNxBlock e k) }
    m_vol :=
      { shape := q.m_vol.shape
        data := (List.range q.m_nelem).flatMap fun e =>
          (List.range q.m_nip).map fun k => q.m_w.get1 k * (q.jacobian e k).det } }

/-- State of the constructor right before its call of `compute_dN`: members set,
arrays allocated, shape functions and local gradients filled.  `.25` is written
`1 / 4`; the allocated `m_dNx` and `m_vol` are rendered zero-filled. -/
def allocate (x xi w : ArrD α) (nip : Nat) : Quadrature α :=
  { m_nelem := x.shape.getD 0 0
    m_nip := nip
    m_x := x
    m_w := w
    m_xi := xi
    m_N :=
      { shape := [nip, 4]
        data := (List.range nip).flatMap fun k =>
          [1 / 4 * (1 - xi.get2 k 0) * (1 - xi.get2 k 1),
           1 / 4 * (1 + xi.get2 k 0) * (1 - xi.get2 k 1),
           1 / 4 * (1 + xi.get2 k 0) * (1 + xi.get2 k 1),
           1 / 4 * (1 - xi.get2 k 0) * (1 + xi.get2 k 1)] }
    m_dNxi :=
      { shape := [nip, 4, 2]
        data := (List.range nip).flatMap fun k =>
          [-(1 / 4) * (1 - xi.get2 k 1), -(1 / 4) * (1 - xi.get2 k 0),
           1 / 4 * (1 - xi.get2 k 1), -(1 / 4) * (1 + xi.get2 k 0),
           1 / 4 * (1 + xi.get2 k 1), 1 / 4 * (1 + xi.get2 k 0),
           -(1 / 4) * (1 + xi.get2 k 1), 1 / 4 * (1 - xi.get2 k 0)] }
    m_dNx := ArrD.zero [x.shape.getD 0 0, nip, 4, 2]
    m_vol := ArrD.zero [x.shape.getD 0 0, nip] }

/-- Body of the constructor after the integration scheme has been chosen: allocation,
shape functions, local gradients, then `compute_dN`. -/
def init (x xi w : ArrD α) (nip : Nat) : Quadrature α :=
  compute_dN (allocate x xi w nip)

/-- Constructor `Quadrature(x, xi, w)`; `sqrt3` is the value of `std::sqrt(3.)` used by
the default scheme.  The only `throw` is the one for a half-given scheme. -/
def new (sqrt3 : α) (x xi w : ArrD α) : Except String (Quadrature α) :=
  if w.size = 0 ∧ xi.size = 0 then
    .ok (init x (Gauss.xi sqrt3) Gauss.w Gauss.nip)
  else if 0 < w.size ∧ 0 < xi.size then
    .ok (init x xi w w.size)
  else
    .error "Input integration point coordinates and weights"

/-- Input contract of the constructor (its `assert` lines), for the scheme in use. -/
def newContract (x xi w : ArrD α) : Prop :=
  x.hasShape [x.shape.getD 0 0, 4, 2] ∧
  ((w.size = 0 ∧ xi.size = 0) ∨
    (0 < w.size ∧ 0 < xi.size ∧ xi.hasShape [w.size, 2] ∧ w.hasShape [w.size]))

instance (x xi w : ArrD α) : Decidable (newContract x xi w) := by
  unfold newContract; infer_instance

/-- Update of the nodal positions (`update_x`): the stored coordinates receive the
entries of `x`, then `compute_dN` runs. -/
def update_x (q : Quadrature α) (x : ArrD α) : Quadrature α :=
  compute_dN { q with m_x := { shape := q.m_x.shape, data := x.data } }

/-- Shapes of the members as allocated by the constructor. -/
def WF (q : Quadrature α) : Prop :=
  q.m_x.hasShape [q.m_nelem, 4, 2] ∧ q.m_w.hasShape [q.m_nip] ∧
  q.m_xi.hasShape [q.m_nip, 2] ∧ q.m_N.hasShape [q.m_nip, 4] ∧
  q.m_dNxi.hasShape [q.m_nip, 4, 2] ∧ q.m_dNx.hasShape [q.m_nelem, q.m_nip, 4, 2] ∧
  q.m_vol.hasShape [q.m_nelem, q.m_nip]

instance (q : Quadrature α) : Decidable q.WF := by
  unfold WF; infer_instance

/-- Dyadic product `qtensor(i,j) = dNdx(m,i) * elemvec(m,j)` (`gradN_vector<T>`). -/
def gradN_vector (T : TensorStorage) (q : Quadrature α) (elemvec : ArrD α) : ArrD α :=
  { shape := [q.m_nelem, q.m_nip, T.Size]
    data := (List.range q.m_nelem).flatMap fun e =>
      let u := (elemvec.view (elemvec.offset [e])).at2 2
      (List.range q.m_nip).flatMap fun k =>
        let dNx := (q.m_dNx.view (q.m_dNx.offset [e, k])).at2 2
        let gradu : Tiny α := Tiny.zero
        let gradu := gradu.set (T.idx 0 0)
          (dNx 0 0 * u 0 0 + dNx 1 0 * u 1 0 + dNx 2 0 * u 2 0 + dNx 3 0 * u 3 0)
        let gradu := gradu.set (T.idx 0 1)
          (dNx 0 0 * u 0 1 + dNx 1 0 * u 1 1 + dNx 2 0 * u 2 1 + dNx 3 0 * u 3 1)
        let gradu := gradu.set (T.idx 1 0)
          (dNx 0 1 * u 0 0 + dNx 1 1 * u 1 0 + dNx 2 1 * u 2 0 + dNx 3 1 * u 3 0)
        let gradu := gradu.set (T.idx 1 1)
          (dNx 0 1 * u 0 1 + dNx 1 1 * u 1 1 + dNx 2 1 * u 2 1 + dNx 3 1 * u 3 1)
        Tiny.toList T.Size gradu }

/-- Element matrix `M` of `int_N_scalar_NT_dV` for element `e`:
`M(m*ndim+i,n*ndim+i) += N(m) * scalar * N(n) * dV`. -/
def massBlock (q : Quadrature α) (qscalar : ArrD α) (e : Nat) : Tiny α :=
  (List.range q.m_nip).foldl
    (fun M k =>
      let N := q.m_N.view (q.m_N.offset [k])
      let vol := q.m_vol.get2 e k
      let rho := qscalar.get2 e k
      (List.range 4).foldl
        (fun M m =>
          (List.range 4).foldl
            (fun M n =>
              ((M.add ((m * 2 + 0) * 8 + (n * 2 + 0)) (N m * rho * N n * vol)).add
                ((m * 2 + 1) * 8 + (n * 2 + 1)) (N m * rho * N n * vol)))
            M)
        M)
    Tiny.zero

/-- Scalar product integrated over the element (`int_N_scalar_NT_dV`). -/
def int_N_scalar_NT_dV (q : Quadrature α) (qscalar : ArrD α) : ArrD α :=
  { shape := [q.m_nelem, 4 * 2, 4 * 2]
    data := (List.range q.m_nelem).flatMap fun e =>
      Tiny.toList (4 * 2 * (4 * 2)) (q.massBlock qscalar e) }

/-- Local tensor `sig` read from `qtensor(e,k)` (`sig.setCopy(&qtensor(e,k))`),
addressed by component. -/
def loadTensor (T : TensorStorage) (qtensor : ArrD α) (e k : Nat) (i j : Nat) : α :=
  (qtensor.view (qtensor.offset [e, k])) (T.idx i j)

/-- Element vector `f` of `int_gradN_dot_tensor2_dV<T>` for element `e`:
`f(m,j) += dNdx(m,i) * sig(i,j) * dV`. -/
def forceBlock (T : TensorStorage) (q : Quadrature α) (qtensor : ArrD α) (e : Nat) :
    Tiny α :=
  (List.range q.m_nip).foldl
    (fun f k =>
      let dNx := (q.m_dNx.view (q.m_dNx.offset [e, k])).at2 2
      let sig := loadTensor T qtensor e k
      let vol := q.m_vol.get2 e k
      (List.range 4).foldl
        (fun f m =>
          (f.add (m * 2 + 0) ((dNx m 0 * sig 0 0 + dNx m 1 * sig 1 0) * vol)).add
            (m * 2 + 1) ((dNx m 0 * sig 0 1 + dNx m 1 * sig 1 1) * vol))
        f)
    Tiny.zero

/-- Integral of the dot product `elemvec(m,j) += dNdx(m,i) * qtensor(i,j) * dV`
(`int_gradN_dot_tensor2_dV<T>`). -/
def int_gradN_dot_tensor2_dV (T : TensorStorage) (q : Quadrature α) (qtensor : ArrD α) :
    ArrD α :=
  { shape := [q.m_nelem, 4, 2]
    data := (List.range q.m_nelem).flatMap fun e =>
      Tiny.toList (4 * 2) (q.forceBlock T qtensor e) }

end Quadrature

end Element.Quad4

/-! ## Axisymmetric quadrature (`ElementQuad4Axisymmetric.hpp`) -/

namespace Element.Quad4

variable {α : Type} [LinearOrderedField α]

/-- State of `QuadratureAxisymmetric`.  The static members `m_nne = 4`, `m_ndim = 2` and
`m_tdim = 3` are written as literals. -/
structure QuadratureAxisymmetric (α : Type) where
  m_nelem : Nat
  m_nip : Nat
  m_x : ArrD α
  m_w : ArrD α
  m_xi : ArrD α
  m_N : ArrD α
  m_dNxi : ArrD α
  m_B : ArrD α
  m_vol : ArrD α
deriving DecidableEq, Repr

namespace QuadratureAxisymmetric

/-- Jacobian at element `e`, integration point `k`: `J(i,j) += dNxi(m,i) * x(m,j)`,
unrolled as in the source. -/
def jacobian (q : QuadratureAxisymmetric α) (e k : Nat) : Tensor2 α :=
  let x := (q.m_x.view (q.m_x.offset [e, 0, 0])).at2 2
  let dNxi := (q.m_dNxi.view (q.m_dNxi.offset [k, 0, 0])).at2 2
  { c00 := dNxi 0 0 * x 0 0 + dNxi 1 0 * x 1 0 + dNxi 2 0 * x 2 0 + dNxi 3 0 * x 3 0
    c01 := dNxi 0 0 * x 0 1 + dNxi 1 0 * x 1 1 + dNxi 2 0 * x 2 1 + dNxi 3 0 * x 3 1
    c10 := dNxi 0 1 * x 0 0 + dNxi 1 1 * x 1 0 + dNxi 2 1 * x 2 0 + dNxi 3 1 * x 3 0
    c11 := dNxi 0 1 * x 0 1 + dNxi 1 1 * x 1 1 + dNxi 2 1 * x 2 1 + dNxi 3 1 * x 3 1 }

/-- Radius at element `e`, integration point `k`:
`rq = N(0)*x(0,1) + N(1)*x(1,1) + N(2)*x(2,1) + N(3)*x(3,1)`. -/
def radius (q : QuadratureAxisymmetric α) (e k : Nat) : α :=
  let x := (q.m_x.view (q.m_x.offset [e, 0, 0])).at2 2
  let N := q.m_N.view (q.m_N.offset [k, 0])
  N 0 * x 0 1 + N 1 * x 1 1 + N 2 * x 2 1 + N 3 * x 3 1

/-- Flat position of `B(m,i,j,k)` in the view of extent `(4,3,3,3)`. -/
def Bpos (m i j k : Nat) : Nat := ((m * 3 + i) * 3 + j) * 3 + k

/-- The view `B` of `compute_dN` at `(e,k)`: zero-filled, then the five written
components per node. -/
def BBlock (q : QuadratureAxisymmetric α) (e k : Nat) : Tiny α :=
  let dNxi := (q.m_dNxi.view (q.m_dNxi.offset [k, 0, 0])).at2 2
  let N := q.m_N.view (q.m_N.offset [k, 0])
  let Jinv := (q.jacobian e k).inv
  let rq := q.radius e k
  (List.range 4).foldl
    (fun B m =>
      let B := B.set (Bpos m 0 0 0) (Jinv.c00 * dNxi m 0 + Jinv.c01 * dNxi m 1)
      let B := B.set (Bpos m 0 2 2) (Jinv.c10 * dNxi m 0 + Jinv.c11 * dNxi m 1)
      let B := B.set (Bpos m 1 1 0) (1 / rq * N m)
      let B := B.set (Bpos m 2 0 0) (Jinv.c00 * dNxi m 0 + Jinv.c01 * dNxi m 1)
      B.set (Bpos m 2 2 2) (Jinv.c10 * dNxi m 0 + Jinv.c11 * dNxi m 1))
    Tiny.zero

/-- The B-matrix and the integration point volumes (`compute_dN`); `pi` is the value
of `M_PI`.  `m_vol(e,q) = m_w(q) * Jdet * 2 * M_PI * rq`. -/
def compute_dN (pi : α) (q : QuadratureAxisymmetric α) : QuadratureAxisymmetric α :=
  { q with
    m_B :=
      { shape := q.m_B.shape
        data := (List.range q.m_nelem).flatMap fun e =>
          (List.range q.m_nip).flatMap fun k =>
            Tiny.toList (4 * 3 * 3 * 3) (q.BBlock e k) }
    m_vol :=
      { shape := q.m_vol.shape
        data := (List.range q.m_nelem).flatMap fun e =>
          (List.range q.m_nip).map fun k =>
            q.m_w.get1 k * (q.jacobian e k).det * 2 * pi * q.radius e k } }

/-- State of the constructor right before its call of `compute_dN`; the number of
integration points is `m_w.size()`.  `.25` is written `1 / 4`; the allocated `m_B` and
`m_vol` are rendered zero-filled. -/
def allocate (x xi w : ArrD α) : QuadratureAxisymmetric α :=
  { m_nelem := x.shape.getD 0 0
    m_nip := w.size
    m_x := x
    m_w := w
    m_xi := xi
    m_N :=
      { shape := [w.size, 4]
        data := (List.range w.size).flatMap fun k =>
          [1 / 4 * (1 - xi.get2 k 0) * (1 - xi.get2 k 1),
           1 / 4 * (1 + xi.get2 k 0) * (1 - xi.get2 k 1),
           1 / 4 * (1 + xi.get2 k 0) * (1 + xi.get2 k 1),
           1 / 4 * (1 - xi.get2 k 0) * (1 + xi.get2 k 1)] }
    m_dNxi :=
      { shape := [w.size, 4, 2]
        data := (List.range w.size).flatMap fun k =>
          [-(1 / 4) * (1 - xi.get2 k 1), -(1 / 4) * (1 - xi.get2 k 0),
           1 / 4 * (1 - xi.get2 k 1), -(1 / 4) * (1 + xi.get2 k 0),
           1 / 4 * (1 + xi.get2 k 1), 1 / 4 * (1 + xi.get2 k 0),
           -(1 / 4) * (1 + xi.get2 k 1), 1 / 4 * (1 - xi.get2 k 0)] }
    m_B := ArrD.zero [x.shape.getD 0 0, w.size, 4, 3, 3, 3]
    m_vol := ArrD.zero [x.shape.getD 0 0, w.size] }

/-- Constructor `QuadratureAxisymmetric(x, xi, w)`; it contains no `throw`. -/
def new (pi : α) (x xi w : ArrD α) : QuadratureAxisymmetric α :=
  compute_dN pi (allocate x xi w)

/-- Constructor `QuadratureAxisymmetric(x)`: the Gauss scheme. -/
def newDefault (sqrt3 pi : α) (x : ArrD α) : QuadratureAxisymmetric α :=
  new pi x (Gauss.xi sqrt3) Gauss.w

/-- Update of the nodal positions (`update_x`). -/
def update_x (pi : α) (q : QuadratureAxisymmetric α) (x : ArrD α) :
    QuadratureAxisymmetric α :=
  compute_dN pi { q with m_x := { shape := q.m_x.shape, data := x.data } }

/-- Shapes of the members as allocated by the constructor. -/
def WF (q : QuadratureAxisymmetric α) : Prop :=
  q.m_x.hasShape [q.m_nelem, 4, 2] ∧ q.m_w.hasShape [q.m_nip] ∧
  q.m_xi.hasShape [q.m_nip, 2] ∧ q.m_N.hasShape [q.m_nip, 4] ∧
  q.m_dNxi.hasShape [q.m_nip, 4, 2] ∧ q.m_B.hasShape [q.m_nelem, q.m_nip, 4, 3, 3, 3] ∧
  q.m_vol.hasShape [q.m_nelem, q.m_nip]

instance (q : QuadratureAxisymmetric α) : Decidable q.WF := by
  unfold WF; infer_instance

end QuadratureAxisymmetric

/-- Entry `J(i,j)` of the Jacobian as the spec words it: the contraction of the local
shape-function gradients with the nodal coordinates,
`J(i,j) = sum over m of dNxi(k,m,i) * x(e,m,j)`. -/
def jacobianEntry (dNxi x : ArrD α) (e k i j : Nat) : α :=
  ∑ m ∈ Finset.range 4, dNxi.get3 k m i * x.get3 e m j

/-- Determinant of the Jacobian as the spec words it. -/
def jacobianDet (dNxi x : ArrD α) (e k : Nat) : α :=
  jacobianEntry dNxi x e k 0 0 * jacobianEntry dNxi x e k 1 1 -
    jacobianEntry dNxi x e k 0 1 * jacobianEntry dNxi x e k 1 0

end Element.Quad4

/-! ## Further operations of the planar and the axisymmetric class -/

namespace Element.Quad4

variable {α : Type} [LinearOrderedField α]

namespace Quadrature

/-- Transpose of the dyadic product, `qtensor(j,i) = dNdx(m,i) * elemvec(m,j)`
(`gradN_vector_T<T>`); the components are assigned in the order of the source. -/
def gradN_vector_T (T : TensorStorage) (q : Quadrature α) (elemvec : ArrD α) : ArrD α :=
  { shape := [q.m_nelem, q.m_nip, T.Size]
    data := (List.range q.m_nelem).flatMap fun e =>
      let u := (elemvec.view (elemvec.offset [e])).at2 2
      (List.range q.m_nip).flatMap fun k =>
        let dNx := (q.m_dNx.view (q.m_dNx.offset [e, k])).at2 2
        let gradu : Tiny α := Tiny.zero
        let gradu := gradu.set (T.idx 0 0)
          (dNx 0 0 * u 0 0 + dNx 1 0 * u 1 0 + dNx 2 0 * u 2 0 + dNx 3 0 * u 3 0)
        let gradu := gradu.set (T.idx 1 0)
          (dNx 0 0 * u 0 1 + dNx 1 0 * u 1 1 + dNx 2 0 * u 2 1 + dNx 3 0 * u 3 1)
        let gradu := gradu.set (T.idx 0 1)
          (dNx 0 1 * u 0 0 + dNx 1 1 * u 1 0 + dNx 2 1 * u 2 0 + dNx 3 1 * u 3 0)
        let gradu := gradu.set (T.idx 1 1)
          (dNx 0 1 * u 0 1 + dNx 1 1 * u 1 1 + dNx 2 1 * u 2 1 + dNx 3 1 * u 3 1)
        Tiny.toList T.Size gradu }

/-- Symmetric part of the dyadic product (`symGradN_vector<T>`): the local `gradu` is a
full 2x2 tensor, `eps` has storage `T`; `.5` is written `1 / 2`. -/
def symGradN_vector (T : TensorStorage) (q : Quadrature α) (elemvec : ArrD α) : ArrD α :=
  { shape := [q.m_nelem, q.m_nip, T.Size]
    data := (List.range q.m_nelem).flatMap fun e =>
      let u := (elemvec.view (elemvec.offset [e])).at2 2
      (List.range q.m_nip).flatMap fun k =>
        let dNx := (q.m_dNx.view (q.m_dNx.offset [e, k])).at2 2
        let gradu : Tiny α := Tiny.zero
        let gradu := gradu.set (TensorStorage.tensor2.idx 0 0)
          (dNx 0 0 * u 0 0 + dNx 1 0 * u 1 0 + dNx 2 0 * u 2 0 + dNx 3 0 * u 3 0)
        let gradu := gradu.set (TensorStorage.tensor2.idx 0 1)
          (dNx 0 0 * u 0 1 + dNx 1 0 * u 1 1 + dNx 2 0 * u 2 1 + dNx 3 0 * u 3 1)
        let gradu := gradu.set (TensorStorage.tensor2.idx 1 0)
          (dNx 0 1 * u 0 0 + dNx 1 1 * u 1 0 + dNx 2 1 * u 2 0 + dNx 3 1 * u 3 0)
        let gradu := gradu.set (TensorStorage.tensor2.idx 1 1)
          (dNx 0 1 * u 0 1 + dNx 1 1 * u 1 1 + dNx 2 1 * u 2 1 + dNx 3 1 * u 3 1)
        let eps : Tiny α := Tiny.zero
        let eps := eps.set (T.idx 0 0) (gradu (TensorStorage.tensor2.idx 0 0))
        let eps := eps.set (T.idx 0 1)
          (1 / 2 * (gradu (TensorStorage.tensor2.idx 0 1) + gradu (TensorStorage.tensor2.idx 1 0)))
        let eps := eps.set (T.idx 1 0) (eps (T.idx 0 1))
        let eps := eps.set (T.idx 1 1) (gradu (TensorStorage.tensor2.idx 1 1))
        Tiny.toList T.Size eps }

/-- The local tensor `gradu` of `gradN_vector<T>` at `(e,k)` after its four
assignments. -/
def graduLocal (T : TensorStorage) (q : Quadrature α) (elemvec : ArrD α) (e k : Nat) :
    Tiny α :=
  let u := (elemvec.view (elemvec.offset [e])).at2 2
  let dNx := (q.m_dNx.view (q.m_dNx.offset [e, k])).at2 2
  let gradu : Tiny α := Tiny.zero
  let gradu := gradu.set (T.idx 0 0)
    (dNx 0 0 * u 0 0 + dNx 1 0 * u 1 0 + dNx 2 0 * u 2 0 + dNx 3 0 * u 3 0)
  let gradu := gradu.set (T.idx 0 1)
    (dNx 0 0 * u 0 1 + dNx 1 0 * u 1 1 + dNx 2 0 * u 2 1 + dNx 3 0 * u 3 1)
  let gradu := gradu.set (T.idx 1 0)
    (dNx 0 1 * u 0 0 + dNx 1 1 * u 1 0 + dNx 2 1 * u 2 0 + dNx 3 1 * u 3 0)
  gradu.set (T.idx 1 1)
    (dNx 0 1 * u 0 1 + dNx 1 1 * u 1 1 + dNx 2 1 * u 2 1 + dNx 3 1 * u 3 1)

/-- The local tensor `gradu` of `gradN_vector_T<T>` at `(e,k)` after its four
assignments. -/
def graduTLocal (T : TensorStorage) (q : Quadrature α) (elemvec : ArrD α) (e k : Nat) :
    Tiny α :=
  let u := (elemvec.view (elemvec.offset [e])).at2 2
  let dNx := (q.m_dNx.view (q.m_dNx.offset [e, k])).at2 2
  let gradu : Tiny α := Tiny.zero
  let gradu := gradu.set (T.idx 0 0)
    (dNx 0 0 * u 0 0 + dNx 1 0 * u 1 0 + dNx 2 0 * u 2 0 + dNx 3 0 * u 3 0)
  let gradu := gradu.set (T.idx 1 0)
    (dNx 0 0 * u 0 1 + dNx 1 0 * u 1 1 + dNx 2 0 * u 2 1 + dNx 3 0 * u 3 1)
  let gradu := gradu.set (T.idx 0 1)
    (dNx 0 1 * u 0 0 + dNx 1 1 * u 1 0 + dNx 2 1 * u 2 0 + dNx 3 1 * u 3 0)
  gradu.set (T.idx 1 1)
    (dNx 0 1 * u 0 1 + dNx 1 1 * u 1 1 + dNx 2 1 * u 2 1 + dNx 3 1 * u 3 1)

/-- The local tensor `eps` of `symGradN_vector<T>` at `(e,k)`: the symmetrised full
tensor `gradu`. -/
def epsLocal (T : TensorStorage) (q : Quadrature α) (elemvec : ArrD α) (e k : Nat) :
    Tiny α :=
  let gradu := graduLocal TensorStorage.tensor2 q elemvec e k
  let eps : Tiny α := Tiny.zero
  let eps := eps.set (T.idx 0 0) (gradu (TensorStorage.tensor2.idx 0 0))
  let eps := eps.set (T.idx 0 1)
    (1 / 2 * (gradu (TensorStorage.tensor2.idx 0 1) + gradu (TensorStorage.tensor2.idx 1 0)))
  let eps := eps.set (T.idx 1 0) (eps (T.idx 0 1))
  eps.set (T.idx 1 1) (gradu (TensorStorage.tensor2.idx 1 1))

/-- The overload `int_gradN_dot_tensor2_dV(qtensor)` without template argument: it
selects the storage from the number of components `qtensor.shape(2)` (`m_ndim*m_ndim`
is 4, `(m_ndim+1)*m_ndim/2` is 3) and throws otherwise. -/
def int_gradN_dot_tensor2_dV_auto (q : Quadrature α) (qtensor : ArrD α) :
    Except String (ArrD α) :=
  if qtensor.shape.getD 2 0 = 2 * 2 then
    .ok (q.int_gradN_dot_tensor2_dV TensorStorage.tensor2 qtensor)
  else if qtensor.shape.getD 2 0 = (2 + 1) * 2 / 2 then
    .ok (q.int_gradN_dot_tensor2_dV TensorStorage.tensor2s qtensor)
  else
    .error "assert: qtensor.shape(2) == 4 or qtensor.shape(2) == 3"

end Quadrature

namespace QuadratureAxisymmetric

/-- The view `gradu` written by `gradN_vector(elemvec, qtensor)` at `(e,k)`: zero-filled,
then `gradu(i,j) += B(m,i,j,k) * u(m,perm(k))` for the five written components. -/
def graduBlock (q : QuadratureAxisymmetric α) (elemvec : ArrD α) (e k : Nat) : Tiny α :=
  let u := (elemvec.view (elemvec.offset [e, 0, 0])).at2 2
  let B := fun m i j l => (q.m_B.view (q.m_B.offset [e, k, 0, 0, 0, 0])) (Bpos m i j l)
  let gradu : Tiny α := Tiny.zero
  let gradu := gradu.set (0 * 3 + 0)
    (B 0 0 0 0 * u 0 1 + B 1 0 0 0 * u 1 1 + B 2 0 0 0 * u 2 1 + B 3 0 0 0 * u 3 1)
  let gradu := gradu.set (1 * 3 + 1)
    (B 0 1 1 0 * u 0 1 + B 1 1 1 0 * u 1 1 + B 2 1 1 0 * u 2 1 + B 3 1 1 0 * u 3 1)
  let gradu := gradu.set (2 * 3 + 2)
    (B 0 2 2 2 * u 0 0 + B 1 2 2 2 * u 1 0 + B 2 2 2 2 * u 2 0 + B 3 2 2 2 * u 3 0)
  let gradu := gradu.set (0 * 3 + 2)
    (B 0 0 2 2 * u 0 0 + B 1 0 2 2 * u 1 0 + B 2 0 2 2 * u 2 0 + B 3 0 2 2 * u 3 0)
  gradu.set (2 * 3 + 0)
    (B 0 2 0 0 * u 0 1 + B 1 2 0 0 * u 1 1 + B 2 2 0 0 * u 2 1 + B 3 2 0 0 * u 3 1)

/-- The view `gradu` written by `gradN_vector_T(elemvec, qtensor)` at `(e,k)`. -/
def graduTBlock (q : QuadratureAxisymmetric α) (elemvec : ArrD α) (e k : Nat) : Tiny α :=
  let u := (elemvec.view (elemvec.offset [e, 0, 0])).at2 2
  let B := fun m i j l => (q.m_B.view (q.m_B.offset [e, k, 0, 0, 0, 0])) (Bpos m i j l)
  let gradu : Tiny α := Tiny.zero
  let gradu := gradu.set (0 * 3 + 0)
    (B 0 0 0 0 * u 0 1 + B 1 0 0 0 * u 1 1 + B 2 0 0 0 * u 2 1 + B 3 0 0 0 * u 3 1)
  let gradu := gradu.set (1 * 3 + 1)
    (B 0 1 1 0 * u 0 1 + B 1 1 1 0 * u 1 1 + B 2 1 1 0 * u 2 1 + B 3 1 1 0 * u 3 1)
  let gradu := gradu.set (2 * 3 + 2)
    (B 0 2 2 2 * u 0 0 + B 1 2 2 2 * u 1 0 + B 2 2 2 2 * u 2 0 + B 3 2 2 2 * u 3 0)
  let gradu := gradu.set (2 * 3 + 0)
    (B 0 0 2 2 * u 0 0 + B 1 0 2 2 * u 1 0 + B 2 0 2 2 * u 2 0 + B 3 0 2 2 * u 3 0)
  gradu.set (0 * 3 + 2)
    (B 0 2 0 0 * u 0 1 + B 1 2 0 0 * u 1 1 + B 2 2 0 0 * u 2 1 + B 3 2 0 0 * u 3 1)

/-- The view `eps` written by `symGradN_vector(elemvec, qtensor)` at `(e,k)`; `0.5` is
written `1 / 2`, and `eps(0,2) = eps(2,0)` reads the component just written. -/
def epsBlock (q : QuadratureAxisymmetric α) (elemvec : ArrD α) (e k : Nat) : Tiny α :=
  let u := (elemvec.view (elemvec.offset [e, 0, 0])).at2 2
  let B := fun m i j l => (q.m_B.view (q.m_B.offset [e, k, 0, 0, 0, 0])) (Bpos m i j l)
  let eps : Tiny α := Tiny.zero
  let eps := eps.set (0 * 3 + 0)
    (B 0 0 0 0 * u 0 1 + B 1 0 0 0 * u 1 1 + B 2 0 0 0 * u 2 1 + B 3 0 0 0 * u 3 1)
  let eps := eps.set (1 * 3 + 1)
    (B 0 1 1 0 * u 0 1 + B 1 1 1 0 * u 1 1 + B 2 1 1 0 * u 2 1 + B 3 1 1 0 * u 3 1)
  let eps := eps.set (2 * 3 + 2)
    (B 0 2 2 2 * u 0 0 + B 1 2 2 2 * u 1 0 + B 2 2 2 2 * u 2 0 + B 3 2 2 2 * u 3 0)
  let eps := eps.set (2 * 3 + 0)
    ((B 0 0 2 2 * u 0 0 + B 1 0 2 2 * u 1 0 + B 2 0 2 2 * u 2 0 + B 3 0 2 2 * u 3 0 +
      B 0 2 0 0 * u 0 1 + B 1 2 0 0 * u 1 1 + B 2 2 0 0 * u 2 1 + B 3 2 0 0 * u 3 1) *
      (1 / 2))
  eps.set (0 * 3 + 2) (eps (2 * 3 + 0))

/-- Allocating `gradN_vector(elemvec)`: the in-place overload run on the buffer of shape
`(nelem, nip, 3, 3)` that it allocates; the buffer is zero-filled and every view
`gradu` at `(e,k)` receives its five components. -/
def gradN_vector (q : QuadratureAxisymmetric α) (elemvec : ArrD α) : ArrD α :=
  { shape := [q.m_nelem, q.m_nip, 3, 3]
    data := (List.range q.m_nelem).flatMap fun e =>
      (List.range q.m_nip).flatMap fun k => Tiny.toList (3 * 3) (q.graduBlock elemvec e k) }

/-- Allocating `gradN_vector_T(elemvec)`. -/
def gradN_vector_T (q : QuadratureAxisymmetric α) (elemvec : ArrD α) : ArrD α :=
  { shape := [q.m_nelem, q.m_nip, 3, 3]
    data := (List.range q.m_nelem).flatMap fun e =>
      (List.range q.m_nip).flatMap fun k => Tiny.toList (3 * 3) (q.graduTBlock elemvec e k) }

/-- Allocating `symGradN_vector(elemvec)`. -/
def symGradN_vector (q : QuadratureAxisymmetric α) (elemvec : ArrD α) : ArrD α :=
  { shape := [q.m_nelem, q.m_nip, 3, 3]
    data := (List.range q.m_nelem).flatMap fun e =>
      (List.range q.m_nip).flatMap fun k => Tiny.toList (3 * 3) (q.epsBlock elemvec e k) }

end QuadratureAxisymmetric

/-- Cross product `(P_b - P_a) x (P_c - P_a)` of two edges of element `e` leaving its
node `a`. -/
def cross (x : ArrD α) (e a b c : Nat) : α :=
  (x.get3 e b 0 - x.get3 e a 0) * (x.get3 e c 1 - x.get3 e a 1) -
    (x.get3 e b 1 - x.get3 e a 1) * (x.get3 e c 0 - x.get3 e a 0)

/-- Element `e` is a strictly convex quadrilateral with counter-clockwise node order:
at each corner the cross product of the edge to the next node with the edge to the
previous node is positive. -/
def strictlyConvexCCW (x : ArrD α) (e : Nat) : Prop :=
  0 < cross x e 0 1 3 ∧ 0 < cross x e 1 2 0 ∧ 0 < cross x e 2 3 1 ∧ 0 < cross x e 3 0 2

end Element.Quad4

namespace Mesh

/-- Modelled from the spec: `Mesh::dofs(nnode, ndim)`, declared in `Mesh.h` as the list
with DOF numbers in sequential order (its body is not part of the sources):
`dofs(n,i) = n * ndim + i`. -/
def dofs (nnode ndim : Nat) : ArrD Nat :=
  { shape := [nnode, ndim], data := List.range (nnode * ndim) }

end Mesh

/-! ## Layout conversion (`Vector`) -/

/-- Assignment `a[p] = v` at a flat position. -/
def ArrD.write {α : Type} (a : ArrD α) (p : Nat) (v : α) : ArrD α :=
  { a with data := a.data.set p v }

/-- Modelled from the spec: the class `Vector`.  Its implementation is not part of the
sources (`develop/Vector.cpp` is its test), so the conversions follow section 4.2 of the
spec: node to DOF is a direct gather through the DOF map, one value copied per (node,
component); DOF to node is a direct scatter through the DOF map; node to element and
element to DOF (non-accumulating) gather through the connectivity; the assembling
variants accumulate (sum) all contributions that reference the same DOF.  The number of
DOFs is the largest DOF id plus one.  Each conversion visits its index tuples in
row-major order. -/
structure Vector where
  m_conn : ArrD Nat
  m_dofs : ArrD Nat
  m_nelem : Nat
  m_nne : Nat
  m_nnode : Nat
  m_ndim : Nat
  m_ndof : Nat
deriving DecidableEq, Repr

namespace Vector

variable {α : Type} [LinearOrderedField α]

/-- Largest entry of an index array (`maxCoeff`). -/
def maxCoeff (a : ArrD Nat) : Nat := a.data.foldl max 0

/-- Constructor `Vector(conn, dofs)`. -/
def new (conn dofs : ArrD Nat) : Vector :=
  { m_conn := conn
    m_dofs := dofs
    m_nelem := conn.shape.getD 0 0
    m_nne := conn.shape.getD 1 0
    m_nnode := dofs.shape.getD 0 0
    m_ndim := dofs.shape.getD 1 0
    m_ndof := maxCoeff dofs + 1 }

/-- All (node, component) pairs, row-major. -/
def nodePairs (v : Vector) : List (Nat × Nat) :=
  List.product (List.range v.m_nnode) (List.range v.m_ndim)

/-- All (element, local node, component) triples, row-major. -/
def elemTriples (v : Vector) : List (Nat × Nat × Nat) :=
  List.product (List.range v.m_nelem)
    (List.product (List.range v.m_nne) (List.range v.m_ndim))

/-- DOF id of component `i` of node `n`. -/
def dof (v : Vector) (n i : Nat) : Nat := v.m_dofs.get2 n i

/-- DOF id of component `i` of local node `m` of element `e`. -/
def elemDof (v : Vector) (e m i : Nat) : Nat := v.dof (v.m_conn.get2 e m) i

/-- Node layout to DOF layout: `dofval(dofs(n,i)) = nodevec(n,i)`. -/
def asDofs_nodevec (v : Vector) (nodevec : ArrD α) : ArrD α :=
  v.nodePairs.foldl (fun dofval p => dofval.write (v.dof p.1 p.2) (nodevec.get2 p.1 p.2))
    (ArrD.zero [v.m_ndof])

/-- Element layout to DOF layout, not accumulating:
`dofval(dofs(conn(e,m),i)) = elemvec(e,m,i)`. -/
def asDofs_elemvec (v : Vector) (elemvec : ArrD α) : ArrD α :=
  v.elemTriples.foldl
    (fun dofval t => dofval.write (v.elemDof t.1 t.2.1 t.2.2) (elemvec.get3 t.1 t.2.1 t.2.2))
    (ArrD.zero [v.m_ndof])

/-- DOF layout to node layout: `nodevec(n,i) = dofval(dofs(n,i))`. -/
def asNode_dofval (v : Vector) (dofval : ArrD α) : ArrD α :=
  { shape := [v.m_nnode, v.m_ndim]
    data := v.nodePairs.map fun p => dofval.get1 (v.dof p.1 p.2) }

/-- DOF layout to element layout: `elemvec(e,m,i) = dofval(dofs(conn(e,m),i))`. -/
def asElement_dofval (v : Vector) (dofval : ArrD α) : ArrD α :=
  { shape := [v.m_nelem, v.m_nne, v.m_ndim]
    data := v.elemTriples.map fun t => dofval.get1 (v.elemDof t.1 t.2.1 t.2.2) }

/-- Node layout to element layout: `elemvec(e,m,i) = nodevec(conn(e,m),i)`. -/
def asElement_nodevec (v : Vector) (nodevec : ArrD α) : ArrD α :=
  { shape := [v.m_nelem, v.m_nne, v.m_ndim]
    data := v.elemTriples.map fun t => nodevec.get2 (v.m_conn.get2 t.1 t.2.1) t.2.2 }

/-- Node layout assembled to DOF layout: `dofval(dofs(n,i)) += nodevec(n,i)`. -/
def assembleDofs_nodevec (v : Vector) (nodevec : ArrD α) : ArrD α :=
  v.nodePairs.foldl
    (fun dofval p =>
      dofval.write (v.dof p.1 p.2) (dofval.get1 (v.dof p.1 p.2) + nodevec.get2 p.1 p.2))
    (ArrD.zero [v.m_ndof])

/-- Element layout assembled to DOF layout:
`dofval(dofs(conn(e,m),i)) += elemvec(e,m,i)`. -/
def assembleDofs_elemvec (v : Vector) (elemvec : ArrD α) : ArrD α :=
  v.elemTriples.foldl
    (fun dofval t =>
      dofval.write (v.elemDof t.1 t.2.1 t.2.2)
        (dofval.get1 (v.elemDof t.1 t.2.1 t.2.2) + elemvec.get3 t.1 t.2.1 t.2.2))
    (ArrD.zero [v.m_ndof])

/-- Input contract of the constructor: `conn` is `(nelem, nne)` with valid node indices
and `dofs` is `(nnode, ndim)`. -/
def WF (v : Vector) : Prop :=
  v.m_conn.hasShape [v.m_nelem, v.m_nne] ∧ v.m_dofs.hasShape [v.m_nnode, v.m_ndim] ∧
  v.m_ndof = maxCoeff v.m_dofs + 1 ∧ ∀ c ∈ v.m_conn.data, c < v.m_nnode

instance (v : Vector) : Decidable v.WF := by
  unfold WF; infer_instance

end Vector

namespace Mesh.Quad4.Regular22

/-- Modelled from the spec: the regular mesh of 2 x 2 quadrilaterals
(`Mesh::Quad4::Regular mesh(2,2)`, whose class is not part of the sources): 9 nodes
numbered row by row, 4 elements with counter-clockwise connectivity. -/
def conn : ArrD Nat :=
  { shape := [4, 4]
    data := [0, 1, 4, 3,
             1, 2, 5, 4,
             3, 4, 7, 6,
             4, 5, 8, 7] }

/-- Modelled from the spec: the periodic DOF map of the 2 x 2 mesh (`dofsPeriodic`):
the nodes of the right and top edges share the DOFs of their partners on the left and
bottom edges, so that the DOFs are those of nodes 0, 1, 3 and 4, as the checks of
`develop/Vector.cpp` read them. -/
def dofsPeriodic : ArrD Nat :=
  { shape := [9, 2]
    data := [0, 1,
             2, 3,
             0, 1,
             4, 5,
             6, 7,
             4, 5,
             0, 1,
             2, 3,
             0, 1] }

/-- Number of nodes. -/
def nnode : Nat := 9

/-- Number of nodes after the periodic identification. -/
def nnodePeriodic : Nat := 4

/-- Number of dimensions. -/
def ndim : Nat := 2

/-- The `Vector` of the tests: `Vector(mesh.conn(), mesh.dofsPeriodic())`. -/
def vector : Vector := Vector.new conn dofsPeriodic

/-- The velocity field of the tests of `develop/Vector.cpp`. -/
def velocity : ArrD ℚ :=
  { shape := [9, 2]
    data := [1, 0,
             1, 0,
             1, 0,
             3 / 2, 0,
             3 / 2, 0,
             3 / 2, 0,
             1, 0,
             1, 0,
             1, 0] }

/-- The force field of the tests of `develop/Vector.cpp`. -/
def force : ArrD ℚ :=
  { shape := [9, 2]
    data := [-1, -1,
             0, -1,
             1, -1,
             -1, 0,
             0, 0,
             1, 0,
             -1, 1,
             0, 1,
             1, 1] }

end Mesh.Quad4.Regular22

namespace Mesh.Quad4.Regular22

/-- Modelled from the spec: the nodal coordinates of the regular mesh of 2 x 2 equal
squares of side `h` (`mesh.coor()`), node `(i, j)` of the 3 x 3 grid at `(i*h, j*h)`,
nodes numbered row by row. -/
def coor {α : Type} [LinearOrderedField α] (h : α) : ArrD α :=
  { shape := [9, 2]
    data := [0, 0,
             h, 0,
             2 * h, 0,
             0, h,
             h, h,
             2 * h, h,
             0, 2 * h,
             h, 2 * h,
             2 * h, 2 * h] }

/-- The centre node of the 2 x 2 mesh, the only node not on the boundary. -/
def centre : Nat := 4

end Mesh.Quad4.Regular22

namespace Mesh.Quad4.Regular22

/-- Nodal coordinates of the 2 x 2 mesh per element, `x(e,m,i) = coor(conn(e,m),i)`:
the array that is handed to `Quadrature`. -/
def elemCoor {α : Type} [LinearOrderedField α] (h : α) : ArrD α :=
  { shape := [4, 4, 2]
    data := (List.range 4).flatMap fun e =>
      (List.range 4).flatMap fun m =>
        [(coor h).get2 (conn.get2 e m) 0, (coor h).get2 (conn.get2 e m) 1] }

end Mesh.Quad4.Regular22

/-! ## Concrete inputs -/

namespace Examples

open Element.Quad4

/-- Coordinates of one unit square, nodes numbered counter-clockwise. -/
def squareCCW : ArrD ℚ := { shape := [1, 4, 2], data := [0, 0, 1, 0, 1, 1, 0, 1] }

/-- Coordinates of one unit square, nodes numbered clockwise. -/
def squareCW : ArrD ℚ := { shape := [1, 4, 2], data := [0, 0, 0, 1, 1, 1, 1, 0] }

/-- Coordinates of one element whose four nodes coincide at the origin. -/
def squareCollapsed : ArrD ℚ := { shape := [1, 4, 2], data := [0, 0, 0, 0, 0, 0, 0, 0] }

/-- Quadrature state of the counter-clockwise unit square with the nodal scheme. -/
def quadCCW : Quadrature ℚ := Quadrature.init squareCCW Nodal.xi Nodal.w Nodal.nip

/-- A full tensor field on one element with four integration points. -/
def sigmaField : ArrD ℚ :=
  { shape := [1, 4, 4], data := [1, 2, 3, 4, 1, 2, 3, 4, 1, 2, 3, 4, 1, 2, 3, 4] }

/-- An element vector field on one element. -/
def uField : ArrD ℚ := { shape := [1, 4, 2], data := [0, 0, 1, 0, 1, 2, 0, 2] }

/-- A scalar field on one element with four integration points. -/
def rhoField : ArrD ℚ := { shape := [1, 4], data := [1, 1, 1, 1] }

/-- Quadrature state of the clockwise unit square with the nodal scheme. -/
def quadCW : Quadrature ℚ := Quadrature.init squareCW Nodal.xi Nodal.w Nodal.nip

/-- Quadrature state of the collapsed element with the nodal scheme. -/
def quadCollapsed : Quadrature ℚ :=
  Quadrature.init squareCollapsed Nodal.xi Nodal.w Nodal.nip

end Examples

/-- One unit square with counter-clockwise node numbering, over any field. -/
def Examples.unitSquare (α : Type) [LinearOrderedField α] : ArrD α :=
  { shape := [1, 4, 2], data := [0, 0, 1, 0, 1, 1, 0, 1] }

/-- The default-constructed (empty) array. -/
def Examples.emptyArr (α : Type) : ArrD α := { shape := [], data := [] }

/-- One unit square at radial distance 1 from the axis (second coordinate from 1 to 2),
counter-clockwise. -/
def Examples.squareOffAxis : ArrD ℚ :=
  { shape := [1, 4, 2], data := [0, 1, 1, 1, 1, 2, 0, 2] }

/-- Axisymmetric state of the off-axis unit square with the nodal scheme; `22 / 7`
stands in for the value of `M_PI`. -/
def Examples.axiCCW : Element.Quad4.QuadratureAxisymmetric ℚ :=
  Element.Quad4.QuadratureAxisymmetric.new (22 / 7) Examples.squareOffAxis
    Element.Quad4.Nodal.xi Element.Quad4.Nodal.w

/-- A full tensor field on 4 elements with 4 integration points that has the value
`[[1, 2], [3, 4]]` everywhere, over any field. -/
def Examples.uniformSigma (α : Type) [LinearOrderedField α] : ArrD α :=
  { shape := [4, 4, 4], data := (List.range 16).flatMap fun _ => [1, 2, 3, 4] }

namespace Element.Quad4.Quadrature

variable {α : Type} [LinearOrderedField α]

/-- Integration volume per tensor component (`dV(ncomp)`): the stored `m_vol` for
`ncomp == 0`, otherwise a zero-initialised array of shape `(nelem, nip, ncomp)` whose
every entry `out(e,k,i)` receives `m_vol(e,k)`.  The member function is `const`: it
returns the array and has no access to change the state. -/
def dV (q : Quadrature α) (ncomp : Nat) : ArrD α :=
  if ncomp = 0 then q.m_vol
  else
    { shape := [q.m_nelem, q.m_nip, ncomp]
      data := (List.range q.m_nelem).flatMap fun e =>
        (List.range q.m_nip).flatMap fun k =>
          (List.range ncomp).map fun _ => q.m_vol.get2 e k }

end Element.Quad4.Quadrature

namespace Element.Quad4

variable {α : Type} [LinearOrderedField α]

/-- Two arrays with four nodes and two components per element agree on element `e`. -/
def agreeOn (u1 u2 : ArrD α) (e : Nat) : Prop :=
  ∀ m, m < 4 → ∀ j, j < 2 → u1.get3 e m j = u2.get3 e m j

instance (u1 u2 : ArrD α) (e : Nat) : Decidable (agreeOn u1 u2 e) := by
  unfold agreeOn; infer_instance

/-- Two quadrature-point fields with `nip` points and `ncomp` components per point
agree on element `e`. -/
def agreeOnPoints (nip ncomp : Nat) (s1 s2 : ArrD α) (e : Nat) : Prop :=
  ∀ k, k < nip → ∀ c, c < ncomp → s1.get3 e k c = s2.get3 e k c

instance (nip ncomp : Nat) (s1 s2 : ArrD α) (e : Nat) :
    Decidable (agreeOnPoints nip ncomp s1 s2 e) := by
  unfold agreeOnPoints; infer_instance

end Element.Quad4

/-- Two unit squares side by side, counter-clockwise. -/
def Examples.twoSquares : ArrD ℚ :=
  { shape := [2, 4, 2], data := [0, 0, 1, 0, 1, 1, 0, 1, 1, 0, 2, 0, 2, 1, 1, 1] }

/-- The first unit square of `twoSquares` next to a square of side 2. -/
def Examples.twoSquaresB : ArrD ℚ :=
  { shape := [2, 4, 2], data := [0, 0, 1, 0, 1, 1, 0, 1, 1, 0, 3, 0, 3, 2, 1, 2] }

/-- Entry `a(i,j,k,l,m,n)` of a rank-6 array. -/
def ArrD.get6 {α : Type} [Zero α] (a : ArrD α) (i j k l m n : Nat) : α :=
  a.read (a.offset [i, j, k, l, m, n])

/-- Component `(i,j)` of a local 2x2 tensor. -/
def Tensor2.entry {α : Type} (J : Tensor2 α) (i j : Nat) : α :=
  if i = 0 then (if j = 0 then J.c00 else J.c01) else (if j = 0 then J.c10 else J.c11)

namespace Element.Quad4.QuadratureAxisymmetric

variable {α : Type} [LinearOrderedField α]

/-- Index permutation of the comments of the axisymmetric class: tensor component 0 (r)
goes with vector component 1, tensor component 2 (z) with vector component 0
(`perm(0) = 1, perm(2) = 0`). -/
def perm (c : Nat) : Nat := if c = 0 then 1 else 0

/-- Global shape function gradient as the comment of `compute_dN` words it,
`dNx(m,i) += Jinv(i,j) * dNxi(m,j)`, at element `e` and integration point `k`. -/
def dNdx (q : QuadratureAxisymmetric α) (e k m i : Nat) : α :=
  (q.jacobian e k).inv.entry i 0 * (q.m_dNxi.view (q.m_dNxi.offset [k, 0, 0])).at2 2 m 0 +
    (q.jacobian e k).inv.entry i 1 * (q.m_dNxi.view (q.m_dNxi.offset [k, 0, 0])).at2 2 m 1

/-- The components `B(m,i,j,k)` that `compute_dN` writes for each node `m`:
`(0,0,0)`, `(0,2,2)`, `(1,1,0)`, `(2,0,0)` and `(2,2,2)`. -/
def written (i j k : Nat) : Prop :=
  (i = 0 ∧ j = 0 ∧ k = 0) ∨ (i = 0 ∧ j = 2 ∧ k = 2) ∨ (i = 1 ∧ j = 1 ∧ k = 0) ∨
    (i = 2 ∧ j = 0 ∧ k = 0) ∨ (i = 2 ∧ j = 2 ∧ k = 2)

instance (i j k : Nat) : Decidable (written i j k) := by
  unfold written; infer_instance

/-- Allocating `dV()`: every entry `qscalar(e,q)` of the buffer of shape `(nelem, nip)`
receives `m_vol(e,q)`. -/
def dV (q : QuadratureAxisymmetric α) : ArrD α :=
  { shape := [q.m_nelem, q.m_nip]
    data := (List.range q.m_nelem).flatMap fun e =>
      (List.range q.m_nip).map fun k => q.m_vol.get2 e k }

/-- The buffer that `dVtensor()`, `gradN_vector(elemvec)`, `gradN_vector_T(elemvec)` and
`symGradN_vector(elemvec)` allocate before they call the in-place overload
(`xt::empty<double>` of shape `(m_nelem, m_nip, m_tdim, m_tdim)`, rendered
zero-filled). -/
def allocTensor (q : QuadratureAxisymmetric α) : ArrD α :=
  ArrD.zero [q.m_nelem, q.m_nip, 3, 3]

/-- The four `assert` lines on `qtensor` of the in-place overloads `dV(qtensor)`,
`gradN_vector`, `gradN_vector_T` and `symGradN_vector`: extent 0 is `m_nelem`,
extent 1 is `m_nne`, extents 2 and 3 are `m_tdim`. -/
def qtensorAsserts (q : QuadratureAxisymmetric α) (qtensor : ArrD α) : Prop :=
  qtensor.shape.getD 0 0 = q.m_nelem ∧ qtensor.shape.getD 1 0 = 4 ∧
    qtensor.shape.getD 2 0 = 3 ∧ qtensor.shape.getD 3 0 = 3

instance (q : QuadratureAxisymmetric α) (qtensor : ArrD α) :
    Decidable (q.qtensorAsserts qtensor) := by
  unfold qtensorAsserts; infer_instance

/-- Allocating `dVtensor()` with the assertions compiled out: the loop of `dV(qtensor)`
on the allocated buffer, `qtensor(e,q,i,j) = m_vol(e,q)`. -/
def dVtensor (q : QuadratureAxisymmetric α) : ArrD α :=
  { shape := [q.m_nelem, q.m_nip, 3, 3]
    data := (List.range q.m_nelem).flatMap fun e =>
      (List.range q.m_nip).flatMap fun k =>
        Tiny.toList (3 * 3) (fun _ => q.m_vol.get2 e k) }

/-- Element vector `f` of `int_gradN_dot_tensor2_dV` for element `e`:
`f(m,i) += B(m,i,j,perm(k)) * sig(i,j) * dV`, with the two unrolled lines of the
source. -/
def forceBlock (q : QuadratureAxisymmetric α) (qtensor : ArrD α) (e : Nat) : Tiny α :=
  (List.range q.m_nip).foldl
    (fun f k =>
      let B := fun m i j l => (q.m_B.view (q.m_B.offset [e, k, 0, 0, 0, 0])) (Bpos m i j l)
      let sig := (qtensor.view (qtensor.offset [e, k, 0, 0])).at2 3
      let vol := q.m_vol.get2 e k
      (List.range 4).foldl
        (fun f m =>
          (f.add (m * 2 + 0) ((B m 2 2 2 * sig 2 2 + B m 0 2 2 * sig 0 2) * vol)).add
            (m * 2 + 1)
            ((B m 0 0 0 * sig 0 0 + B m 1 1 0 * sig 1 1 + B m 2 0 0 * sig 2 0) * vol))
        f)
    Tiny.zero

/-- Allocating `int_gradN_dot_tensor2_dV(qtensor)`. -/
def int_gradN_dot_tensor2_dV (q : QuadratureAxisymmetric α) (qtensor : ArrD α) : ArrD α :=
  { shape := [q.m_nelem, 4, 2]
    data := (List.range q.m_nelem).flatMap fun e =>
      Tiny.toList (4 * 2) (q.forceBlock qtensor e) }

end Element.Quad4.QuadratureAxisymmetric

namespace Element.Quad4.QuadratureAxisymmetric

variable {α : Type} [LinearOrderedField α]

/-- The 25 accumulations of `int_gradN_dot_tensor4_dot_gradNT_dV` for one pair of nodes
`(m, n)`, in the order of the source; `K(r,c)` is at flat position `r * 8 + c`. -/
def stiffStep (B C : Nat → Nat → Nat → Nat → α) (vol : α) (K : Tiny α) (m n : Nat) :
    Tiny α :=
  let K := K.add ((m * 2 + 1) * 8 + (n * 2 + 1)) (B m 0 0 0 * C 0 0 0 0 * B n 0 0 0 * vol)
  let K := K.add ((m * 2 + 1) * 8 + (n * 2 + 1)) (B m 0 0 0 * C 0 0 1 1 * B n 1 1 0 * vol)
  let K := K.add ((m * 2 + 1) * 8 + (n * 2 + 0)) (B m 0 0 0 * C 0 0 2 2 * B n 2 2 2 * vol)
  let K := K.add ((m * 2 + 1) * 8 + (n * 2 + 0)) (B m 0 0 0 * C 0 0 2 0 * B n 0 2 2 * vol)
  let K := K.add ((m * 2 + 1) * 8 + (n * 2 + 1)) (B m 0 0 0 * C 0 0 0 2 * B n 2 0 0 * vol)
  let K := K.add ((m * 2 + 1) * 8 + (n * 2 + 1)) (B m 1 1 0 * C 1 1 0 0 * B n 0 0 0 * vol)
  let K := K.add ((m * 2 + 1) * 8 + (n * 2 + 1)) (B m 1 1 0 * C 1 1 1 1 * B n 1 1 0 * vol)
  let K := K.add ((m * 2 + 1) * 8 + (n * 2 + 0)) (B m 1 1 0 * C 1 1 2 2 * B n 2 2 2 * vol)
  let K := K.add ((m * 2 + 1) * 8 + (n * 2 + 0)) (B m 1 1 0 * C 1 1 2 0 * B n 0 2 2 * vol)
  let K := K.add ((m * 2 + 1) * 8 + (n * 2 + 1)) (B m 1 1 0 * C 1 1 0 2 * B n 2 0 0 * vol)
  let K := K.add ((m * 2 + 0) * 8 + (n * 2 + 1)) (B m 2 2 2 * C 2 2 0 0 * B n 0 0 0 * vol)
  let K := K.add ((m * 2 + 0) * 8 + (n * 2 + 1)) (B m 2 2 2 * C 2 2 1 1 * B n 1 1 0 * vol)
  let K := K.add ((m * 2 + 0) * 8 + (n * 2 + 0)) (B m 2 2 2 * C 2 2 2 2 * B n 2 2 2 * vol)
  let K := K.add ((m * 2 + 0) * 8 + (n * 2 + 0)) (B m 2 2 2 * C 2 2 2 0 * B n 0 2 2 * vol)
  let K := K.add ((m * 2 + 0) * 8 + (n * 2 + 1)) (B m 2 2 2 * C 2 2 0 2 * B n 2 0 0 * vol)
  let K := K.add ((m * 2 + 0) * 8 + (n * 2 + 1)) (B m 0 2 2 * C 0 2 0 0 * B n 0 0 0 * vol)
  let K := K.add ((m * 2 + 0) * 8 + (n * 2 + 1)) (B m 0 2 2 * C 0 2 1 1 * B n 1 1 0 * vol)
  let K := K.add ((m * 2 + 0) * 8 + (n * 2 + 0)) (B m 0 2 2 * C 0 2 2 2 * B n 2 2 2 * vol)
  let K := K.add ((m * 2 + 0) * 8 + (n * 2 + 0)) (B m 0 2 2 * C 0 2 2 0 * B n 0 2 2 * vol)
  let K := K.add ((m * 2 + 0) * 8 + (n * 2 + 1)) (B m 0 2 2 * C 0 2 0 2 * B n 2 0 0 * vol)
  let K := K.add ((m * 2 + 1) * 8 + (n * 2 + 1)) (B m 2 0 0 * C 2 0 0 0 * B n 0 0 0 * vol)
  let K := K.add ((m * 2 + 1) * 8 + (n * 2 + 1)) (B m 2 0 0 * C 2 0 1 1 * B n 1 1 0 * vol)
  let K := K.add ((m * 2 + 1) * 8 + (n * 2 + 0)) (B m 2 0 0 * C 2 0 2 2 * B n 2 2 2 * vol)
  let K := K.add ((m * 2 + 1) * 8 + (n * 2 + 0)) (B m 2 0 0 * C 2 0 2 0 * B n 0 2 2 * vol)
  K.add ((m * 2 + 1) * 8 + (n * 2 + 1)) (B m 2 0 0 * C 2 0 0 2 * B n 2 0 0 * vol)

/-- Flat position of `C(a,b,d,g)` in the view of extent `(3,3,3,3)`. -/
def Cpos (a b d g : Nat) : Nat := ((a * 3 + b) * 3 + d) * 3 + g

/-- Element matrix `K` of `int_gradN_dot_tensor4_dot_gradNT_dV` for element `e`. -/
def stiffBlock (q : QuadratureAxisymmetric α) (qtensor : ArrD α) (e : Nat) : Tiny α :=
  (List.range q.m_nip).foldl
    (fun K k =>
      let B := fun m i j l => (q.m_B.view (q.m_B.offset [e, k, 0, 0, 0, 0])) (Bpos m i j l)
      let C := fun a b d g =>
        (qtensor.view (qtensor.offset [e, k, 0, 0, 0, 0])) (Cpos a b d g)
      let vol := q.m_vol.get2 e k
      (List.range 4).foldl
        (fun K m => (List.range 4).foldl (fun K n => stiffStep B C vol K m n) K)
        K)
    Tiny.zero

/-- Allocating `int_gradN_dot_tensor4_dot_gradNT_dV(qtensor)`. -/
def int_gradN_dot_tensor4_dot_gradNT_dV (q : QuadratureAxisymmetric α) (qtensor : ArrD α) :
    ArrD α :=
  { shape := [q.m_nelem, 2 * 4, 2 * 4]
    data := (List.range q.m_nelem).flatMap fun e =>
      Tiny.toList (4 * 2 * (4 * 2)) (q.stiffBlock qtensor e) }

end Element.Quad4.QuadratureAxisymmetric

/-- The one-point scheme: the centre of the reference square. -/
def Examples.onePointXi : ArrD ℚ := { shape := [1, 2], data := [0, 0] }

/-- The weight of the one-point scheme. -/
def Examples.onePointW : ArrD ℚ := { shape := [1], data := [4] }

/-- Axisymmetric state of the off-axis unit square with the one-point scheme. -/
def Examples.axiOnePoint : Element.Quad4.QuadratureAxisymmetric ℚ :=
  Element.Quad4.QuadratureAxisymmetric.new (22 / 7) Examples.squareOffAxis
    Examples.onePointXi Examples.onePointW

/-- A 3x3 tensor field on one element with four integration points, components
`1, ..., 9` at every point. -/
def Examples.sigmaAxi : ArrD ℚ :=
  { shape := [1, 4, 3, 3]
    data := (List.range 4).flatMap fun _ => [1, 2, 3, 4, 5, 6, 7, 8, 9] }

namespace Element.Quad4.QuadratureAxisymmetric

variable {α : Type} [LinearOrderedField α]

/-- Sum of the accumulations of `stiffStep` for the pair of nodes `(m, n)` that go to
the entry `K(2m+r, 2n+s)`, `r, s < 2`. -/
def stiffEntry (B C : Nat → Nat → Nat → Nat → α) (vol : α) (r s m n : Nat) : α :=
  if r = 1 ∧ s = 1 then
    B m 0 0 0 * C 0 0 0 0 * B n 0 0 0 * vol + B m 0 0 0 * C 0 0 1 1 * B n 1 1 0 * vol +
    B m 0 0 0 * C 0 0 0 2 * B n 2 0 0 * vol + B m 1 1 0 * C 1 1 0 0 * B n 0 0 0 * vol +
    B m 1 1 0 * C 1 1 1 1 * B n 1 1 0 * vol + B m 1 1 0 * C 1 1 0 2 * B n 2 0 0 * vol +
    B m 2 0 0 * C 2 0 0 0 * B n 0 0 0 * vol + B m 2 0 0 * C 2 0 1 1 * B n 1 1 0 * vol +
    B m 2 0 0 * C 2 0 0 2 * B n 2 0 0 * vol
  else if r = 1 ∧ s = 0 then
    B m 0 0 0 * C 0 0 2 2 * B n 2 2 2 * vol + B m 0 0 0 * C 0 0 2 0 * B n 0 2 2 * vol +
    B m 1 1 0 * C 1 1 2 2 * B n 2 2 2 * vol + B m 1 1 0 * C 1 1 2 0 * B n 0 2 2 * vol +
    B m 2 0 0 * C 2 0 2 2 * B n 2 2 2 * vol + B m 2 0 0 * C 2 0 2 0 * B n 0 2 2 * vol
  else if r = 0 ∧ s = 1 then
    B m 2 2 2 * C 2 2 0 0 * B n 0 0 0 * vol + B m 2 2 2 * C 2 2 1 1 * B n 1 1 0 * vol +
    B m 2 2 2 * C 2 2 0 2 * B n 2 0 0 * vol + B m 0 2 2 * C 0 2 0 0 * B n 0 0 0 * vol +
    B m 0 2 2 * C 0 2 1 1 * B n 1 1 0 * vol + B m 0 2 2 * C 0 2 0 2 * B n 2 0 0 * vol
  else
    B m 2 2 2 * C 2 2 2 2 * B n 2 2 2 * vol + B m 2 2 2 * C 2 2 2 0 * B n 0 2 2 * vol +
    B m 0 2 2 * C 0 2 2 2 * B n 2 2 2 * vol + B m 0 2 2 * C 0 2 2 0 * B n 0 2 2 * vol

end Element.Quad4.QuadratureAxisymmetric

/-- A 4th-order tensor field on one element with four integration points: component
`C(a,b,d,g)` is `1 + a + 2 b + 3 d + 5 g` at every point. -/
def Examples.tangentAxi : ArrD ℚ :=
  { shape := [1, 4, 3, 3, 3, 3]
    data := (List.range 4).flatMap fun _ =>
      (List.range 81).map fun p =>
        ((1 + p / 27 + 2 * (p / 9 % 3) + 3 * (p / 3 % 3) + 5 * (p % 3) : Nat) : ℚ) }

/-- An element vector on one element: a stretch with shear. -/
def Examples.uShear : ArrD ℚ := { shape := [1, 4, 2], data := [0, 0, 1, 1, 3, 2, 1, 3] }

/-- The stress of the tangent `tangentAxi` for the element vector `uShear` on the
off-axis unit square: `sigma(e,q,a,b) = sum over d, g of C(e,q,a,b,d,g) *
gradN_vector_T(u)(e,q,d,g)`. -/
def Examples.tangentStress : ArrD ℚ :=
  { shape := [1, 4, 3, 3]
    data := (List.range 4).flatMap fun k =>
      (List.range 9).map fun p =>
        ∑ d ∈ Finset.range 3, ∑ g ∈ Finset.range 3,
          Examples.tangentAxi.get6 0 k (p / 3) (p % 3) d g *
            (Examples.axiCCW.gradN_vector_T Examples.uShear).get4 0 k d g }

/-! ## Tyings (`VectorPartitionedTyings`) -/

/-- Modelled from the spec: the class `VectorPartitionedTyings`.  Only its Python
binding is part of the sources, so the model follows sections 3 and 4.3 of the spec:
on top of a `Vector` the DOFs are split into unknown (`iiu`), prescribed (`iip`) and
dependent (`iid`) DOF ids, which partition `[0, ndof)`; the independent DOFs are the
unknown ones followed by the prescribed ones; the order within each set is fixed at
construction.  `Cdu`, `Cdp` and `Cdi` are the tying matrices of shape `(|d|, |u|)`,
`(|d|, |p|)` and `(|d|, |i|)`, kept dense. -/
structure VectorPartitionedTyings (α : Type) where
  base : Vector
  m_iiu : List Nat
  m_iip : List Nat
  m_iid : List Nat
  m_Cdu : ArrD α
  m_Cdp : ArrD α
  m_Cdi : ArrD α

namespace VectorPartitionedTyings

variable {α : Type} [LinearOrderedField α]

/-- Number of unknown DOFs (`nnu`). -/
def nnu (v : VectorPartitionedTyings α) : Nat := v.m_iiu.length

/-- Number of prescribed DOFs (`nnp`). -/
def nnp (v : VectorPartitionedTyings α) : Nat := v.m_iip.length

/-- Number of dependent DOFs (`nnd`). -/
def nnd (v : VectorPartitionedTyings α) : Nat := v.m_iid.length

/-- Independent DOFs (`iii`): the unknown DOFs, then the prescribed DOFs. -/
def iii (v : VectorPartitionedTyings α) : List Nat := v.m_iiu ++ v.m_iip

/-- Number of independent DOFs (`nni`). -/
def nni (v : VectorPartitionedTyings α) : Nat := v.iii.length

/-- Modelled from the spec: constructor
`VectorPartitionedTyings(conn, dofs, Cdu, Cdp, Cdi)`.  The sizes of the sets are read
from the matrices (`Cdu` has a column per unknown DOF, `Cdp` a column per prescribed
DOF, `Cdi` a row per dependent DOF).  The spec does not say which ids form each set;
here the DOF map is taken as reorganised by the provider of the tyings so that the
unknown ids come first, then the prescribed, then the dependent ones.  The properties
below are proved for every partition, not only for this one. -/
def new (conn dofs : ArrD Nat) (Cdu Cdp Cdi : ArrD α) : VectorPartitionedTyings α :=
  { base := Vector.new conn dofs
    m_iiu := List.range (Cdu.shape.getD 1 0)
    m_iip := (List.range (Cdp.shape.getD 1 0)).map fun a => Cdu.shape.getD 1 0 + a
    m_iid := (List.range (Cdi.shape.getD 0 0)).map fun a =>
      Cdu.shape.getD 1 0 + Cdp.shape.getD 1 0 + a
    m_Cdu := Cdu
    m_Cdp := Cdp
    m_Cdi := Cdi }

/-- Invariant of the data model: the unknown, prescribed and dependent ids partition
`[0, ndof)`, and the tying matrices have the shapes of the partition. -/
def WF (v : VectorPartitionedTyings α) : Prop :=
  (v.iii ++ v.m_iid).Perm (List.range v.base.m_ndof) ∧
  v.m_Cdu.hasShape [v.nnd, v.nnu] ∧ v.m_Cdp.hasShape [v.nnd, v.nnp] ∧
  v.m_Cdi.hasShape [v.nnd, v.nni]

instance (v : VectorPartitionedTyings α) : Decidable v.WF := by
  unfold WF; infer_instance

/-- Pure periodic tying: every row of `Cdi` sums to 1. -/
def rowsSumToOne (v : VectorPartitionedTyings α) : Prop :=
  ∀ b, b < v.nnd → ∑ a ∈ Finset.range v.nni, v.m_Cdi.get2 b a = 1

instance (v : VectorPartitionedTyings α) : Decidable v.rowsSumToOne := by
  unfold rowsSumToOne; infer_instance

/-- Modelled from the spec: element layout assembled to the independent-DOF layout
(section 4.3): the assembly of section 4.2 into the full DOF layout, then for every
independent DOF its direct contribution plus the contributions of the dependent DOFs
redistributed by the transpose of the tying relation, `f_i += Cdi^T * f_d`. -/
def assembleDofs_i (v : VectorPartitionedTyings α) (elemvec : ArrD α) : ArrD α :=
  { shape := [v.nni]
    data := (List.range v.nni).map fun a =>
      (v.base.assembleDofs_elemvec elemvec).get1 (v.iii.getD a 0) +
        ∑ b ∈ Finset.range v.nnd,
          v.m_Cdi.get2 b a * (v.base.assembleDofs_elemvec elemvec).get1 (v.m_iid.getD b 0) }

end VectorPartitionedTyings

namespace Mesh.Quad4.Regular22

/-- A DOF map of the 2 x 2 mesh for periodic tyings: the nodes 0, 1, 3 and 4 carry the
independent DOFs 0 to 7, their periodic partners on the right and top edge (the nodes
2, 5, 6, 7 and 8) carry the dependent DOFs 8 to 17. -/
def dofsTyings : ArrD Nat :=
  { shape := [9, 2]
    data := [0, 1,
             2, 3,
             8, 9,
             4, 5,
             6, 7,
             10, 11,
             12, 13,
             14, 15,
             16, 17] }

/-- The independent DOF that each dependent DOF 8, ..., 17 is tied to: node 2 to node 0,
node 5 to node 3, node 6 to node 0, node 7 to node 1 and node 8 to node 0. -/
def tyingTargets : List Nat := [0, 1, 4, 5, 0, 1, 2, 3, 0, 1]

/-- The tying matrix `Cdi` of the periodic setup, shape `(10, 8)`: one entry 1 per
row. -/
def Cdi : ArrD ℚ :=
  { shape := [10, 8]
    data := tyingTargets.flatMap fun t =>
      (List.range 8).map fun a => if a = t then 1 else 0 }

/-- No DOF is prescribed in the periodic setup: `Cdp` has no column. -/
def Cdp : ArrD ℚ := { shape := [10, 0], data := [] }

/-- The periodic setup of the 2 x 2 mesh; without prescribed DOFs `Cdu` is `Cdi`. -/
def tyings : VectorPartitionedTyings ℚ :=
  VectorPartitionedTyings.new conn dofsTyings Cdi Cdp Cdi

/-- An element-layout field on the 2 x 2 mesh with the entries `0, 1, ..., 31`. -/
def feField : ArrD ℚ :=
  { shape := [4, 4, 2], data := (List.range 32).map fun p => (p : ℚ) }

end Mesh.Quad4.Regular22

/-- Quadrature state of the counter-clockwise unit square with the default (Gauss)
scheme, for the value 2 of the square root of three. -/
def Examples.quadGauss : Element.Quad4.Quadrature ℚ :=
  Element.Quad4.Quadrature.init Examples.squareCCW (Element.Quad4.Gauss.xi 2)
    Element.Quad4.Gauss.w Element.Quad4.Gauss.nip

/-- Coordinates of one trapezoid with nodes `(0,0)`, `(2,0)`, `(1,1)`, `(0,1)`, numbered
counter-clockwise. -/
def Examples.trapezoid : ArrD ℚ := { shape := [1, 4, 2], data := [0, 0, 2, 0, 1, 1, 0, 1] }

namespace Element.Quad4.Quadrature

variable {α : Type} [LinearOrderedField α]

/-- The function `int_gradN_dot_tensor2s_dV(qtensor)`: `int_gradN_dot_tensor2_dV<T>` with
the symmetric storage. -/
def int_gradN_dot_tensor2s_dV (q : Quadrature α) (qtensor : ArrD α) : ArrD α :=
  q.int_gradN_dot_tensor2_dV TensorStorage.tensor2s qtensor

end Element.Quad4.Quadrature

/-- A symmetric tensor field `[s00, s01, s11]` on one element with four integration
points. -/
def Examples.sigmaSym : ArrD ℚ :=
  { shape := [1, 4, 3], data := [1, 2, 4, 5, 6, 8, 1, 0, 3, 2, 7, 9] }

/-- The full field `[s00, s01, s01, s11]` of `sigmaSym`. -/
def Examples.sigmaSymFull : ArrD ℚ :=
  { shape := [1, 4, 4], data := [1, 2, 2, 4, 5, 6, 6, 8, 1, 0, 0, 3, 2, 7, 7, 9] }

/-- A 4th-order tensor field with the major symmetry on one element with one integration
point: component `C(a,b,d,g)` is `1 + (a + g) + 2 (b + d) + a g`. -/
def Examples.tangentSym : ArrD ℚ :=
  { shape := [1, 1, 3, 3, 3, 3]
    data := (List.range 81).map fun p =>
      ((1 + (p / 27 + p % 3) + 2 * (p / 9 % 3 + p / 3 % 3) + p / 27 * (p % 3) : Nat) : ℚ) }

/-! ## Auxiliary lemmas on storage and loops -/

section Aux

variable {β : Type}

theorem length_flatMap_range_const (n L : Nat) (blk : Nat → List β)
    (hL : ∀ e, (blk e).length = L) : ((List.range n).flatMap blk).length = n * L := by
  induction n with
  | zero => simp
  | succ n ih =>
    rw [List.range_succ, List.flatMap_append, List.length_append, ih]
    simp [hL, Nat.succ_mul]

theorem getD_flatMap_range (d : β) (n L : Nat) (blk : Nat → List β)
    (hL : ∀ e, (blk e).length = L) (e r : Nat) (he : e < n) (hr : r < L) :
    ((List.range n).flatMap blk).getD (e * L + r) d = (blk e).getD r d := by
  induction n with
  | zero => omega
  | succ n ih =>
    have hlen := length_flatMap_range_const n L blk hL
    rw [List.range_succ, List.flatMap_append]
    by_cases hen : e < n
    · have hlt : e * L + r < ((List.range n).flatMap blk).length := by
        rw [hlen]
        calc e * L + r < e * L + L := by omega
          _ = (e + 1) * L := by ring
          _ ≤ n * L := Nat.mul_le_mul_right L hen
      rw [List.getD_append _ _ _ _ hlt]
      exact ih hen
    · have hee : e = n := by omega
      subst hee
      rw [List.getD_append_right _ _ _ _ (by rw [hlen]; omega), hlen]
      simp

theorem getD_map_range (d : β) (n r : Nat) (f : Nat → β) (hr : r < n) :
    ((List.range n).map f).getD r d = f r := by
  rw [List.getD_eq_getElem _ _ (by simpa using hr)]
  simp

theorem Tiny.length_toList (n : Nat) (t : Tiny β) : (Tiny.toList n t).length = n := by
  simp [Tiny.toList]

theorem Tiny.getD_toList (d : β) (n r : Nat) (t : Tiny β) (hr : r < n) :
    (Tiny.toList n t).getD r d = t r :=
  getD_map_range d n r t hr

theorem Tiny.add_apply [AddZeroClass β] (t : Tiny β) (p : Nat) (v : β) (r : Nat) :
    (t.add p v) r = t r + (if r = p then v else 0) := by
  unfold Tiny.add
  split <;> simp

/-- A loop whose every pass adds an increment `g k` to slot `p` leaves the initial
value plus the sum of the increments there. -/
theorem foldl_range_accum [AddCommMonoid β] (step : Tiny β → Nat → Tiny β) (p : Nat)
    (g : Nat → β) (hstep : ∀ f k, step f k p = f p + g k) (f0 : Tiny β) (n : Nat) :
    (List.foldl step f0 (List.range n)) p = f0 p + ∑ k ∈ Finset.range n, g k := by
  induction n with
  | zero => simp
  | succ n ih =>
    rw [List.range_succ, List.foldl_append, Finset.sum_range_succ]
    simp only [List.foldl_cons, List.foldl_nil]
    rw [hstep, ih, add_assoc]

theorem ArrD.offset2_of_shape {a : ArrD β} {n0 n1 : Nat} (h : a.shape = [n0, n1])
    (i j : Nat) : a.offset [i, j] = i * n1 + j := by
  simp [ArrD.offset, ArrD.strides, h]

theorem ArrD.offset1_of_shape3 {a : ArrD β} {n0 n1 n2 : Nat} (h : a.shape = [n0, n1, n2])
    (i : Nat) : a.offset [i] = i * (n1 * n2) := by
  simp [ArrD.offset, ArrD.strides, h]

theorem ArrD.offset2_of_shape3 {a : ArrD β} {n0 n1 n2 : Nat} (h : a.shape = [n0, n1, n2])
    (i j : Nat) : a.offset [i, j] = (i * n1 + j) * n2 := by
  simp [ArrD.offset, ArrD.strides, h]; ring

theorem ArrD.offset3_of_shape {a : ArrD β} {n0 n1 n2 : Nat} (h : a.shape = [n0, n1, n2])
    (i j k : Nat) : a.offset [i, j, k] = (i * n1 + j) * n2 + k := by
  simp [ArrD.offset, ArrD.strides, h]; ring

theorem ArrD.offset2_of_shape4 {a : ArrD β} {n0 n1 n2 n3 : Nat}
    (h : a.shape = [n0, n1, n2, n3]) (i j : Nat) :
    a.offset [i, j] = (i * n1 + j) * (n2 * n3) := by
  simp [ArrD.offset, ArrD.strides, h]; ring

theorem ArrD.offset4_of_shape {a : ArrD β} {n0 n1 n2 n3 : Nat}
    (h : a.shape = [n0, n1, n2, n3]) (i j k l : Nat) :
    a.offset [i, j, k, l] = (i * n1 + j) * (n2 * n3) + (k * n3 + l) := by
  simp [ArrD.offset, ArrD.strides, h]; ring

end Aux

/-! ## Auxiliary lemmas on writes -/

section AuxWrite

variable {β ι : Type}

theorem getD_set_eq (l : List β) (i j : Nat) (a d : β) :
    (l.set i a).getD j d = if i = j ∧ i < l.length then a else l.getD j d := by
  rw [List.getD_eq_getElem?_getD, List.getD_eq_getElem?_getD, List.getElem?_set]
  by_cases hij : i = j
  · by_cases hi : i < l.length
    · simp [hij, hi, hij ▸ hi]
    · have hj : l.length ≤ j := by omega
      simp [hij, hi, hij ▸ hi, List.getElem?_eq_none hj]
  · simp [hij]

theorem ext_of_getD [Zero β] (l1 l2 : List β) (hlen : l1.length = l2.length)
    (h : ∀ j, j < l1.length → l1.getD j 0 = l2.getD j 0) : l1 = l2 := by
  apply List.ext_getElem hlen
  intro j h1 h2
  have := h j h1
  rwa [List.getD_eq_getElem _ _ h1, List.getD_eq_getElem _ _ h2] at this

theorem ArrD.read_write [Zero β] (a : ArrD β) (p j : Nat) (v : β) :
    (a.write p v).read j = if p = j ∧ p < a.data.length then v else a.read j := by
  simp only [ArrD.read, ArrD.write, getD_set_eq]

theorem ArrD.get1_of_shape [Zero β] {a : ArrD β} {n : Nat} (h : a.shape = [n]) (i : Nat) :
    a.get1 i = a.read i := by
  simp [ArrD.get1, ArrD.offset, ArrD.strides, h]

/-- A loop of plain writes keeps shape and length, leaves alone the positions it
never targets, and, when equal targets always receive equal values, leaves at every
target the value written there. -/
theorem foldl_write_spec [Zero β] (pos : ι → Nat) (val : ι → β) (l : List ι) (a : ArrD β) :
    (l.foldl (fun d p => d.write (pos p) (val p)) a).shape = a.shape ∧
    (l.foldl (fun d p => d.write (pos p) (val p)) a).data.length = a.data.length ∧
    (∀ j, (∀ p ∈ l, pos p ≠ j) →
      (l.foldl (fun d p => d.write (pos p) (val p)) a).read j = a.read j) ∧
    ((∀ p ∈ l, ∀ q ∈ l, pos p = pos q → val p = val q) →
      ∀ p ∈ l, pos p < a.data.length →
        (l.foldl (fun d p => d.write (pos p) (val p)) a).read (pos p) = val p) := by
  induction l generalizing a with
  | nil => simp
  | cons x l ih =>
    obtain ⟨h1, h2, h3, h4⟩ := ih (a.write (pos x) (val x))
    have hlen : (a.write (pos x) (val x)).data.length = a.data.length := by
      simp [ArrD.write]
    simp only [List.foldl_cons]
    refine ⟨h1, h2.trans hlen, ?_, ?_⟩
    · intro j hj
      rw [h3 j (fun p hp => hj p (List.mem_cons_of_mem _ hp)), ArrD.read_write]
      have : pos x ≠ j := hj x (List.mem_cons_self _ _)
      simp [this]
    · intro hcons p hp hlt
      have hcl : ∀ p ∈ l, ∀ q ∈ l, pos p = pos q → val p = val q :=
        fun p hp q hq => hcons p (List.mem_cons_of_mem _ hp) q (List.mem_cons_of_mem _ hq)
      rcases List.mem_cons.mp hp with rfl | hpl
      · by_cases hex : ∃ q ∈ l, pos q = pos p
        · obtain ⟨q, hq, hqp⟩ := hex
          have := h4 hcl q hq (by rw [hlen, hqp]; exact hlt)
          rw [hqp] at this
          rw [this]
          exact (hcons p (List.mem_cons_self _ _) q (List.mem_cons_of_mem _ hq) hqp.symm).symm
        · have hne : ∀ q ∈ l, pos q ≠ pos p := fun q hq hqp => hex ⟨q, hq, hqp⟩
          rw [h3 (pos p) hne, ArrD.read_write]
          simp [hlt]
      · exact h4 hcl p hpl (by rw [hlen]; exact hlt)

/-- A loop of accumulating writes into a rank-1 array adds, at every position, the
values aimed at it. -/
theorem foldl_accum_spec [AddCommMonoid β] (pos : ι → Nat) (val : ι → β) (l : List ι)
    (a : ArrD β) (n : Nat) (ha : a.shape = [n]) :
    (l.foldl (fun d p => d.write (pos p) (d.get1 (pos p) + val p)) a).shape = [n] ∧
    (l.foldl (fun d p => d.write (pos p) (d.get1 (pos p) + val p)) a).data.length =
      a.data.length ∧
    ∀ j, j < a.data.length →
      (l.foldl (fun d p => d.write (pos p) (d.get1 (pos p) + val p)) a).read j =
        a.read j + (l.map (fun p => if pos p = j then val p else 0)).sum := by
  induction l generalizing a with
  | nil => simp [ha]
  | cons x l ih =>
    have hsh : (a.write (pos x) (a.get1 (pos x) + val x)).shape = [n] := ha
    have hlen : (a.write (pos x) (a.get1 (pos x) + val x)).data.length = a.data.length := by
      simp [ArrD.write]
    obtain ⟨h1, h2, h3⟩ := ih (a.write (pos x) (a.get1 (pos x) + val x)) hsh
    simp only [List.foldl_cons, List.map_cons, List.sum_cons]
    refine ⟨h1, h2.trans hlen, ?_⟩
    intro j hj
    rw [h3 j (by rw [hlen]; exact hj), ArrD.read_write, ArrD.get1_of_shape ha]
    by_cases hp : pos x = j
    · subst hp
      simp [hj, add_assoc]
    · simp [hp]

theorem sum_map_range [AddCommMonoid β] (f : Nat → β) (n : Nat) :
    ((List.range n).map f).sum = ∑ i ∈ Finset.range n, f i := by
  induction n with
  | zero => simp
  | succ n ih => simp [List.range_succ, Finset.sum_range_succ, ih]

theorem sum_map_product {γ δ : Type} [AddCommMonoid β] (f : γ × δ → β) (l1 : List γ)
    (l2 : List δ) :
    ((List.product l1 l2).map f).sum =
      (l1.map fun a => (l2.map fun b => f (a, b)).sum).sum := by
  induction l1 with
  | nil => simp [List.product]
  | cons a l1 ih =>
    have hcons : List.product (a :: l1) l2 = l2.map (Prod.mk a) ++ List.product l1 l2 := by
      simp [List.product]
    rw [hcons, List.map_append, List.sum_append, ih, List.map_cons, List.sum_cons,
      List.map_map]
    rfl

theorem getD_map_product_range {γ : Type} (d : γ) (f : Nat × ι → γ) (n : Nat) (l2 : List ι)
    (a b : Nat) (ha : a < n) (hb : b < l2.length) :
    ((List.product (List.range n) l2).map f).getD (a * l2.length + b) d =
      (l2.map fun x => f (a, x)).getD b d := by
  have hprod : (List.product (List.range n) l2).map f =
      (List.range n).flatMap fun a => l2.map fun x => f (a, x) := by
    simp [List.product, List.map_flatMap, Function.comp_def]
  rw [hprod, getD_flatMap_range d n l2.length _ (fun e => by simp) a b ha hb]

theorem le_foldl_max (l : List Nat) (m x : Nat) (h : x ≤ m ∨ x ∈ l) :
    x ≤ l.foldl max m := by
  induction l generalizing m with
  | nil =>
    rcases h with h | h
    · exact h
    · cases h
  | cons y l ih =>
    simp only [List.foldl_cons]
    apply ih
    rcases h with h | h
    · exact Or.inl (le_trans h (le_max_left _ _))
    · rcases List.mem_cons.mp h with rfl | h
      · exact Or.inl (le_max_right _ _)
      · exact Or.inr h

theorem read_le_maxCoeff (a : ArrD Nat) (p : Nat) : a.read p ≤ Vector.maxCoeff a := by
  unfold Vector.maxCoeff ArrD.read
  apply le_foldl_max
  by_cases hp : p < a.data.length
  · right
    rw [List.getD_eq_getElem _ _ hp]
    exact List.getElem_mem _
  · left
    rw [List.getD_eq_default _ _ (by omega)]

end AuxWrite

/-! ## Shapes of the quadrature state -/

namespace Element.Quad4.Quadrature

variable {α : Type} [LinearOrderedField α]

theorem compute_dN_WF (q : Quadrature α) (h : q.WF) : q.compute_dN.WF := by
  obtain ⟨hx, hw, hxi, hN, hdNxi, hdNx, hvol⟩ := h
  refine ⟨hx, hw, hxi, hN, hdNxi, ⟨hdNx.1, ?_⟩, ⟨hvol.1, ?_⟩⟩
  · simp only [compute_dN]
    rw [length_flatMap_range_const _ (q.m_nip * (4 * 2)) _ (fun e =>
      length_flatMap_range_const _ (4 * 2) _ (fun k => Tiny.length_toList _ _))]
    simp
  · simp only [compute_dN]
    rw [length_flatMap_range_const _ q.m_nip _ (fun e => by simp)]
    simp

theorem init_WF (x xi w : ArrD α) (nip nelem : Nat) (hx : x.hasShape [nelem, 4, 2])
    (hxi : xi.hasShape [nip, 2]) (hw : w.hasShape [nip]) : (init x xi w nip).WF := by
  unfold init
  apply compute_dN_WF
  have hn : x.shape.getD 0 0 = nelem := by rw [hx.1]; rfl
  simp only [WF, allocate, hn]
  refine ⟨hx, hw, hxi, ⟨rfl, ?_⟩, ⟨rfl, ?_⟩, ⟨rfl, ?_⟩, ⟨rfl, ?_⟩⟩
  · rw [length_flatMap_range_const _ 4 _ (fun k => by simp)]; simp
  · rw [length_flatMap_range_const _ 8 _ (fun k => by simp)]; simp
  · simp [ArrD.zero]
  · simp [ArrD.zero]

theorem update_x_WF (q : Quadrature α) (x : ArrD α) (h : q.WF)
    (hx : x.hasShape [q.m_nelem, 4, 2]) : (q.update_x x).WF := by
  unfold update_x
  apply compute_dN_WF
  obtain ⟨hqx, hw, hxi, hN, hdNxi, hdNx, hvol⟩ := h
  exact ⟨⟨hqx.1, hx.2⟩, hw, hxi, hN, hdNxi, hdNx, hvol⟩

end Element.Quad4.Quadrature

/-- The example state carries the allocated shapes. -/
theorem Examples.quadCCW_WF : Examples.quadCCW.WF :=
  Element.Quad4.Quadrature.init_WF _ _ _ _ 1 (by decide) (by decide) (by decide)

/-! ## Planar quadrature: the integrals and the gradient -/

namespace Element.Quad4.Quadrature

variable {α : Type} [LinearOrderedField α]

/-- One pass of the node loop of `int_gradN_dot_tensor2_dV` adds the contribution of
the integration point to slot `(m,j)`. -/
theorem forceStep_apply (dNx sig : Nat → Nat → α) (vol : α) (f : Tiny α) (m j : Nat)
    (hm : m < 4) (hj : j < 2) :
    (List.foldl
      (fun (f : Tiny α) m =>
        (f.add (m * 2 + 0) ((dNx m 0 * sig 0 0 + dNx m 1 * sig 1 0) * vol)).add
          (m * 2 + 1) ((dNx m 0 * sig 0 1 + dNx m 1 * sig 1 1) * vol))
      f (List.range 4)) (m * 2 + j)
      = f (m * 2 + j) + (dNx m 0 * sig 0 j + dNx m 1 * sig 1 j) * vol := by
  have h4 : List.range 4 = [0, 1, 2, 3] := rfl
  rw [h4]
  interval_cases m <;> interval_cases j <;> simp [Tiny.add]

theorem forceBlock_apply (T : TensorStorage) (q : Quadrature α) (qtensor : ArrD α)
    (e m j : Nat) (hm : m < 4) (hj : j < 2) :
    q.forceBlock T qtensor e (m * 2 + j) =
      ∑ k ∈ Finset.range q.m_nip,
        ((q.m_dNx.view (q.m_dNx.offset [e, k])).at2 2 m 0 * loadTensor T qtensor e k 0 j +
          (q.m_dNx.view (q.m_dNx.offset [e, k])).at2 2 m 1 * loadTensor T qtensor e k 1 j) *
          q.m_vol.get2 e k := by
  unfold forceBlock
  rw [foldl_range_accum _ (m * 2 + j) _ (fun f k => forceStep_apply _ _ _ f m j hm hj)]
  simp [Tiny.zero]

/-- C1: for a quadrature state with the allocated shapes and a full (row-major,
four-component) tensor field `sigma` of shape `(nelem, nip, 4)`,
`int_gradN_dot_tensor2_dV` has shape `(nelem, 4, 2)` and
`f(e,m,j) = sum over k and i of dNx(e,k,m,i) * sigma(e,k,i,j) * vol(e,k)`. -/
theorem int_gradN_dot_tensor2_dV_spec (q : Quadrature α) (sigma : ArrD α)
    (hq : q.WF) (hs : sigma.hasShape [q.m_nelem, q.m_nip, 4]) :
    (q.int_gradN_dot_tensor2_dV TensorStorage.tensor2 sigma).hasShape [q.m_nelem, 4, 2] ∧
    ∀ e m j, e < q.m_nelem → m < 4 → j < 2 →
      (q.int_gradN_dot_tensor2_dV TensorStorage.tensor2 sigma).get3 e m j =
        ∑ k ∈ Finset.range q.m_nip, ∑ i ∈ Finset.range 2,
          q.m_dNx.get4 e k m i * sigma.get3 e k (2 * i + j) * q.m_vol.get2 e k := by
  obtain ⟨_, _, _, _, _, ⟨hdNx, _⟩, _⟩ := hq
  refine ⟨⟨rfl, ?_⟩, ?_⟩
  · simp only [int_gradN_dot_tensor2_dV]
    rw [length_flatMap_range_const _ (4 * 2) _ (fun e => Tiny.length_toList _ _)]
    simp
  · intro e m j he hm hj
    have hout : (q.int_gradN_dot_tensor2_dV TensorStorage.tensor2 sigma).get3 e m j =
        q.forceBlock TensorStorage.tensor2 sigma e (m * 2 + j) := by
      simp only [ArrD.get3, ArrD.read]
      rw [ArrD.offset3_of_shape (rfl : (q.int_gradN_dot_tensor2_dV TensorStorage.tensor2
        sigma).shape = [q.m_nelem, 4, 2])]
      have hidx : (e * 4 + m) * 2 + j = e * (4 * 2) + (m * 2 + j) := by ring
      rw [hidx]
      simp only [int_gradN_dot_tensor2_dV]
      rw [getD_flatMap_range 0 _ (4 * 2) _ (fun e => Tiny.length_toList _ _) e _ he
        (by omega)]
      exact Tiny.getD_toList 0 _ _ _ (by omega)
    rw [hout, forceBlock_apply _ _ _ _ _ _ hm hj]
    refine Finset.sum_congr rfl (fun k _ => ?_)
    simp only [Finset.sum_range_succ, Finset.sum_range_zero, zero_add, loadTensor,
      ArrD.get4, ArrD.get3, ArrD.view, Tiny.at2, TensorStorage.idx]
    rw [ArrD.offset2_of_shape4 hdNx, ArrD.offset4_of_shape hdNx, ArrD.offset4_of_shape hdNx,
      ArrD.offset2_of_shape3 hs.1, ArrD.offset3_of_shape hs.1, ArrD.offset3_of_shape hs.1]
    simp only [Nat.mul_zero, Nat.add_zero, Nat.mul_one, Nat.zero_add, Nat.zero_mul]
    ring

end Element.Quad4.Quadrature

/-- Witness for `int_gradN_dot_tensor2_dV_spec`: the unit square with the nodal scheme
and a full tensor field. -/
theorem Element.Quad4.Quadrature.int_gradN_dot_tensor2_dV_spec_witness :
    Examples.quadCCW.WF ∧
    Examples.sigmaField.hasShape [Examples.quadCCW.m_nelem, Examples.quadCCW.m_nip, 4] ∧
    ((Examples.quadCCW.int_gradN_dot_tensor2_dV TensorStorage.tensor2
        Examples.sigmaField).hasShape [Examples.quadCCW.m_nelem, 4, 2] ∧
      ∀ e m j, e < Examples.quadCCW.m_nelem → m < 4 → j < 2 →
        (Examples.quadCCW.int_gradN_dot_tensor2_dV TensorStorage.tensor2
            Examples.sigmaField).get3 e m j =
          ∑ k ∈ Finset.range Examples.quadCCW.m_nip, ∑ i ∈ Finset.range 2,
            Examples.quadCCW.m_dNx.get4 e k m i * Examples.sigmaField.get3 e k (2 * i + j) *
              Examples.quadCCW.m_vol.get2 e k) :=
  ⟨Examples.quadCCW_WF, by decide,
    Element.Quad4.Quadrature.int_gradN_dot_tensor2_dV_spec Examples.quadCCW
      Examples.sigmaField Examples.quadCCW_WF (by decide)⟩

namespace Element.Quad4.Quadrature

variable {α : Type} [LinearOrderedField α]

/-- C2: for a quadrature state with the allocated shapes and an element vector field
`u` of shape `(nelem, 4, 2)`, `gradN_vector` has shape `(nelem, nip, 4)` and its
component `(i,j)`, stored at position `2*i+j`, is
`sum over m of dNx(e,k,m,i) * u(e,m,j)`. -/
theorem gradN_vector_spec (q : Quadrature α) (u : ArrD α)
    (hq : q.WF) (hu : u.hasShape [q.m_nelem, 4, 2]) :
    (q.gradN_vector TensorStorage.tensor2 u).hasShape [q.m_nelem, q.m_nip, 4] ∧
    ∀ e k i j, e < q.m_nelem → k < q.m_nip → i < 2 → j < 2 →
      (q.gradN_vector TensorStorage.tensor2 u).get3 e k (2 * i + j) =
        ∑ m ∈ Finset.range 4, q.m_dNx.get4 e k m i * u.get3 e m j := by
  obtain ⟨_, _, _, _, _, ⟨hdNx, _⟩, _⟩ := hq
  have hinner : ∀ (f : Nat → Tiny α), ∀ e : Nat,
      ((List.range q.m_nip).flatMap fun k => Tiny.toList 4 (f k)).length = q.m_nip * 4 :=
    fun f _ => length_flatMap_range_const _ 4 _ (fun k => Tiny.length_toList _ _)
  refine ⟨⟨rfl, ?_⟩, ?_⟩
  · simp only [gradN_vector, TensorStorage.Size]
    rw [length_flatMap_range_const _ (q.m_nip * 4) _ (fun e => hinner _ e)]
    simp
  · intro e k i j he hk hi hj
    simp only [ArrD.get3, ArrD.read]
    have hsh : (q.gradN_vector TensorStorage.tensor2 u).shape = [q.m_nelem, q.m_nip, 4] :=
      rfl
    rw [ArrD.offset3_of_shape hsh]
    have hidx : (e * q.m_nip + k) * 4 + (2 * i + j) = e * (q.m_nip * 4) + (k * 4 + (2 * i + j)) := by
      ring
    have hlt : k * 4 + (2 * i + j) < q.m_nip * 4 := by
      have : (k + 1) * 4 ≤ q.m_nip * 4 := Nat.mul_le_mul_right 4 hk
      omega
    rw [hidx]
    simp only [gradN_vector, TensorStorage.Size]
    rw [getD_flatMap_range 0 _ (q.m_nip * 4) _ (fun e => hinner _ e) e _ he hlt,
      getD_flatMap_range 0 _ 4 _ (fun k => Tiny.length_toList _ _) k _ hk (by omega),
      Tiny.getD_toList 0 _ _ _ (by omega)]
    simp only [Finset.sum_range_succ, Finset.sum_range_zero, zero_add,
      ArrD.get4, ArrD.get3, ArrD.read, ArrD.view, Tiny.at2, TensorStorage.idx]
    rw [ArrD.offset2_of_shape4 hdNx, ArrD.offset1_of_shape3 hu.1]
    simp only [ArrD.offset4_of_shape hdNx, ArrD.offset3_of_shape hu.1]
    interval_cases i <;> interval_cases j <;> simp [Tiny.set] <;> ring_nf

end Element.Quad4.Quadrature

/-- Witness for `gradN_vector_spec`: the unit square with the nodal scheme and an
element vector field. -/
theorem Element.Quad4.Quadrature.gradN_vector_spec_witness :
    Examples.quadCCW.WF ∧
    Examples.uField.hasShape [Examples.quadCCW.m_nelem, 4, 2] ∧
    ((Examples.quadCCW.gradN_vector TensorStorage.tensor2 Examples.uField).hasShape
        [Examples.quadCCW.m_nelem, Examples.quadCCW.m_nip, 4] ∧
      ∀ e k i j, e < Examples.quadCCW.m_nelem → k < Examples.quadCCW.m_nip → i < 2 → j < 2 →
        (Examples.quadCCW.gradN_vector TensorStorage.tensor2 Examples.uField).get3 e k
            (2 * i + j) =
          ∑ m ∈ Finset.range 4,
            Examples.quadCCW.m_dNx.get4 e k m i * Examples.uField.get3 e m j) :=
  ⟨Examples.quadCCW_WF, by decide,
    Element.Quad4.Quadrature.gradN_vector_spec Examples.quadCCW Examples.uField
      Examples.quadCCW_WF (by decide)⟩

namespace Element.Quad4.Quadrature

variable {α : Type} [LinearOrderedField α]

/-- One pass of the double node loop of `int_N_scalar_NT_dV` adds the contribution of
the integration point to the slots that couple equal components and leaves the slots
that couple different components alone. -/
theorem massStep_apply (N : Nat → α) (rho vol : α) (M : Tiny α) (m n c d : Nat)
    (hm : m < 4) (hn : n < 4) (hc : c < 2) (hd : d < 2) :
    (List.foldl
      (fun (M : Tiny α) m =>
        List.foldl
          (fun (M : Tiny α) n =>
            ((M.add ((m * 2 + 0) * 8 + (n * 2 + 0)) (N m * rho * N n * vol)).add
              ((m * 2 + 1) * 8 + (n * 2 + 1)) (N m * rho * N n * vol)))
          M (List.range 4))
      M (List.range 4)) ((2 * m + c) * 8 + (2 * n + d))
      = M ((2 * m + c) * 8 + (2 * n + d)) +
          (if c = d then N m * rho * N n * vol else 0) := by
  have h4 : List.range 4 = [0, 1, 2, 3] := rfl
  rw [h4]
  simp only [List.foldl_cons, List.foldl_nil, Tiny.add_apply]
  interval_cases m <;> interval_cases n <;> interval_cases c <;> interval_cases d <;>
    simp

theorem massBlock_apply (q : Quadrature α) (qscalar : ArrD α) (e m n c d : Nat)
    (hm : m < 4) (hn : n < 4) (hc : c < 2) (hd : d < 2) :
    q.massBlock qscalar e ((2 * m + c) * 8 + (2 * n + d)) =
      ∑ k ∈ Finset.range q.m_nip,
        (if c = d then
          q.m_N.view (q.m_N.offset [k]) m * qscalar.get2 e k * q.m_N.view (q.m_N.offset [k]) n *
            q.m_vol.get2 e k
        else 0) := by
  unfold massBlock
  refine (foldl_range_accum _ ((2 * m + c) * 8 + (2 * n + d))
    (fun k => if c = d then
      q.m_N.view (q.m_N.offset [k]) m * qscalar.get2 e k * q.m_N.view (q.m_N.offset [k]) n *
        q.m_vol.get2 e k
      else 0)
    (fun M k => ?_) Tiny.zero q.m_nip).trans ?_
  · exact massStep_apply _ _ _ M m n c d hm hn hc hd
  · simp [Tiny.zero]

theorem int_N_scalar_NT_dV_get3 (q : Quadrature α) (qscalar : ArrD α) (e a b : Nat)
    (he : e < q.m_nelem) (ha : a < 8) (hb : b < 8) :
    (q.int_N_scalar_NT_dV qscalar).get3 e a b = q.massBlock qscalar e (a * 8 + b) := by
  have hsh : (q.int_N_scalar_NT_dV qscalar).shape = [q.m_nelem, 8, 8] := rfl
  simp only [ArrD.get3, ArrD.read]
  rw [ArrD.offset3_of_shape hsh]
  have hidx : (e * 8 + a) * 8 + b = e * (4 * 2 * (4 * 2)) + (a * 8 + b) := by ring
  rw [hidx]
  simp only [int_N_scalar_NT_dV]
  rw [getD_flatMap_range 0 _ (4 * 2 * (4 * 2)) _ (fun e => Tiny.length_toList _ _) e _ he
    (by omega)]
  exact Tiny.getD_toList 0 _ _ _ (by omega)

/-- C3: for a quadrature state with the allocated shapes and a scalar field `s` of
shape `(nelem, nip)`, `int_N_scalar_NT_dV` has shape `(nelem, 8, 8)`,
`M(e, 2m+c, 2n+c) = sum over k of N(k,m) * s(e,k) * N(k,n) * vol(e,k)`, and every entry
coupling two different spatial components is zero. -/
theorem int_N_scalar_NT_dV_spec (q : Quadrature α) (s : ArrD α)
    (hq : q.WF) (_hs : s.hasShape [q.m_nelem, q.m_nip]) :
    (q.int_N_scalar_NT_dV s).hasShape [q.m_nelem, 8, 8] ∧
    (∀ e m n c, e < q.m_nelem → m < 4 → n < 4 → c < 2 →
      (q.int_N_scalar_NT_dV s).get3 e (2 * m + c) (2 * n + c) =
        ∑ k ∈ Finset.range q.m_nip,
          q.m_N.get2 k m * s.get2 e k * q.m_N.get2 k n * q.m_vol.get2 e k) ∧
    (∀ e m n c d, e < q.m_nelem → m < 4 → n < 4 → c < 2 → d < 2 → c ≠ d →
      (q.int_N_scalar_NT_dV s).get3 e (2 * m + c) (2 * n + d) = 0) := by
  obtain ⟨_, _, _, ⟨hN, _⟩, _, _, _⟩ := hq
  refine ⟨⟨rfl, ?_⟩, ?_, ?_⟩
  · simp only [int_N_scalar_NT_dV]
    rw [length_flatMap_range_const _ (4 * 2 * (4 * 2)) _ (fun e => Tiny.length_toList _ _)]
    simp
  · intro e m n c he hm hn hc
    rw [int_N_scalar_NT_dV_get3 q s e _ _ he (by omega) (by omega),
      massBlock_apply q s e m n c c hm hn hc hc]
    refine Finset.sum_congr rfl (fun k _ => ?_)
    simp only [if_true, ArrD.view, ArrD.get2, ArrD.offset2_of_shape hN]
    have h1 : q.m_N.offset [k] = k * 4 := by
      simp [ArrD.offset, ArrD.strides, hN]
    rw [h1]
  · intro e m n c d he hm hn hc hd hcd
    rw [int_N_scalar_NT_dV_get3 q s e _ _ he (by omega) (by omega),
      massBlock_apply q s e m n c d hm hn hc hd]
    simp [hcd]

end Element.Quad4.Quadrature

/-- Witness for `int_N_scalar_NT_dV_spec`: the unit square with the nodal scheme and a
scalar field. -/
theorem Element.Quad4.Quadrature.int_N_scalar_NT_dV_spec_witness :
    Examples.quadCCW.WF ∧
    Examples.rhoField.hasShape [Examples.quadCCW.m_nelem, Examples.quadCCW.m_nip] ∧
    ((Examples.quadCCW.int_N_scalar_NT_dV Examples.rhoField).hasShape
        [Examples.quadCCW.m_nelem, 8, 8] ∧
      (∀ e m n c, e < Examples.quadCCW.m_nelem → m < 4 → n < 4 → c < 2 →
        (Examples.quadCCW.int_N_scalar_NT_dV Examples.rhoField).get3 e (2 * m + c)
            (2 * n + c) =
          ∑ k ∈ Finset.range Examples.quadCCW.m_nip,
            Examples.quadCCW.m_N.get2 k m * Examples.rhoField.get2 e k *
              Examples.quadCCW.m_N.get2 k n * Examples.quadCCW.m_vol.get2 e k) ∧
      (∀ e m n c d, e < Examples.quadCCW.m_nelem → m < 4 → n < 4 → c < 2 → d < 2 → c ≠ d →
        (Examples.quadCCW.int_N_scalar_NT_dV Examples.rhoField).get3 e (2 * m + c)
            (2 * n + d) = 0)) :=
  ⟨Examples.quadCCW_WF, by decide,
    Element.Quad4.Quadrature.int_N_scalar_NT_dV_spec Examples.quadCCW Examples.rhoField
      Examples.quadCCW_WF (by decide)⟩

/-! ## Planar quadrature: volumes, construction, failure -/

namespace Element.Quad4.Quadrature

variable {α : Type} [LinearOrderedField α]

theorem compute_dN_vol_get2 (q : Quadrature α) (hvol : q.m_vol.shape = [q.m_nelem, q.m_nip])
    (e k : Nat) (he : e < q.m_nelem) (hk : k < q.m_nip) :
    q.compute_dN.m_vol.get2 e k = q.m_w.get1 k * (q.jacobian e k).det := by
  have hsh : q.compute_dN.m_vol.shape = [q.m_nelem, q.m_nip] := hvol
  simp only [ArrD.get2, ArrD.read]
  rw [ArrD.offset2_of_shape hsh]
  simp only [compute_dN]
  rw [getD_flatMap_range 0 _ q.m_nip _ (fun e => by simp) e _ he hk,
    getD_map_range 0 _ _ _ hk]

theorem jacobian_det_eq (q : Quadrature α) (n0 n1 : Nat) (hx : q.m_x.shape = [n0, 4, 2])
    (hd : q.m_dNxi.shape = [n1, 4, 2]) (e k : Nat) :
    (q.jacobian e k).det = jacobianDet q.m_dNxi q.m_x e k := by
  simp only [jacobian, Tensor2.det, jacobianDet, jacobianEntry, Finset.sum_range_succ,
    Finset.sum_range_zero, zero_add, ArrD.view, Tiny.at2, ArrD.get3,
    ArrD.offset1_of_shape3 hx, ArrD.offset1_of_shape3 hd, ArrD.offset3_of_shape hx,
    ArrD.offset3_of_shape hd]
  have e1 : ∀ a b c : Nat, a * (4 * 2) + (b * 2 + c) = (a * 4 + b) * 2 + c := by
    intro a b c; ring
  simp only [e1]

theorem init_vol (x xi w : ArrD α) (nip : Nat) (hx : x.hasShape [x.shape.getD 0 0, 4, 2])
    (e k : Nat) (he : e < x.shape.getD 0 0) (hk : k < nip) :
    (init x xi w nip).m_vol.get2 e k =
      w.get1 k * jacobianDet (init x xi w nip).m_dNxi x e k := by
  have h := compute_dN_vol_get2 (allocate x xi w nip) rfl e k he hk
  rw [jacobian_det_eq (allocate x xi w nip) _ nip hx.1 rfl] at h
  exact h

theorem update_x_vol (q : Quadrature α) (x : ArrD α) (hq : q.WF) (e k : Nat)
    (he : e < q.m_nelem) (hk : k < q.m_nip) :
    (q.update_x x).m_vol.get2 e k =
      q.m_w.get1 k *
        jacobianDet q.m_dNxi { shape := q.m_x.shape, data := x.data } e k := by
  obtain ⟨hx, _, _, _, hd, _, hvol⟩ := hq
  have h := compute_dN_vol_get2 { q with m_x := { shape := q.m_x.shape, data := x.data } }
    hvol.1 e k he hk
  have hj := jacobian_det_eq { q with m_x := { shape := q.m_x.shape, data := x.data } }
    q.m_nelem q.m_nip hx.1 hd.1 e k
  rw [hj] at h
  exact h

end Element.Quad4.Quadrature

namespace Element.Quad4

variable {α : Type} [LinearOrderedField α]

theorem Quadrature.new_eq_ok (sqrt3 : α) (x xi w : ArrD α) (q : Quadrature α)
    (h : Quadrature.new sqrt3 x xi w = .ok q) :
    (w.size = 0 ∧ xi.size = 0 ∧ q = Quadrature.init x (Gauss.xi sqrt3) Gauss.w Gauss.nip) ∨
    (0 < w.size ∧ 0 < xi.size ∧ q = Quadrature.init x xi w w.size) := by
  unfold Quadrature.new at h
  split_ifs at h with h1 h2
  · left
    exact ⟨h1.1, h1.2, (Except.ok.inj h).symm⟩
  · right
    exact ⟨h2.1, h2.2, (Except.ok.inj h).symm⟩

theorem QuadratureAxisymmetric.compute_dN_vol_axi (pi : α) (q : QuadratureAxisymmetric α)
    (hvol : q.m_vol.shape = [q.m_nelem, q.m_nip]) (e k : Nat) (he : e < q.m_nelem)
    (hk : k < q.m_nip) :
    (q.compute_dN pi).m_vol.get2 e k =
      q.m_w.get1 k * (q.jacobian e k).det * 2 * pi * q.radius e k := by
  have hsh : (q.compute_dN pi).m_vol.shape = [q.m_nelem, q.m_nip] := hvol
  simp only [ArrD.get2, ArrD.read]
  rw [ArrD.offset2_of_shape hsh]
  simp only [QuadratureAxisymmetric.compute_dN]
  rw [getD_flatMap_range 0 _ q.m_nip _ (fun e => by simp) e _ he hk,
    getD_map_range 0 _ _ _ hk]

/-- C4 (amended): after construction, and after `update_x`, the stored volume is the
weight times the signed Jacobian determinant, `vol(e,k) = w(k) * det J(e,k)` with
`J(i,j) = sum over m of dNxi(k,m,i) * x(e,m,j)`; no absolute value is taken.  It is
non-negative where the weight and the determinant are non-negative, and negative where
the weight is positive and the determinant negative. -/
theorem Quadrature.vol_eq_weight_mul_det :
    (∀ (sqrt3 : α) (x xi w : ArrD α) (q : Quadrature α),
      Quadrature.newContract x xi w → Quadrature.new sqrt3 x xi w = .ok q →
      ∀ e k, e < q.m_nelem → k < q.m_nip →
        q.m_vol.get2 e k = q.m_w.get1 k * jacobianDet q.m_dNxi x e k ∧
        (0 ≤ q.m_w.get1 k → 0 ≤ jacobianDet q.m_dNxi x e k → 0 ≤ q.m_vol.get2 e k) ∧
        (0 < q.m_w.get1 k → jacobianDet q.m_dNxi x e k < 0 → q.m_vol.get2 e k < 0)) ∧
    (∀ (q : Quadrature α) (x : ArrD α), q.WF → x.hasShape [q.m_nelem, 4, 2] →
      ∀ e k, e < q.m_nelem → k < q.m_nip →
        (q.update_x x).m_vol.get2 e k = q.m_w.get1 k * jacobianDet q.m_dNxi x e k ∧
        (0 ≤ q.m_w.get1 k → 0 ≤ jacobianDet q.m_dNxi x e k →
          0 ≤ (q.update_x x).m_vol.get2 e k) ∧
        (0 < q.m_w.get1 k → jacobianDet q.m_dNxi x e k < 0 →
          (q.update_x x).m_vol.get2 e k < 0)) := by
  have key : ∀ (v wk d : α), v = wk * d →
      v = wk * d ∧ (0 ≤ wk → 0 ≤ d → 0 ≤ v) ∧ (0 < wk → d < 0 → v < 0) := by
    intro v wk d hv
    refine ⟨hv, fun h1 h2 => ?_, fun h1 h2 => ?_⟩
    · rw [hv]; exact mul_nonneg h1 h2
    · rw [hv]; exact mul_neg_of_pos_of_neg h1 h2
  constructor
  · intro sqrt3 x xi w q hc hnew e k he hk
    apply key
    rcases Quadrature.new_eq_ok sqrt3 x xi w q hnew with ⟨_, _, rfl⟩ | ⟨_, _, rfl⟩
    · exact Quadrature.init_vol x _ _ _ hc.1 e k he hk
    · exact Quadrature.init_vol x _ _ _ hc.1 e k he hk
  · intro q x hq hx e k he hk
    apply key
    have hxx : ({ shape := q.m_x.shape, data := x.data } : ArrD α) = x := by
      rw [hq.1.1, ← hx.1]
    rw [Quadrature.update_x_vol q x hq e k he hk, hxx]

/-- C4, the claim as stated fails: for the unit square with clockwise node numbering
and the nodal scheme (weights 1) the constructor stores `vol(0,0) = -1/4`, while
`w(0) * |det J(0,0)| = 1/4`. -/
theorem Quadrature.vol_abs_counterexample :
    Quadrature.newContract Examples.squareCW (Nodal.xi : ArrD ℚ) Nodal.w ∧
    Quadrature.new 2 Examples.squareCW Nodal.xi Nodal.w = .ok Examples.quadCW ∧
    0 ≤ Examples.quadCW.m_w.get1 0 ∧
    Examples.quadCW.m_vol.get2 0 0 = -1 / 4 ∧
    Examples.quadCW.m_w.get1 0 *
      |jacobianDet Examples.quadCW.m_dNxi Examples.squareCW 0 0| = 1 / 4 ∧
    ¬ (0 ≤ Examples.quadCW.m_vol.get2 0 0) := by
  refine ⟨by decide, rfl, by decide!, by decide!, by decide!, by decide!⟩

/-- Witness for `vol_eq_weight_mul_det`: the clockwise unit square, at construction and
at an update of the counter-clockwise state to the clockwise coordinates. -/
theorem Quadrature.vol_eq_weight_mul_det_witness :
    Examples.quadCW.m_vol.get2 0 0 =
      Examples.quadCW.m_w.get1 0 *
        jacobianDet Examples.quadCW.m_dNxi Examples.squareCW 0 0 ∧
    (Examples.quadCCW.update_x Examples.squareCW).m_vol.get2 0 0 =
      Examples.quadCCW.m_w.get1 0 *
        jacobianDet Examples.quadCCW.m_dNxi Examples.squareCW 0 0 :=
  ⟨((@Quadrature.vol_eq_weight_mul_det ℚ _).1 2 Examples.squareCW Nodal.xi Nodal.w
      Examples.quadCW (by decide) rfl 0 0 (by decide) (by decide)).1,
    ((@Quadrature.vol_eq_weight_mul_det ℚ _).2 Examples.quadCCW Examples.squareCW
      Examples.quadCCW_WF (by decide) 0 0 (by decide) (by decide)).1⟩

end Element.Quad4

namespace Element.Quad4

variable {α : Type} [LinearOrderedField α]

/-- C5 (amended): a singular Jacobian raises nothing.  `compute_dN` has no test on the
determinant: the planar constructor returns a state whenever the scheme is not
half-given, the axisymmetric constructor and both `update_x` always return a state, and
at every point with `det J(e,k) = 0` the stored volume is `0`.  (The gradient entries at
such a point are quotients by zero; nothing is stated about them.) -/
theorem singular_jacobian_no_error :
    (∀ (sqrt3 : α) (x xi w : ArrD α),
      ¬ ((xi.size = 0 ∧ w.size ≠ 0) ∨ (xi.size ≠ 0 ∧ w.size = 0)) →
      ∃ q, Quadrature.new sqrt3 x xi w = .ok q ∧
        ∀ e k, e < q.m_nelem → k < q.m_nip → (q.jacobian e k).det = 0 →
          q.m_vol.get2 e k = 0) ∧
    (∀ (q : Quadrature α) (x : ArrD α), q.WF →
      ∀ e k, e < q.m_nelem → k < q.m_nip → ((q.update_x x).jacobian e k).det = 0 →
        (q.update_x x).m_vol.get2 e k = 0) ∧
    (∀ (pi : α) (x xi w : ArrD α) (e k : Nat),
      e < (QuadratureAxisymmetric.new pi x xi w).m_nelem →
      k < (QuadratureAxisymmetric.new pi x xi w).m_nip →
      ((QuadratureAxisymmetric.new pi x xi w).jacobian e k).det = 0 →
        (QuadratureAxisymmetric.new pi x xi w).m_vol.get2 e k = 0) ∧
    (∀ (pi : α) (q : QuadratureAxisymmetric α) (x : ArrD α), q.WF →
      ∀ e k, e < q.m_nelem → k < q.m_nip →
        ((q.update_x pi x).jacobian e k).det = 0 → (q.update_x pi x).m_vol.get2 e k = 0) := by
  have hinit : ∀ (x xi w : ArrD α) (nip e k : Nat),
      e < (Quadrature.init x xi w nip).m_nelem → k < (Quadrature.init x xi w nip).m_nip →
      ((Quadrature.init x xi w nip).jacobian e k).det = 0 →
        (Quadrature.init x xi w nip).m_vol.get2 e k = 0 := by
    intro x xi w nip e k he hk hdet
    have h := Quadrature.compute_dN_vol_get2 (Quadrature.allocate x xi w nip) rfl e k he hk
    have hj : ((Quadrature.allocate x xi w nip).compute_dN.jacobian e k).det = 0 := hdet
    have hj2 : (Quadrature.allocate x xi w nip).compute_dN.jacobian e k =
        (Quadrature.allocate x xi w nip).jacobian e k := rfl
    rw [hj2] at hj
    rw [hj, mul_zero] at h
    exact h
  refine ⟨?_, ?_, ?_, ?_⟩
  · intro sqrt3 x xi w hne
    unfold Quadrature.new
    split_ifs with h1 h2
    · exact ⟨_, rfl, fun e k he hk hdet => hinit _ _ _ _ e k he hk hdet⟩
    · exact ⟨_, rfl, fun e k he hk hdet => hinit _ _ _ _ e k he hk hdet⟩
    · exfalso
      apply hne
      simp only [not_and_or, not_lt, Nat.le_zero] at h1 h2
      omega
  · intro q x hq e k he hk hdet
    have h := Quadrature.compute_dN_vol_get2
      { q with m_x := { shape := q.m_x.shape, data := x.data } } hq.2.2.2.2.2.2.1 e k he hk
    have hj : (({ q with m_x := { shape := q.m_x.shape, data := x.data } } :
        Quadrature α).jacobian e k).det = 0 := hdet
    rw [hj, mul_zero] at h
    exact h
  · intro pi x xi w e k he hk hdet
    have h := QuadratureAxisymmetric.compute_dN_vol_axi pi
      (QuadratureAxisymmetric.allocate x xi w) rfl e k he hk
    have hj : (((QuadratureAxisymmetric.allocate x xi w).compute_dN pi).jacobian e k).det = 0 :=
      hdet
    have hj2 : ((QuadratureAxisymmetric.allocate x xi w).compute_dN pi).jacobian e k =
        (QuadratureAxisymmetric.allocate x xi w).jacobian e k := rfl
    rw [hj2] at hj
    rw [hj] at h
    simpa using h
  · intro pi q x hq e k he hk hdet
    have h := QuadratureAxisymmetric.compute_dN_vol_axi pi
      { q with m_x := { shape := q.m_x.shape, data := x.data } } hq.2.2.2.2.2.2.1 e k he hk
    have hj : (({ q with m_x := { shape := q.m_x.shape, data := x.data } } :
        QuadratureAxisymmetric α).jacobian e k).det = 0 := hdet
    rw [hj] at h
    simpa using h

/-- C5, the claim as stated fails: for an element whose four nodes coincide the
Jacobian determinant at the first integration point is exactly `0`, and the constructor
returns a state (with volume `0` there) instead of an error. -/
theorem singular_jacobian_counterexample :
    Quadrature.newContract Examples.squareCollapsed (Nodal.xi : ArrD ℚ) Nodal.w ∧
    jacobianDet Examples.quadCollapsed.m_dNxi Examples.squareCollapsed 0 0 = 0 ∧
    (Examples.quadCollapsed.jacobian 0 0).det = 0 ∧
    Quadrature.new 2 Examples.squareCollapsed Nodal.xi Nodal.w =
      .ok Examples.quadCollapsed ∧
    Examples.quadCollapsed.m_vol.get2 0 0 = 0 := by
  refine ⟨by decide, by decide!, by decide!, rfl, by decide!⟩

/-- Witness for `singular_jacobian_no_error`: the collapsed element. -/
theorem singular_jacobian_no_error_witness :
    ∃ q, Quadrature.new (2 : ℚ) Examples.squareCollapsed Nodal.xi Nodal.w = .ok q ∧
      ∀ e k, e < q.m_nelem → k < q.m_nip → (q.jacobian e k).det = 0 →
        q.m_vol.get2 e k = 0 :=
  (@singular_jacobian_no_error ℚ _).1 2 Examples.squareCollapsed Nodal.xi Nodal.w
    (by decide)

/-- C6: for coordinates of valid shape the constructor raises exactly when one of `xi`
and `w` is empty and the other is not; with both empty or both non-empty it returns a
state. -/
theorem Quadrature.new_error_iff (sqrt3 : α) (x xi w : ArrD α)
    (_hx : x.hasShape [x.shape.getD 0 0, 4, 2]) :
    ((∃ msg, Quadrature.new sqrt3 x xi w = .error msg) ↔
      ((xi.size = 0 ∧ w.size ≠ 0) ∨ (xi.size ≠ 0 ∧ w.size = 0))) ∧
    (((xi.size = 0 ∧ w.size = 0) ∨ (xi.size ≠ 0 ∧ w.size ≠ 0)) →
      ∃ q, Quadrature.new sqrt3 x xi w = .ok q) := by
  unfold Quadrature.new
  split_ifs with h1 h2
  · refine ⟨⟨?_, fun h => by omega⟩, fun _ => ⟨_, rfl⟩⟩
    rintro ⟨_, h⟩
    cases h
  · refine ⟨⟨?_, fun h => by omega⟩, fun _ => ⟨_, rfl⟩⟩
    rintro ⟨_, h⟩
    cases h
  · simp only [not_and_or, not_lt, Nat.le_zero] at h1 h2
    refine ⟨⟨fun _ => by omega, fun _ => ⟨_, rfl⟩⟩, fun h => by omega⟩

/-- Witness for `new_error_iff`: the unit square with the nodal points and no weights,
which raises. -/
theorem Quadrature.new_error_iff_witness :
    Examples.squareCCW.hasShape [Examples.squareCCW.shape.getD 0 0, 4, 2] ∧
    (((∃ msg, Quadrature.new 2 Examples.squareCCW Nodal.xi { shape := [0], data := [] } =
        .error msg) ↔
      (((Nodal.xi : ArrD ℚ).size = 0 ∧ ({ shape := [0], data := [] } : ArrD ℚ).size ≠ 0) ∨
        ((Nodal.xi : ArrD ℚ).size ≠ 0 ∧ ({ shape := [0], data := [] } : ArrD ℚ).size = 0))) ∧
    ((((Nodal.xi : ArrD ℚ).size = 0 ∧ ({ shape := [0], data := [] } : ArrD ℚ).size = 0) ∨
        ((Nodal.xi : ArrD ℚ).size ≠ 0 ∧ ({ shape := [0], data := [] } : ArrD ℚ).size ≠ 0)) →
      ∃ q, Quadrature.new 2 Examples.squareCCW Nodal.xi { shape := [0], data := [] } =
        .ok q)) :=
  ⟨by decide, Quadrature.new_error_iff 2 Examples.squareCCW Nodal.xi
    { shape := [0], data := [] } (by decide)⟩

end Element.Quad4

/-! ## Layout conversion: gather, scatter, assembly -/

namespace Vector

variable {α : Type} [LinearOrderedField α]

theorem mem_nodePairs (v : Vector) (n c : Nat) :
    (n, c) ∈ v.nodePairs ↔ n < v.m_nnode ∧ c < v.m_ndim := by
  simp [nodePairs, List.pair_mem_product]

theorem mem_elemTriples (v : Vector) (e m c : Nat) :
    (e, m, c) ∈ v.elemTriples ↔ e < v.m_nelem ∧ m < v.m_nne ∧ c < v.m_ndim := by
  simp [elemTriples, List.pair_mem_product]

theorem dof_lt_ndof (conn dofs : ArrD Nat) (n c : Nat) :
    (new conn dofs).dof n c < (new conn dofs).m_ndof := by
  have h := read_le_maxCoeff dofs (dofs.offset [n, c])
  simp only [dof, new, ArrD.get2]
  omega

theorem zero_hasShape (n : Nat) : (ArrD.zero [n] : ArrD α).hasShape [n] := by
  simp [ArrD.zero, ArrD.hasShape]

theorem asDofs_nodevec_hasShape (v : Vector) (nodevec : ArrD α) :
    (v.asDofs_nodevec nodevec).hasShape [v.m_ndof] := by
  obtain ⟨h1, h2, _, _⟩ := foldl_write_spec (fun p : Nat × Nat => v.dof p.1 p.2)
    (fun p => nodevec.get2 p.1 p.2) v.nodePairs (ArrD.zero [v.m_ndof])
  exact ⟨h1, h2.trans (zero_hasShape v.m_ndof).2⟩

theorem sum_nodePairs (v : Vector) (g : Nat × Nat → α) :
    (v.nodePairs.map g).sum =
      ∑ n ∈ Finset.range v.m_nnode, ∑ c ∈ Finset.range v.m_ndim, g (n, c) := by
  unfold nodePairs
  rw [sum_map_product, sum_map_range]
  simp only [sum_map_range]

theorem sum_elemTriples (v : Vector) (g : Nat × Nat × Nat → α) :
    (v.elemTriples.map g).sum =
      ∑ e ∈ Finset.range v.m_nelem, ∑ m ∈ Finset.range v.m_nne,
        ∑ c ∈ Finset.range v.m_ndim, g (e, m, c) := by
  unfold elemTriples
  rw [sum_map_product, sum_map_range]
  simp only [sum_map_product, sum_map_range]

/-- C7: for a `Vector` built from `conn` and `dofs`, `asDofs(nodevec)` has exactly
`ndof = largest DOF id + 1` entries (`nnodePeriodic * ndim = 8` for the periodic 2 x 2
mesh), and for a `nodevec` whose values agree on all (node, component) pairs sharing a
DOF id, entry `dofs(n,c)` of the result equals `nodevec(n,c)`. -/
theorem asDofs_nodevec_spec (conn dofs : ArrD Nat) (v : Vector) (nodevec : ArrD α)
    (hv : v = Vector.new conn dofs)
    (hcons : ∀ n, n < v.m_nnode → ∀ c, c < v.m_ndim → ∀ n', n' < v.m_nnode →
      ∀ c', c' < v.m_ndim → v.dof n c = v.dof n' c' → nodevec.get2 n c = nodevec.get2 n' c') :
    (v.asDofs_nodevec nodevec).hasShape [v.m_ndof] ∧
    v.m_ndof = maxCoeff dofs + 1 ∧
    (∀ n c, n < v.m_nnode → c < v.m_ndim →
      (v.asDofs_nodevec nodevec).get1 (v.dof n c) = nodevec.get2 n c) ∧
    (Mesh.Quad4.Regular22.vector.m_ndof =
        Mesh.Quad4.Regular22.nnodePeriodic * Mesh.Quad4.Regular22.ndim ∧
      Mesh.Quad4.Regular22.vector.m_ndof = 8) := by
  subst hv
  refine ⟨asDofs_nodevec_hasShape _ nodevec, rfl, ?_, by decide⟩
  intro n c hn hc
  rw [ArrD.get1_of_shape (asDofs_nodevec_hasShape _ nodevec).1]
  obtain ⟨_, _, _, h4⟩ := foldl_write_spec
    (fun p : Nat × Nat => (Vector.new conn dofs).dof p.1 p.2)
    (fun p => nodevec.get2 p.1 p.2) (Vector.new conn dofs).nodePairs
    (ArrD.zero [(Vector.new conn dofs).m_ndof])
  refine h4 ?_ (n, c) ((mem_nodePairs _ n c).mpr ⟨hn, hc⟩) ?_
  · rintro ⟨a, b⟩ hp ⟨a', b'⟩ hq hpq
    rw [mem_nodePairs] at hp hq
    exact hcons a hp.1 b hp.2 a' hq.1 b' hq.2 hpq
  · rw [(zero_hasShape _).2]
    simpa using dof_lt_ndof conn dofs n c

/-- Witness for `asDofs_nodevec_spec`: the periodic 2 x 2 mesh and the velocity field
of the test, equal on periodic partners. -/
theorem asDofs_nodevec_spec_witness :
    (∀ n, n < Mesh.Quad4.Regular22.vector.m_nnode →
      ∀ c, c < Mesh.Quad4.Regular22.vector.m_ndim →
      ∀ n', n' < Mesh.Quad4.Regular22.vector.m_nnode →
      ∀ c', c' < Mesh.Quad4.Regular22.vector.m_ndim →
      Mesh.Quad4.Regular22.vector.dof n c = Mesh.Quad4.Regular22.vector.dof n' c' →
      Mesh.Quad4.Regular22.velocity.get2 n c = Mesh.Quad4.Regular22.velocity.get2 n' c') ∧
    (Mesh.Quad4.Regular22.vector.asDofs_nodevec Mesh.Quad4.Regular22.velocity).hasShape
      [Mesh.Quad4.Regular22.vector.m_ndof] ∧
    (∀ n c, n < Mesh.Quad4.Regular22.vector.m_nnode →
      c < Mesh.Quad4.Regular22.vector.m_ndim →
      (Mesh.Quad4.Regular22.vector.asDofs_nodevec Mesh.Quad4.Regular22.velocity).get1
        (Mesh.Quad4.Regular22.vector.dof n c) = Mesh.Quad4.Regular22.velocity.get2 n c) := by
  have hcons : ∀ n, n < Mesh.Quad4.Regular22.vector.m_nnode →
      ∀ c, c < Mesh.Quad4.Regular22.vector.m_ndim →
      ∀ n', n' < Mesh.Quad4.Regular22.vector.m_nnode →
      ∀ c', c' < Mesh.Quad4.Regular22.vector.m_ndim →
      Mesh.Quad4.Regular22.vector.dof n c = Mesh.Quad4.Regular22.vector.dof n' c' →
      Mesh.Quad4.Regular22.velocity.get2 n c = Mesh.Quad4.Regular22.velocity.get2 n' c' := by
    decide!
  have h := asDofs_nodevec_spec Mesh.Quad4.Regular22.conn Mesh.Quad4.Regular22.dofsPeriodic
    Mesh.Quad4.Regular22.vector Mesh.Quad4.Regular22.velocity rfl hcons
  exact ⟨hcons, h.1, h.2.2.1⟩

end Vector

namespace Vector

variable {α : Type} [LinearOrderedField α]

/-- C10: for a `Vector` built from `conn` and `dofs`, `assembleDofs(nodevec)` has
`ndof` entries and entry `d` is the sum of `f(n,c)` over all `(n,c)` with
`dofs(n,c) = d` (values of nodes sharing a DOF are added); for the periodic 2 x 2 mesh
and the force pattern of the test the result is the zero vector of length 8. -/
theorem assembleDofs_nodevec_spec (conn dofs : ArrD Nat) (v : Vector) (f : ArrD α)
    (hv : v = Vector.new conn dofs) :
    (v.assembleDofs_nodevec f).hasShape [v.m_ndof] ∧
    (∀ d, d < v.m_ndof →
      (v.assembleDofs_nodevec f).get1 d =
        ∑ n ∈ Finset.range v.m_nnode, ∑ c ∈ Finset.range v.m_ndim,
          if v.dof n c = d then f.get2 n c else 0) ∧
    Mesh.Quad4.Regular22.vector.assembleDofs_nodevec Mesh.Quad4.Regular22.force =
      { shape := [8], data := [0, 0, 0, 0, 0, 0, 0, 0] } := by
  subst hv
  obtain ⟨h1, h2, h3⟩ := foldl_accum_spec
    (fun p : Nat × Nat => (Vector.new conn dofs).dof p.1 p.2)
    (fun p => f.get2 p.1 p.2) (Vector.new conn dofs).nodePairs
    (ArrD.zero [(Vector.new conn dofs).m_ndof]) _ rfl
  have hlen := (@zero_hasShape α _ (Vector.new conn dofs).m_ndof).2
  refine ⟨⟨h1, h2.trans hlen⟩, ?_, by decide!⟩
  intro d hd
  have hread : (ArrD.zero [(Vector.new conn dofs).m_ndof] : ArrD α).read d = 0 := by
    simp [ArrD.zero, ArrD.read, List.getD_eq_getElem?_getD]
  unfold assembleDofs_nodevec
  rw [ArrD.get1_of_shape h1, h3 d (by rw [hlen]; simpa using hd), hread, zero_add,
    sum_nodePairs]

/-- Witness for `assembleDofs_nodevec_spec`: the periodic 2 x 2 mesh and the force field
of the test. -/
theorem assembleDofs_nodevec_spec_witness :
    (Mesh.Quad4.Regular22.vector.assembleDofs_nodevec Mesh.Quad4.Regular22.force).hasShape
      [Mesh.Quad4.Regular22.vector.m_ndof] ∧
    (∀ d, d < Mesh.Quad4.Regular22.vector.m_ndof →
      (Mesh.Quad4.Regular22.vector.assembleDofs_nodevec Mesh.Quad4.Regular22.force).get1 d =
        ∑ n ∈ Finset.range Mesh.Quad4.Regular22.vector.m_nnode,
          ∑ c ∈ Finset.range Mesh.Quad4.Regular22.vector.m_ndim,
            if Mesh.Quad4.Regular22.vector.dof n c = d then
              Mesh.Quad4.Regular22.force.get2 n c
            else 0) :=
  ⟨(assembleDofs_nodevec_spec Mesh.Quad4.Regular22.conn Mesh.Quad4.Regular22.dofsPeriodic
      Mesh.Quad4.Regular22.vector Mesh.Quad4.Regular22.force rfl).1,
    (assembleDofs_nodevec_spec Mesh.Quad4.Regular22.conn Mesh.Quad4.Regular22.dofsPeriodic
      Mesh.Quad4.Regular22.vector Mesh.Quad4.Regular22.force rfl).2.1⟩

/-- C8: for a `Vector` built from `conn` and `dofs`, `assembleDofs(fe)` of an
element-layout field has `ndof` entries and entry `d` is the sum of `fe(e,m,c)` over
all `(e,m,c)` with `dofs(conn(e,m),c) = d`; for the periodic 2 x 2 mesh and the
self-equilibrated force pattern of the test, `assembleDofs(asElement(f))` is the zero
vector. -/
theorem assembleDofs_elemvec_spec (conn dofs : ArrD Nat) (v : Vector) (fe : ArrD α)
    (hv : v = Vector.new conn dofs) :
    (v.assembleDofs_elemvec fe).hasShape [v.m_ndof] ∧
    (∀ d, d < v.m_ndof →
      (v.assembleDofs_elemvec fe).get1 d =
        ∑ e ∈ Finset.range v.m_nelem, ∑ m ∈ Finset.range v.m_nne,
          ∑ c ∈ Finset.range v.m_ndim,
            if v.dof (v.m_conn.get2 e m) c = d then fe.get3 e m c else 0) ∧
    Mesh.Quad4.Regular22.vector.assembleDofs_elemvec
        (Mesh.Quad4.Regular22.vector.asElement_nodevec Mesh.Quad4.Regular22.force) =
      { shape := [8], data := [0, 0, 0, 0, 0, 0, 0, 0] } := by
  subst hv
  obtain ⟨h1, h2, h3⟩ := foldl_accum_spec
    (fun t : Nat × Nat × Nat => (Vector.new conn dofs).elemDof t.1 t.2.1 t.2.2)
    (fun t => fe.get3 t.1 t.2.1 t.2.2) (Vector.new conn dofs).elemTriples
    (ArrD.zero [(Vector.new conn dofs).m_ndof]) _ rfl
  have hlen := (@zero_hasShape α _ (Vector.new conn dofs).m_ndof).2
  refine ⟨⟨h1, h2.trans hlen⟩, ?_, by decide!⟩
  intro d hd
  have hread : (ArrD.zero [(Vector.new conn dofs).m_ndof] : ArrD α).read d = 0 := by
    simp [ArrD.zero, ArrD.read, List.getD_eq_getElem?_getD]
  unfold assembleDofs_elemvec
  rw [ArrD.get1_of_shape h1, h3 d (by rw [hlen]; simpa using hd), hread, zero_add,
    sum_elemTriples]
  rfl

/-- Witness for `assembleDofs_elemvec_spec`: the periodic 2 x 2 mesh and the force field
of the test in element layout. -/
theorem assembleDofs_elemvec_spec_witness :
    (Mesh.Quad4.Regular22.vector.assembleDofs_elemvec
      (Mesh.Quad4.Regular22.vector.asElement_nodevec Mesh.Quad4.Regular22.force)).hasShape
      [Mesh.Quad4.Regular22.vector.m_ndof] ∧
    Mesh.Quad4.Regular22.vector.assembleDofs_elemvec
        (Mesh.Quad4.Regular22.vector.asElement_nodevec Mesh.Quad4.Regular22.force) =
      { shape := [8], data := [0, 0, 0, 0, 0, 0, 0, 0] } :=
  ⟨(assembleDofs_elemvec_spec Mesh.Quad4.Regular22.conn Mesh.Quad4.Regular22.dofsPeriodic
      Mesh.Quad4.Regular22.vector
      (Mesh.Quad4.Regular22.vector.asElement_nodevec Mesh.Quad4.Regular22.force) rfl).1,
    (assembleDofs_elemvec_spec Mesh.Quad4.Regular22.conn Mesh.Quad4.Regular22.dofsPeriodic
      Mesh.Quad4.Regular22.vector
      (Mesh.Quad4.Regular22.vector.asElement_nodevec Mesh.Quad4.Regular22.force) rfl).2.2⟩

end Vector

namespace Vector

variable {α : Type} [LinearOrderedField α]

theorem asElement_dofval_get3 (v : Vector) (dofval : ArrD α) (e m c : Nat)
    (he : e < v.m_nelem) (hm : m < v.m_nne) (hc : c < v.m_ndim) :
    (v.asElement_dofval dofval).get3 e m c = dofval.get1 (v.elemDof e m c) := by
  have hsh : (v.asElement_dofval dofval).shape = [v.m_nelem, v.m_nne, v.m_ndim] := rfl
  simp only [ArrD.get3, ArrD.read]
  rw [ArrD.offset3_of_shape hsh]
  simp only [asElement_dofval, elemTriples]
  have hl2 : (List.product (List.range v.m_nne) (List.range v.m_ndim)).length =
      v.m_nne * v.m_ndim :=
    (List.length_product _ _).trans (by rw [List.length_range, List.length_range])
  have hidx : (e * v.m_nne + m) * v.m_ndim + c =
      e * (List.product (List.range v.m_nne) (List.range v.m_ndim)).length +
        (m * (List.range v.m_ndim).length + c) := by
    rw [hl2, List.length_range]; ring
  have hmc : m * (List.range v.m_ndim).length + c <
      (List.product (List.range v.m_nne) (List.range v.m_ndim)).length := by
    rw [hl2, List.length_range]
    calc m * v.m_ndim + c < m * v.m_ndim + v.m_ndim := by omega
      _ = (m + 1) * v.m_ndim := by ring
      _ ≤ v.m_nne * v.m_ndim := Nat.mul_le_mul_right _ hm
  rw [hidx, getD_map_product_range 0 _ _ _ e _ he hmc,
    getD_map_product_range 0 _ _ _ m c hm (by simpa using hc),
    getD_map_range 0 _ _ _ hc]

/-- C9: for a `Vector` built from `conn` and a DOF map in which every DOF is
referenced by at least one element, `asDofs(asElement(asDofs(v))) = asDofs(v)` for
every `nodevec` (in particular for one that is equal on periodic partners): expanding a
DOF vector to element layout and gathering it back without accumulation reproduces
it. -/
theorem asDofs_asElement_asDofs (conn dofs : ArrD Nat) (v : Vector) (nodevec : ArrD α)
    (hv : v = Vector.new conn dofs)
    (href : ∀ d, d < v.m_ndof → ∃ e, e < v.m_nelem ∧ ∃ m, m < v.m_nne ∧
      ∃ c, c < v.m_ndim ∧ v.elemDof e m c = d) :
    v.asDofs_elemvec (v.asElement_dofval (v.asDofs_nodevec nodevec)) =
      v.asDofs_nodevec nodevec := by
  subst hv
  have hD := asDofs_nodevec_hasShape (Vector.new conn dofs) nodevec
  obtain ⟨h1, h2, _, h4⟩ := foldl_write_spec
    (fun t : Nat × Nat × Nat => (Vector.new conn dofs).elemDof t.1 t.2.1 t.2.2)
    (fun t => ((Vector.new conn dofs).asElement_dofval
      ((Vector.new conn dofs).asDofs_nodevec nodevec)).get3 t.1 t.2.1 t.2.2)
    (Vector.new conn dofs).elemTriples (ArrD.zero [(Vector.new conn dofs).m_ndof])
  have hlen := (@zero_hasShape α _ (Vector.new conn dofs).m_ndof).2
  have hval : ∀ t ∈ (Vector.new conn dofs).elemTriples,
      ((Vector.new conn dofs).asElement_dofval
        ((Vector.new conn dofs).asDofs_nodevec nodevec)).get3 t.1 t.2.1 t.2.2 =
      ((Vector.new conn dofs).asDofs_nodevec nodevec).read
        ((Vector.new conn dofs).elemDof t.1 t.2.1 t.2.2) := by
    rintro ⟨e, m, c⟩ ht
    rw [mem_elemTriples] at ht
    rw [asElement_dofval_get3 _ _ e m c ht.1 ht.2.1 ht.2.2, ArrD.get1_of_shape hD.1]
  have hcons : ∀ p ∈ (Vector.new conn dofs).elemTriples,
      ∀ q ∈ (Vector.new conn dofs).elemTriples,
      (Vector.new conn dofs).elemDof p.1 p.2.1 p.2.2 =
        (Vector.new conn dofs).elemDof q.1 q.2.1 q.2.2 →
      ((Vector.new conn dofs).asElement_dofval
        ((Vector.new conn dofs).asDofs_nodevec nodevec)).get3 p.1 p.2.1 p.2.2 =
      ((Vector.new conn dofs).asElement_dofval
        ((Vector.new conn dofs).asDofs_nodevec nodevec)).get3 q.1 q.2.1 q.2.2 := by
    intro p hp q hq hpq
    rw [hval p hp, hval q hq, hpq]
  have hshape : ((Vector.new conn dofs).asDofs_elemvec ((Vector.new conn dofs).asElement_dofval
      ((Vector.new conn dofs).asDofs_nodevec nodevec))).shape =
      ((Vector.new conn dofs).asDofs_nodevec nodevec).shape := by
    rw [hD.1]; exact h1
  have hdata : ((Vector.new conn dofs).asDofs_elemvec ((Vector.new conn dofs).asElement_dofval
      ((Vector.new conn dofs).asDofs_nodevec nodevec))).data =
      ((Vector.new conn dofs).asDofs_nodevec nodevec).data := by
    apply ext_of_getD
    · rw [hD.2]; exact h2.trans hlen
    · intro j hj
      have hj2 : j < (Vector.new conn dofs).m_ndof := by
        have : j < (ArrD.zero [(Vector.new conn dofs).m_ndof] : ArrD α).data.length :=
          h2 ▸ hj
        rw [hlen] at this
        simpa using this
      obtain ⟨e, he, m, hm, c, hc, hd⟩ := href j hj2
      have hmem := (mem_elemTriples (Vector.new conn dofs) e m c).mpr ⟨he, hm, hc⟩
      have h := h4 hcons (e, m, c) hmem (by
        rw [hlen]
        simpa using hd ▸ hj2)
      rw [hval (e, m, c) hmem] at h
      simp only [hd] at h
      exact h
  cases hA : (Vector.new conn dofs).asDofs_elemvec ((Vector.new conn dofs).asElement_dofval
      ((Vector.new conn dofs).asDofs_nodevec nodevec))
  cases hB : (Vector.new conn dofs).asDofs_nodevec nodevec
  rw [hA, hB] at hshape hdata
  simp only at hshape hdata
  rw [hshape, hdata]

/-- Witness for `asDofs_asElement_asDofs`: the periodic 2 x 2 mesh, every DOF of which
is referenced by an element, and the velocity field of the test. -/
theorem asDofs_asElement_asDofs_witness :
    (∀ d, d < Mesh.Quad4.Regular22.vector.m_ndof →
      ∃ e, e < Mesh.Quad4.Regular22.vector.m_nelem ∧
      ∃ m, m < Mesh.Quad4.Regular22.vector.m_nne ∧
      ∃ c, c < Mesh.Quad4.Regular22.vector.m_ndim ∧
        Mesh.Quad4.Regular22.vector.elemDof e m c = d) ∧
    Mesh.Quad4.Regular22.vector.asDofs_elemvec
        (Mesh.Quad4.Regular22.vector.asElement_dofval
          (Mesh.Quad4.Regular22.vector.asDofs_nodevec Mesh.Quad4.Regular22.velocity)) =
      Mesh.Quad4.Regular22.vector.asDofs_nodevec Mesh.Quad4.Regular22.velocity :=
  ⟨by decide,
    asDofs_asElement_asDofs Mesh.Quad4.Regular22.conn Mesh.Quad4.Regular22.dofsPeriodic
      Mesh.Quad4.Regular22.vector Mesh.Quad4.Regular22.velocity rfl (by decide)⟩

end Vector

/-! ## Gradient operators: transpose and symmetric part -/

section AuxBlocks

variable {β : Type}

/-- Reading an array stored as blocks of length `L`, one per `(e,k)`. -/
theorem getD_blocks2 (d : β) (n p L : Nat) (blk : Nat → Nat → Tiny β) (e k r : Nat)
    (he : e < n) (hk : k < p) (hr : r < L) :
    ((List.range n).flatMap fun e =>
      (List.range p).flatMap fun k => Tiny.toList L (blk e k)).getD ((e * p + k) * L + r) d =
      blk e k r := by
  have hinner : ∀ e : Nat,
      ((List.range p).flatMap fun k => Tiny.toList L (blk e k)).length = p * L :=
    fun e => length_flatMap_range_const _ L _ (fun k => Tiny.length_toList _ _)
  have hidx : (e * p + k) * L + r = e * (p * L) + (k * L + r) := by ring
  have hlt : k * L + r < p * L := by
    calc k * L + r < k * L + L := by omega
      _ = (k + 1) * L := by ring
      _ ≤ p * L := Nat.mul_le_mul_right L hk
  rw [hidx, getD_flatMap_range d n (p * L) _ hinner e _ he hlt,
    getD_flatMap_range d p L _ (fun k => Tiny.length_toList _ _) k _ hk hr,
    Tiny.getD_toList d _ _ _ hr]

theorem length_blocks2 (n p L : Nat) (blk : Nat → Nat → Tiny β) :
    ((List.range n).flatMap fun e =>
      (List.range p).flatMap fun k => Tiny.toList L (blk e k)).length = n * (p * L) :=
  length_flatMap_range_const _ (p * L) _ (fun _ =>
    length_flatMap_range_const _ L _ (fun _ => Tiny.length_toList _ _))

end AuxBlocks

namespace Element.Quad4

variable {α : Type} [LinearOrderedField α]

theorem Quadrature.gradN_vector_read (T : TensorStorage) (q : Quadrature α) (u : ArrD α)
    (e k r : Nat) (he : e < q.m_nelem) (hk : k < q.m_nip) (hr : r < T.Size) :
    (q.gradN_vector T u).get3 e k r = Quadrature.graduLocal T q u e k r := by
  have hsh : (q.gradN_vector T u).shape = [q.m_nelem, q.m_nip, T.Size] := rfl
  simp only [ArrD.get3, ArrD.read]
  rw [ArrD.offset3_of_shape hsh]
  exact getD_blocks2 0 q.m_nelem q.m_nip T.Size _ e k r he hk hr

theorem Quadrature.gradN_vector_T_read (T : TensorStorage) (q : Quadrature α) (u : ArrD α)
    (e k r : Nat) (he : e < q.m_nelem) (hk : k < q.m_nip) (hr : r < T.Size) :
    (q.gradN_vector_T T u).get3 e k r = Quadrature.graduTLocal T q u e k r := by
  have hsh : (q.gradN_vector_T T u).shape = [q.m_nelem, q.m_nip, T.Size] := rfl
  simp only [ArrD.get3, ArrD.read]
  rw [ArrD.offset3_of_shape hsh]
  exact getD_blocks2 0 q.m_nelem q.m_nip T.Size _ e k r he hk hr

theorem Quadrature.symGradN_vector_read (T : TensorStorage) (q : Quadrature α) (u : ArrD α)
    (e k r : Nat) (he : e < q.m_nelem) (hk : k < q.m_nip) (hr : r < T.Size) :
    (q.symGradN_vector T u).get3 e k r = Quadrature.epsLocal T q u e k r := by
  have hsh : (q.symGradN_vector T u).shape = [q.m_nelem, q.m_nip, T.Size] := rfl
  simp only [ArrD.get3, ArrD.read]
  rw [ArrD.offset3_of_shape hsh]
  exact getD_blocks2 0 q.m_nelem q.m_nip T.Size _ e k r he hk hr

theorem QuadratureAxisymmetric.gradN_vector_read_axi (q : QuadratureAxisymmetric α) (u : ArrD α)
    (e k i j : Nat) (he : e < q.m_nelem) (hk : k < q.m_nip) (hi : i < 3) (hj : j < 3) :
    (q.gradN_vector u).get4 e k i j = q.graduBlock u e k (i * 3 + j) := by
  have hsh : (q.gradN_vector u).shape = [q.m_nelem, q.m_nip, 3, 3] := rfl
  simp only [ArrD.get4, ArrD.read]
  rw [ArrD.offset4_of_shape hsh]
  exact getD_blocks2 0 q.m_nelem q.m_nip (3 * 3) _ e k _ he hk (by omega)

theorem QuadratureAxisymmetric.gradN_vector_T_read_axi (q : QuadratureAxisymmetric α)
    (u : ArrD α) (e k i j : Nat) (he : e < q.m_nelem) (hk : k < q.m_nip) (hi : i < 3)
    (hj : j < 3) : (q.gradN_vector_T u).get4 e k i j = q.graduTBlock u e k (i * 3 + j) := by
  have hsh : (q.gradN_vector_T u).shape = [q.m_nelem, q.m_nip, 3, 3] := rfl
  simp only [ArrD.get4, ArrD.read]
  rw [ArrD.offset4_of_shape hsh]
  exact getD_blocks2 0 q.m_nelem q.m_nip (3 * 3) _ e k _ he hk (by omega)

theorem QuadratureAxisymmetric.symGradN_vector_read_axi (q : QuadratureAxisymmetric α)
    (u : ArrD α) (e k i j : Nat) (he : e < q.m_nelem) (hk : k < q.m_nip) (hi : i < 3)
    (hj : j < 3) : (q.symGradN_vector u).get4 e k i j = q.epsBlock u e k (i * 3 + j) := by
  have hsh : (q.symGradN_vector u).shape = [q.m_nelem, q.m_nip, 3, 3] := rfl
  simp only [ArrD.get4, ArrD.read]
  rw [ArrD.offset4_of_shape hsh]
  exact getD_blocks2 0 q.m_nelem q.m_nip (3 * 3) _ e k _ he hk (by omega)

end Element.Quad4

namespace Element.Quad4

variable {α : Type} [LinearOrderedField α]

/-- C15: `gradN_vector_T` is the transpose of `gradN_vector`: for every state and every
element vector field `u`, component `(i,j)` of `gradN_vector_T(u)` at `(e,k)` equals
component `(j,i)` of `gradN_vector(u)`, for the planar class (2x2 tensors, full storage,
component `(i,j)` at position `2*i+j`) and for the axisymmetric class (3x3 tensors). -/
theorem gradN_vector_T_transpose :
    (∀ (q : Quadrature α) (u : ArrD α) (e k i j : Nat),
      e < q.m_nelem → k < q.m_nip → i < 2 → j < 2 →
      (q.gradN_vector_T TensorStorage.tensor2 u).get3 e k (2 * i + j) =
        (q.gradN_vector TensorStorage.tensor2 u).get3 e k (2 * j + i)) ∧
    (∀ (q : QuadratureAxisymmetric α) (u : ArrD α) (e k i j : Nat),
      e < q.m_nelem → k < q.m_nip → i < 3 → j < 3 →
      (q.gradN_vector_T u).get4 e k i j = (q.gradN_vector u).get4 e k j i) := by
  constructor
  · intro q u e k i j he hk hi hj
    rw [Quadrature.gradN_vector_T_read _ q u e k _ he hk (by simp [TensorStorage.Size]; omega),
      Quadrature.gradN_vector_read _ q u e k _ he hk (by simp [TensorStorage.Size]; omega)]
    interval_cases i <;> interval_cases j <;>
      simp [Quadrature.graduTLocal, Quadrature.graduLocal, Tiny.set, TensorStorage.idx]
  · intro q u e k i j he hk hi hj
    rw [QuadratureAxisymmetric.gradN_vector_T_read_axi q u e k i j he hk hi hj,
      QuadratureAxisymmetric.gradN_vector_read_axi q u e k j i he hk hj hi]
    interval_cases i <;> interval_cases j <;>
      simp [QuadratureAxisymmetric.graduTBlock, QuadratureAxisymmetric.graduBlock, Tiny.set,
        Tiny.zero]

/-- C14: `symGradN_vector` returns the symmetric part of `gradN_vector`.  With
`g = gradN_vector(u)` (full storage) the planar result, in the three-component
symmetric storage xx, xy, yy, has shape `(nelem, nip, 3)` and is
`[g(0,0), (g(0,1) + g(1,0))/2, g(1,1)]`; the axisymmetric result satisfies
`eps(i,j) = (g(i,j) + g(j,i))/2` for all `i, j < 3` and is a symmetric tensor at every
integration point. -/
theorem symGradN_vector_spec :
    (∀ (q : Quadrature α) (u : ArrD α),
      (q.symGradN_vector TensorStorage.tensor2s u).hasShape [q.m_nelem, q.m_nip, 3] ∧
      ∀ e k, e < q.m_nelem → k < q.m_nip →
        (q.symGradN_vector TensorStorage.tensor2s u).get3 e k 0 =
          (q.gradN_vector TensorStorage.tensor2 u).get3 e k 0 ∧
        (q.symGradN_vector TensorStorage.tensor2s u).get3 e k 1 =
          ((q.gradN_vector TensorStorage.tensor2 u).get3 e k 1 +
            (q.gradN_vector TensorStorage.tensor2 u).get3 e k 2) / 2 ∧
        (q.symGradN_vector TensorStorage.tensor2s u).get3 e k 2 =
          (q.gradN_vector TensorStorage.tensor2 u).get3 e k 3) ∧
    (∀ (q : QuadratureAxisymmetric α) (u : ArrD α) (e k i j : Nat),
      e < q.m_nelem → k < q.m_nip → i < 3 → j < 3 →
      (q.symGradN_vector u).get4 e k i j =
          ((q.gradN_vector u).get4 e k i j + (q.gradN_vector u).get4 e k j i) / 2 ∧
        (q.symGradN_vector u).get4 e k i j = (q.symGradN_vector u).get4 e k j i) := by
  constructor
  · intro q u
    refine ⟨⟨rfl, ?_⟩, ?_⟩
    · simp only [Quadrature.symGradN_vector, TensorStorage.Size]
      rw [length_blocks2]
      simp
    · intro e k he hk
      rw [Quadrature.symGradN_vector_read _ q u e k 0 he hk (by decide),
        Quadrature.symGradN_vector_read _ q u e k 1 he hk (by decide),
        Quadrature.symGradN_vector_read _ q u e k 2 he hk (by decide),
        Quadrature.gradN_vector_read _ q u e k 0 he hk (by decide),
        Quadrature.gradN_vector_read _ q u e k 1 he hk (by decide),
        Quadrature.gradN_vector_read _ q u e k 2 he hk (by decide),
        Quadrature.gradN_vector_read _ q u e k 3 he hk (by decide)]
      refine ⟨?_, ?_, ?_⟩
      · simp [Quadrature.epsLocal, Quadrature.graduLocal, Tiny.set, TensorStorage.idx]
      · simp [Quadrature.epsLocal, Quadrature.graduLocal, Tiny.set, TensorStorage.idx]
        ring
      · simp [Quadrature.epsLocal, Quadrature.graduLocal, Tiny.set, TensorStorage.idx]
  · intro q u e k i j he hk hi hj
    rw [QuadratureAxisymmetric.symGradN_vector_read_axi q u e k i j he hk hi hj,
      QuadratureAxisymmetric.symGradN_vector_read_axi q u e k j i he hk hj hi,
      QuadratureAxisymmetric.gradN_vector_read_axi q u e k i j he hk hi hj,
      QuadratureAxisymmetric.gradN_vector_read_axi q u e k j i he hk hj hi]
    interval_cases i <;> interval_cases j <;>
      simp [QuadratureAxisymmetric.epsBlock, QuadratureAxisymmetric.graduBlock, Tiny.set,
        Tiny.zero] <;> ring

end Element.Quad4

namespace Element.Quad4

variable {α : Type} [LinearOrderedField α]

theorem Quadrature.update_x_init (x xi w y : ArrD α) (nip : Nat) (hy : y.shape = x.shape) :
    (Quadrature.init x xi w nip).update_x y = Quadrature.init y xi w nip := by
  have hxy : ({ shape := x.shape, data := y.data } : ArrD α) = y := by
    rw [← hy]
  have h1 : (Quadrature.init x xi w nip).update_x y =
      Quadrature.compute_dN
        { Quadrature.allocate x xi w nip with m_x := { shape := x.shape, data := y.data } } :=
    rfl
  rw [h1, hxy]
  unfold Quadrature.init Quadrature.allocate
  rw [hy]

theorem QuadratureAxisymmetric.update_x_new (pi : α) (x xi w y : ArrD α)
    (hy : y.shape = x.shape) :
    (QuadratureAxisymmetric.new pi x xi w).update_x pi y =
      QuadratureAxisymmetric.new pi y xi w := by
  have hxy : ({ shape := x.shape, data := y.data } : ArrD α) = y := by
    rw [← hy]
  have h1 : (QuadratureAxisymmetric.new pi x xi w).update_x pi y =
      QuadratureAxisymmetric.compute_dN pi
        { QuadratureAxisymmetric.allocate x xi w with
          m_x := { shape := x.shape, data := y.data } } :=
    rfl
  rw [h1, hxy]
  unfold QuadratureAxisymmetric.new QuadratureAxisymmetric.allocate
  rw [hy]

/-- C16: for a quadrature built from `(x, xi, w)` and coordinates `y` of the same
shape, the state after `update_x(y)` is the state freshly constructed from `(y, xi, w)`:
stored gradients, volumes and every other member coincide, so every operation returns
the same result.  This holds for the planar and for the axisymmetric class. -/
theorem update_x_eq_fresh :
    (∀ (sqrt3 : α) (x xi w y : ArrD α) (q : Quadrature α),
      y.shape = x.shape → Quadrature.new sqrt3 x xi w = .ok q →
      Quadrature.new sqrt3 y xi w = .ok (q.update_x y)) ∧
    (∀ (pi : α) (x xi w y : ArrD α), y.shape = x.shape →
      (QuadratureAxisymmetric.new pi x xi w).update_x pi y =
        QuadratureAxisymmetric.new pi y xi w) := by
  constructor
  · intro sqrt3 x xi w y q hy hq
    rcases Quadrature.new_eq_ok sqrt3 x xi w q hq with ⟨h1, h2, rfl⟩ | ⟨h1, h2, rfl⟩
    · rw [Quadrature.update_x_init x _ _ y _ hy]
      simp [Quadrature.new, h1, h2]
    · rw [Quadrature.update_x_init x _ _ y _ hy]
      have hne : ¬ (w.size = 0 ∧ xi.size = 0) := by omega
      simp [Quadrature.new, hne, h1, h2]
  · intro pi x xi w y hy
    exact QuadratureAxisymmetric.update_x_new pi x xi w y hy

end Element.Quad4

/-! ## Integration schemes -/

namespace Element.Quad4

variable {α : Type} [LinearOrderedField α]

theorem Quadrature.allocate_N_read (x xi w : ArrD α) (nip k r : Nat) (hk : k < nip)
    (hr : r < 4) :
    (Quadrature.allocate x xi w nip).m_N.data.getD (k * 4 + r) 0 =
      ([1 / 4 * (1 - xi.get2 k 0) * (1 - xi.get2 k 1),
        1 / 4 * (1 + xi.get2 k 0) * (1 - xi.get2 k 1),
        1 / 4 * (1 + xi.get2 k 0) * (1 + xi.get2 k 1),
        1 / 4 * (1 - xi.get2 k 0) * (1 + xi.get2 k 1)] : List α).getD r 0 := by
  simp only [Quadrature.allocate]
  rw [getD_flatMap_range 0 nip 4 _ (fun _ => by simp) k r hk hr]

theorem Quadrature.allocate_dNxi_read (x xi w : ArrD α) (nip k r : Nat) (hk : k < nip)
    (hr : r < 8) :
    (Quadrature.allocate x xi w nip).m_dNxi.data.getD (k * 8 + r) 0 =
      ([-(1 / 4) * (1 - xi.get2 k 1), -(1 / 4) * (1 - xi.get2 k 0),
        1 / 4 * (1 - xi.get2 k 1), -(1 / 4) * (1 + xi.get2 k 0),
        1 / 4 * (1 + xi.get2 k 1), 1 / 4 * (1 + xi.get2 k 0),
        -(1 / 4) * (1 + xi.get2 k 1), 1 / 4 * (1 - xi.get2 k 0)] : List α).getD r 0 := by
  simp only [Quadrature.allocate]
  rw [getD_flatMap_range 0 nip 8 _ (fun _ => by simp) k r hk hr]

/-- C17: when both `xi` and `w` are empty the constructor uses the 2x2 Gauss scheme:
the result is the one obtained by passing `Gauss::xi()` and `Gauss::w()` explicitly,
`nip = 4`, every weight is 1 and the points are `(-g,-g), (+g,-g), (+g,+g), (-g,+g)`
with `g = 1/sqrt(3)`, `g*g = 1/3`. -/
theorem Quadrature.default_scheme_is_gauss (sqrt3 : α) (x xi w : ArrD α)
    (h3 : sqrt3 * sqrt3 = 3) (hxi : xi.size = 0) (hw : w.size = 0) :
    Quadrature.new sqrt3 x xi w = Quadrature.new sqrt3 x (Gauss.xi sqrt3) Gauss.w ∧
    (1 / sqrt3) * (1 / sqrt3) = 1 / 3 ∧
    ∃ q, Quadrature.new sqrt3 x xi w = .ok q ∧ q.m_nip = 4 ∧
      (∀ k, k < 4 → q.m_w.get1 k = 1) ∧
      q.m_xi.get2 0 0 = -(1 / sqrt3) ∧ q.m_xi.get2 0 1 = -(1 / sqrt3) ∧
      q.m_xi.get2 1 0 = 1 / sqrt3 ∧ q.m_xi.get2 1 1 = -(1 / sqrt3) ∧
      q.m_xi.get2 2 0 = 1 / sqrt3 ∧ q.m_xi.get2 2 1 = 1 / sqrt3 ∧
      q.m_xi.get2 3 0 = -(1 / sqrt3) ∧ q.m_xi.get2 3 1 = 1 / sqrt3 := by
  have hnew : Quadrature.new sqrt3 x xi w =
      .ok (Quadrature.init x (Gauss.xi sqrt3) Gauss.w Gauss.nip) := by
    simp [Quadrature.new, hxi, hw]
  refine ⟨?_, ?_, _, hnew, rfl, ?_, ?_⟩
  · rw [hnew]
    rfl
  · rw [div_mul_div_comm, h3, one_mul]
  · intro k hk
    have hwk : (Quadrature.init x (Gauss.xi sqrt3) Gauss.w Gauss.nip).m_w = Gauss.w := rfl
    rw [hwk]
    interval_cases k <;>
      simp [Gauss.w, ArrD.get1, ArrD.read, ArrD.offset, ArrD.strides]
  · have hx : (Quadrature.init x (Gauss.xi sqrt3) Gauss.w Gauss.nip).m_xi = Gauss.xi sqrt3 :=
      rfl
    rw [hx]
    simp [Gauss.xi, ArrD.get2, ArrD.read, ArrD.offset, ArrD.strides, neg_div]

/-- Witness for `default_scheme_is_gauss`: the unit square over the reals with the real
square root of 3 and default-constructed `xi`, `w`. -/
theorem Quadrature.default_scheme_is_gauss_witness :
    Real.sqrt 3 * Real.sqrt 3 = 3 ∧ (Examples.emptyArr ℝ).size = 0 ∧
    Quadrature.new (Real.sqrt 3) (Examples.unitSquare ℝ) (Examples.emptyArr ℝ)
        (Examples.emptyArr ℝ) =
      Quadrature.new (Real.sqrt 3) (Examples.unitSquare ℝ) (Gauss.xi (Real.sqrt 3)) Gauss.w :=
  ⟨Real.mul_self_sqrt (by norm_num), rfl,
    (Quadrature.default_scheme_is_gauss (Real.sqrt 3) (Examples.unitSquare ℝ)
      (Examples.emptyArr ℝ) (Examples.emptyArr ℝ) (Real.mul_self_sqrt (by norm_num))
      rfl rfl).1⟩

end Element.Quad4

namespace Element.Quad4

variable {α : Type} [LinearOrderedField α]

/-- C19: for the same coordinates `x`, points `xi` and weights `w`, the volume stored by
`QuadratureAxisymmetric` is the planar volume times `2 * pi * r`,
`vol_axi(e,q) = vol_planar(e,q) * 2 * pi * r(e,q)`, with the radius
`r(e,q) = sum over m of N(q,m) * x(e,m,1)`. -/
theorem axisymmetric_vol_eq (sqrt3 pi : α) (x xi w : ArrD α) (q : Quadrature α)
    (hx : x.hasShape [x.shape.getD 0 0, 4, 2]) (hw : 0 < w.size)
    (hq : Quadrature.new sqrt3 x xi w = .ok q) :
    ∀ e k, e < x.shape.getD 0 0 → k < w.size →
      (QuadratureAxisymmetric.new pi x xi w).m_vol.get2 e k =
        q.m_vol.get2 e k * 2 * pi *
          ∑ m ∈ Finset.range 4,
            (QuadratureAxisymmetric.new pi x xi w).m_N.get2 k m * x.get3 e m 1 := by
  intro e k he hk
  rcases Quadrature.new_eq_ok sqrt3 x xi w q hq with ⟨h1, _, _⟩ | ⟨_, _, rfl⟩
  · omega
  have hA := QuadratureAxisymmetric.compute_dN_vol_axi pi
    (QuadratureAxisymmetric.allocate x xi w) rfl e k he hk
  have hP := Quadrature.compute_dN_vol_get2 (Quadrature.allocate x xi w w.size) rfl e k he hk
  have hJ : (QuadratureAxisymmetric.allocate x xi w).jacobian e k =
      (Quadrature.allocate x xi w w.size).jacobian e k := by
    have hd : (QuadratureAxisymmetric.allocate x xi w).m_dNxi.shape = [w.size, 4, 2] := rfl
    have hd2 : (Quadrature.allocate x xi w w.size).m_dNxi.shape = [w.size, 4, 2] := rfl
    have hx1 : (QuadratureAxisymmetric.allocate x xi w).m_x.shape =
        [x.shape.getD 0 0, 4, 2] := hx.1
    have hx2 : (Quadrature.allocate x xi w w.size).m_x.shape = [x.shape.getD 0 0, 4, 2] :=
      hx.1
    have e0 : ∀ a : Nat, (a * 4 + 0) * 2 + 0 = a * (4 * 2) := by
      intro a; ring
    simp only [QuadratureAxisymmetric.jacobian, Quadrature.jacobian,
      ArrD.offset3_of_shape hd, ArrD.offset1_of_shape3 hd2, ArrD.offset3_of_shape hx1,
      ArrD.offset1_of_shape3 hx2, e0]
    rfl
  have hR : (QuadratureAxisymmetric.allocate x xi w).radius e k =
      ∑ m ∈ Finset.range 4,
        (QuadratureAxisymmetric.new pi x xi w).m_N.get2 k m * x.get3 e m 1 := by
    have hN : (QuadratureAxisymmetric.new pi x xi w).m_N.shape = [w.size, 4] := rfl
    have hN2 : (QuadratureAxisymmetric.allocate x xi w).m_N.shape = [w.size, 4] := rfl
    have hx1 : (QuadratureAxisymmetric.allocate x xi w).m_x.shape =
        [x.shape.getD 0 0, 4, 2] := hx.1
    simp only [QuadratureAxisymmetric.radius, Finset.sum_range_succ, Finset.sum_range_zero,
      zero_add, ArrD.get2, ArrD.get3, ArrD.view, Tiny.at2, ArrD.offset2_of_shape hN,
      ArrD.offset2_of_shape hN2, ArrD.offset3_of_shape hx1, ArrD.offset3_of_shape hx.1]
    have e1 : ∀ m : Nat, (e * 4 + 0) * 2 + 0 + (m * 2 + 1) = (e * 4 + m) * 2 + 1 := by
      intro m; ring
    have e2 : ∀ m : Nat, k * 4 + 0 + m = k * 4 + m := by
      intro m; ring
    simp only [e1, e2]
    rfl
  have hA2 : (QuadratureAxisymmetric.new pi x xi w).m_vol.get2 e k =
      w.get1 k * ((QuadratureAxisymmetric.allocate x xi w).jacobian e k).det * 2 * pi *
        (QuadratureAxisymmetric.allocate x xi w).radius e k := hA
  have hP2 : (Quadrature.init x xi w w.size).m_vol.get2 e k =
      w.get1 k * ((Quadrature.allocate x xi w w.size).jacobian e k).det := hP
  rw [hA2, hP2, hJ, hR]

/-- Witness for `axisymmetric_vol_eq`: the off-axis unit square with the nodal scheme. -/
theorem axisymmetric_vol_eq_witness :
    Examples.squareOffAxis.hasShape [Examples.squareOffAxis.shape.getD 0 0, 4, 2] ∧
    0 < (Nodal.w : ArrD ℚ).size ∧
    Quadrature.new 2 Examples.squareOffAxis Nodal.xi Nodal.w =
      .ok (Quadrature.init Examples.squareOffAxis Nodal.xi Nodal.w Nodal.nip) ∧
    ∀ e k, e < Examples.squareOffAxis.shape.getD 0 0 → k < (Nodal.w : ArrD ℚ).size →
      Examples.axiCCW.m_vol.get2 e k =
        (Quadrature.init Examples.squareOffAxis Nodal.xi Nodal.w Nodal.nip).m_vol.get2 e k *
          2 * (22 / 7) *
          ∑ m ∈ Finset.range 4, Examples.axiCCW.m_N.get2 k m *
            Examples.squareOffAxis.get3 e m 1 :=
  ⟨by decide, by decide, rfl,
    axisymmetric_vol_eq 2 (22 / 7) Examples.squareOffAxis Nodal.xi Nodal.w
      (Quadrature.init Examples.squareOffAxis Nodal.xi Nodal.w Nodal.nip)
      (by decide) (by decide) rfl⟩

/-- C20: for a rank-3 field with matching `nelem` and `nip`, the overload
`int_gradN_dot_tensor2_dV(qtensor)` without template argument raises exactly when the
number of components `qtensor.shape(2)` is neither 4 nor 3; it then returns no output
at all, and otherwise returns the result of the template with the full (4) or the
symmetric (3) storage. -/
theorem Quadrature.int_gradN_dot_tensor2_dV_auto_error_iff (q : Quadrature α)
    (qtensor : ArrD α) (n : Nat) (hs : qtensor.hasShape [q.m_nelem, q.m_nip, n]) :
    ((∃ msg, q.int_gradN_dot_tensor2_dV_auto qtensor = .error msg) ↔ (n ≠ 4 ∧ n ≠ 3)) ∧
    (n = 4 → q.int_gradN_dot_tensor2_dV_auto qtensor =
      .ok (q.int_gradN_dot_tensor2_dV TensorStorage.tensor2 qtensor)) ∧
    (n = 3 → q.int_gradN_dot_tensor2_dV_auto qtensor =
      .ok (q.int_gradN_dot_tensor2_dV TensorStorage.tensor2s qtensor)) := by
  have hn : qtensor.shape.getD 2 0 = n := by rw [hs.1]; rfl
  unfold Quadrature.int_gradN_dot_tensor2_dV_auto
  rw [hn]
  by_cases h4 : n = 4
  · subst h4
    refine ⟨⟨?_, fun h => absurd rfl h.1⟩, fun _ => by simp, fun h => by omega⟩
    rintro ⟨_, h⟩
    simp at h
  · by_cases h3 : n = 3
    · subst h3
      refine ⟨⟨?_, fun h => absurd rfl h.2⟩, fun h => by omega, fun _ => by simp⟩
      rintro ⟨_, h⟩
      simp at h
    · have h4' : ¬ n = 2 * 2 := h4
      have h3' : ¬ n = (2 + 1) * 2 / 2 := h3
      refine ⟨⟨fun _ => ⟨h4, h3⟩, fun _ => ⟨_, by rw [if_neg h4', if_neg h3']⟩⟩,
        fun h => absurd h h4, fun h => absurd h h3⟩

/-- Witness for `int_gradN_dot_tensor2_dV_auto_error_iff`: a field with two components
per integration point on the unit square, which raises. -/
theorem Quadrature.int_gradN_dot_tensor2_dV_auto_error_iff_witness :
    ({ shape := [1, 4, 2], data := [1, 2, 3, 4, 5, 6, 7, 8] } : ArrD ℚ).hasShape
      [Examples.quadCCW.m_nelem, Examples.quadCCW.m_nip, 2] ∧
    ((∃ msg, Examples.quadCCW.int_gradN_dot_tensor2_dV_auto
        { shape := [1, 4, 2], data := [1, 2, 3, 4, 5, 6, 7, 8] } = .error msg) ↔
      (2 ≠ 4 ∧ 2 ≠ 3)) :=
  ⟨by decide,
    (Quadrature.int_gradN_dot_tensor2_dV_auto_error_iff Examples.quadCCW
      { shape := [1, 4, 2], data := [1, 2, 3, 4, 5, 6, 7, 8] } 2 (by decide)).1⟩

end Element.Quad4

namespace Element.Quad4

variable {α : Type} [LinearOrderedField α]

theorem Nodal.nodal_xi_get2 (k : Nat) (hk : k < 4) :
    (Nodal.xi : ArrD α).get2 k 0 = ([-1, 1, 1, -1] : List α).getD k 0 ∧
    (Nodal.xi : ArrD α).get2 k 1 = ([-1, -1, 1, 1] : List α).getD k 0 := by
  interval_cases k <;>
    simp [Nodal.xi, ArrD.get2, ArrD.read, ArrD.offset, ArrD.strides]

theorem Quadrature.nodal_N_read (x : ArrD α) (k m : Nat) (hk : k < 4) (hm : m < 4) :
    (Quadrature.allocate x Nodal.xi Nodal.w Nodal.nip).m_N.data.getD (k * 4 + m) 0 =
      if k = m then 1 else 0 := by
  rw [Quadrature.allocate_N_read x Nodal.xi Nodal.w Nodal.nip k m hk hm,
    (Nodal.nodal_xi_get2 k hk).1, (Nodal.nodal_xi_get2 k hk).2]
  interval_cases k <;> interval_cases m <;> norm_num

/-- C18: with the nodal scheme the integration points are the element nodes,
`N(k,m) = 1` if `k = m` and `0` otherwise, and for every scalar field `s` the element
matrix of `int_N_scalar_NT_dV` is diagonal: `M(e, 2m+c, 2m+c) = s(e,m) * vol(e,m)` and
every off-diagonal entry is 0. -/
theorem Quadrature.nodal_mass_is_lumped (sqrt3 : α) (x s : ArrD α) (q : Quadrature α)
    (hq : Quadrature.new sqrt3 x Nodal.xi Nodal.w = .ok q) :
    (∀ k m, k < 4 → m < 4 → q.m_N.get2 k m = if k = m then 1 else 0) ∧
    (∀ e m c, e < q.m_nelem → m < 4 → c < 2 →
      (q.int_N_scalar_NT_dV s).get3 e (2 * m + c) (2 * m + c) =
        s.get2 e m * q.m_vol.get2 e m) ∧
    (∀ e a b, e < q.m_nelem → a < 8 → b < 8 → a ≠ b →
      (q.int_N_scalar_NT_dV s).get3 e a b = 0) := by
  have hq2 : q = Quadrature.init x Nodal.xi Nodal.w Nodal.nip := by
    have hne : ¬ ((Nodal.w : ArrD α).size = 0 ∧ (Nodal.xi : ArrD α).size = 0) := by
      simp [Nodal.w, ArrD.size]
    have hpos : 0 < (Nodal.w : ArrD α).size ∧ 0 < (Nodal.xi : ArrD α).size := by
      simp [Nodal.w, Nodal.xi, ArrD.size]
    simp only [Quadrature.new, if_neg hne, if_pos hpos] at hq
    exact (Except.ok.inj hq).symm
  subst hq2
  have hNsh : (Quadrature.init x Nodal.xi Nodal.w Nodal.nip).m_N.shape = [4, 4] := rfl
  have hview : ∀ k m, k < 4 → m < 4 →
      (Quadrature.init x Nodal.xi Nodal.w Nodal.nip).m_N.view
        ((Quadrature.init x Nodal.xi Nodal.w Nodal.nip).m_N.offset [k]) m =
      if k = m then 1 else 0 := by
    intro k m hk hm
    have h1 : (Quadrature.init x Nodal.xi Nodal.w Nodal.nip).m_N.offset [k] = k * 4 := by
      simp [ArrD.offset, ArrD.strides, hNsh]
    rw [h1]
    exact Quadrature.nodal_N_read x k m hk hm
  have hnip : (Quadrature.init x Nodal.xi Nodal.w Nodal.nip).m_nip = 4 := rfl
  have hsum : ∀ e m n c d, m < 4 → n < 4 → c < 2 → d < 2 →
      (Quadrature.init x Nodal.xi Nodal.w Nodal.nip).massBlock s e
        ((2 * m + c) * 8 + (2 * n + d)) =
      if c = d ∧ m = n then
        s.get2 e m * (Quadrature.init x Nodal.xi Nodal.w Nodal.nip).m_vol.get2 e m
      else 0 := by
    intro e m n c d hm hn hc hd
    rw [Quadrature.massBlock_apply _ s e m n c d hm hn hc hd, hnip]
    simp only [Finset.sum_range_succ, Finset.sum_range_zero, zero_add]
    rw [hview 0 m (by decide) hm, hview 1 m (by decide) hm, hview 2 m (by decide) hm,
      hview 3 m (by decide) hm, hview 0 n (by decide) hn, hview 1 n (by decide) hn,
      hview 2 n (by decide) hn, hview 3 n (by decide) hn]
    by_cases hcd : c = d
    · interval_cases m <;> interval_cases n <;> simp [hcd]
    · simp [hcd]
  refine ⟨?_, ?_, ?_⟩
  · intro k m hk hm
    have := Quadrature.nodal_N_read x k m hk hm
    simpa [ArrD.get2, ArrD.read, ArrD.offset2_of_shape hNsh] using this
  · intro e m c he hm hc
    rw [Quadrature.int_N_scalar_NT_dV_get3 _ s e _ _ he (by omega) (by omega),
      hsum e m m c c hm hm hc hc]
    simp
  · intro e a b he ha hb hab
    have ha2 : a = 2 * (a / 2) + a % 2 := by omega
    have hb2 : b = 2 * (b / 2) + b % 2 := by omega
    rw [Quadrature.int_N_scalar_NT_dV_get3 _ s e a b he ha hb, ha2, hb2,
      hsum e (a / 2) (b / 2) (a % 2) (b % 2) (by omega) (by omega) (by omega) (by omega)]
    have hne : ¬ (a % 2 = b % 2 ∧ a / 2 = b / 2) := by omega
    rw [if_neg hne]

/-- Witness for `nodal_mass_is_lumped`: the unit square with the nodal scheme. -/
theorem Quadrature.nodal_mass_is_lumped_witness :
    Quadrature.new 2 Examples.squareCCW Nodal.xi Nodal.w = .ok Examples.quadCCW ∧
    (∀ e m c, e < Examples.quadCCW.m_nelem → m < 4 → c < 2 →
      (Examples.quadCCW.int_N_scalar_NT_dV Examples.rhoField).get3 e (2 * m + c)
          (2 * m + c) =
        Examples.rhoField.get2 e m * Examples.quadCCW.m_vol.get2 e m) :=
  ⟨rfl, (Quadrature.nodal_mass_is_lumped 2 Examples.squareCCW Examples.rhoField
    Examples.quadCCW rfl).2.1⟩

end Element.Quad4

namespace Vector

variable {α : Type} [LinearOrderedField α]

theorem asDofs_nodevec_get1 (conn dofs : ArrD Nat) (nodevec : ArrD α)
    (hcons : ∀ n, n < (Vector.new conn dofs).m_nnode → ∀ c, c < (Vector.new conn dofs).m_ndim →
      ∀ n', n' < (Vector.new conn dofs).m_nnode → ∀ c', c' < (Vector.new conn dofs).m_ndim →
      (Vector.new conn dofs).dof n c = (Vector.new conn dofs).dof n' c' →
      nodevec.get2 n c = nodevec.get2 n' c')
    (n c : Nat) (hn : n < (Vector.new conn dofs).m_nnode)
    (hc : c < (Vector.new conn dofs).m_ndim) :
    ((Vector.new conn dofs).asDofs_nodevec nodevec).get1 ((Vector.new conn dofs).dof n c) =
      nodevec.get2 n c := by
  rw [ArrD.get1_of_shape (asDofs_nodevec_hasShape _ nodevec).1]
  obtain ⟨_, _, _, h4⟩ := foldl_write_spec
    (fun p : Nat × Nat => (Vector.new conn dofs).dof p.1 p.2)
    (fun p => nodevec.get2 p.1 p.2) (Vector.new conn dofs).nodePairs
    (ArrD.zero [(Vector.new conn dofs).m_ndof])
  refine h4 ?_ (n, c) ((mem_nodePairs _ n c).mpr ⟨hn, hc⟩) ?_
  · rintro ⟨a, b⟩ hp ⟨a', b'⟩ hq hpq
    rw [mem_nodePairs] at hp hq
    exact hcons a hp.1 b hp.2 a' hq.1 b' hq.2 hpq
  · rw [(zero_hasShape _).2]
    simpa using dof_lt_ndof conn dofs n c

theorem data_eq_map_nodePairs (v : Vector) (nodevec : ArrD α)
    (hn : nodevec.hasShape [v.m_nnode, v.m_ndim]) :
    nodevec.data = v.nodePairs.map fun p => nodevec.get2 p.1 p.2 := by
  have hlen : (v.nodePairs.map fun p => nodevec.get2 p.1 p.2).length =
      v.m_nnode * v.m_ndim := by
    rw [List.length_map]
    exact (List.length_product _ _).trans (by rw [List.length_range, List.length_range])
  have hdl : nodevec.data.length = v.m_nnode * v.m_ndim := by
    rw [hn.2]; simp
  apply ext_of_getD
  · rw [hdl, hlen]
  · intro j hj
    rw [hdl] at hj
    have hd : 0 < v.m_ndim := by
      rcases Nat.eq_zero_or_pos v.m_ndim with h | h
      · rw [h] at hj; simp at hj
      · exact h
    have hb : j % v.m_ndim < v.m_ndim := Nat.mod_lt _ hd
    have ha : j / v.m_ndim < v.m_nnode := by
      rw [Nat.div_lt_iff_lt_mul hd]; exact hj
    have hj2 : j = j / v.m_ndim * (List.range v.m_ndim).length + j % v.m_ndim := by
      rw [List.length_range, Nat.mul_comm]; exact (Nat.div_add_mod j v.m_ndim).symm
    have hmap := getD_map_product_range (0 : α)
      (fun p : Nat × Nat => nodevec.get2 p.1 p.2) v.m_nnode (List.range v.m_ndim)
      (j / v.m_ndim) (j % v.m_ndim) ha (by rw [List.length_range]; exact hb)
    rw [← hj2, getD_map_range 0 _ _ _ hb] at hmap
    unfold nodePairs
    rw [hmap]
    simp only [ArrD.get2, ArrD.read, ArrD.offset2_of_shape hn.1]
    congr 1
    rw [Nat.mul_comm]
    exact (Nat.div_add_mod j v.m_ndim).symm

/-- C11: for a `Vector` whose DOF map sends different (node, component) pairs to
different DOF ids (in particular a bijection onto `[0, ndof)`), converting a `nodevec`
of shape `(nnode, ndim)` to DOFs and back, `asNode(asDofs(v))`, returns it exactly. -/
theorem asNode_asDofs (conn dofs : ArrD Nat) (v : Vector) (nodevec : ArrD α)
    (hv : v = Vector.new conn dofs)
    (hinj : ∀ n, n < v.m_nnode → ∀ c, c < v.m_ndim → ∀ n', n' < v.m_nnode →
      ∀ c', c' < v.m_ndim → v.dof n c = v.dof n' c' → n = n' ∧ c = c')
    (hn : nodevec.hasShape [v.m_nnode, v.m_ndim]) :
    v.asNode_dofval (v.asDofs_nodevec nodevec) = nodevec := by
  subst hv
  have hcons : ∀ n, n < (Vector.new conn dofs).m_nnode →
      ∀ c, c < (Vector.new conn dofs).m_ndim →
      ∀ n', n' < (Vector.new conn dofs).m_nnode → ∀ c', c' < (Vector.new conn dofs).m_ndim →
      (Vector.new conn dofs).dof n c = (Vector.new conn dofs).dof n' c' →
      nodevec.get2 n c = nodevec.get2 n' c' := by
    intro n hn' c hc n' hn'' c' hc' h
    obtain ⟨h1, h2⟩ := hinj n hn' c hc n' hn'' c' hc' h
    rw [h1, h2]
  have hdata : ((Vector.new conn dofs).nodePairs.map fun p =>
      ((Vector.new conn dofs).asDofs_nodevec nodevec).get1
        ((Vector.new conn dofs).dof p.1 p.2)) = nodevec.data := by
    rw [data_eq_map_nodePairs _ nodevec hn]
    apply List.map_congr_left
    rintro ⟨n, c⟩ hp
    rw [mem_nodePairs] at hp
    exact asDofs_nodevec_get1 conn dofs nodevec hcons n c hp.1 hp.2
  cases hB : nodevec with
  | mk sh dt =>
    rw [hB] at hdata hn
    simp only [asNode_dofval]
    rw [hdata]
    rw [← hn.1]

set_option synthInstance.maxSize 512 in
/-- Witness for `asNode_asDofs`: the 2 x 2 mesh with the sequential DOF map
`Mesh::dofs(9, 2)` and the velocity field of the test. -/
theorem asNode_asDofs_witness :
    (∀ n, n < (Vector.new Mesh.Quad4.Regular22.conn (Mesh.dofs 9 2)).m_nnode →
      ∀ c, c < (Vector.new Mesh.Quad4.Regular22.conn (Mesh.dofs 9 2)).m_ndim →
      ∀ n', n' < (Vector.new Mesh.Quad4.Regular22.conn (Mesh.dofs 9 2)).m_nnode →
      ∀ c', c' < (Vector.new Mesh.Quad4.Regular22.conn (Mesh.dofs 9 2)).m_ndim →
      (Vector.new Mesh.Quad4.Regular22.conn (Mesh.dofs 9 2)).dof n c =
        (Vector.new Mesh.Quad4.Regular22.conn (Mesh.dofs 9 2)).dof n' c' →
      n = n' ∧ c = c') ∧
    Mesh.Quad4.Regular22.velocity.hasShape
      [(Vector.new Mesh.Quad4.Regular22.conn (Mesh.dofs 9 2)).m_nnode,
        (Vector.new Mesh.Quad4.Regular22.conn (Mesh.dofs 9 2)).m_ndim] ∧
    (Vector.new Mesh.Quad4.Regular22.conn (Mesh.dofs 9 2)).asNode_dofval
        ((Vector.new Mesh.Quad4.Regular22.conn (Mesh.dofs 9 2)).asDofs_nodevec
          Mesh.Quad4.Regular22.velocity) =
      Mesh.Quad4.Regular22.velocity :=
  ⟨by decide!, by decide,
    asNode_asDofs Mesh.Quad4.Regular22.conn (Mesh.dofs 9 2)
      (Vector.new Mesh.Quad4.Regular22.conn (Mesh.dofs 9 2)) Mesh.Quad4.Regular22.velocity
      rfl (by decide!) (by decide)⟩

end Vector

/-! ## Jacobian of the bilinear map -/

namespace Element.Quad4

variable {α : Type} [LinearOrderedField α]

/-- The Jacobian of the state before `compute_dN`, written out in the integration point
`(xi0, xi1) = (xi(k,0), xi(k,1))` and the nodal coordinates of element `e`. -/
theorem Quadrature.allocate_jacobian (x xi w : ArrD α) (nip n e k : Nat)
    (hx : x.shape = [n, 4, 2]) (hk : k < nip) :
    (Quadrature.allocate x xi w nip).jacobian e k =
      { c00 := -(1 / 4) * (1 - xi.get2 k 1) * x.get3 e 0 0 +
          1 / 4 * (1 - xi.get2 k 1) * x.get3 e 1 0 +
          1 / 4 * (1 + xi.get2 k 1) * x.get3 e 2 0 +
          -(1 / 4) * (1 + xi.get2 k 1) * x.get3 e 3 0
        c01 := -(1 / 4) * (1 - xi.get2 k 1) * x.get3 e 0 1 +
          1 / 4 * (1 - xi.get2 k 1) * x.get3 e 1 1 +
          1 / 4 * (1 + xi.get2 k 1) * x.get3 e 2 1 +
          -(1 / 4) * (1 + xi.get2 k 1) * x.get3 e 3 1
        c10 := -(1 / 4) * (1 - xi.get2 k 0) * x.get3 e 0 0 +
          -(1 / 4) * (1 + xi.get2 k 0) * x.get3 e 1 0 +
          1 / 4 * (1 + xi.get2 k 0) * x.get3 e 2 0 +
          1 / 4 * (1 - xi.get2 k 0) * x.get3 e 3 0
        c11 := -(1 / 4) * (1 - xi.get2 k 0) * x.get3 e 0 1 +
          -(1 / 4) * (1 + xi.get2 k 0) * x.get3 e 1 1 +
          1 / 4 * (1 + xi.get2 k 0) * x.get3 e 2 1 +
          1 / 4 * (1 - xi.get2 k 0) * x.get3 e 3 1 } := by
  have hd : (Quadrature.allocate x xi w nip).m_dNxi.shape = [nip, 4, 2] := rfl
  have hx2 : (Quadrature.allocate x xi w nip).m_x.shape = [n, 4, 2] := hx
  have hxx : (Quadrature.allocate x xi w nip).m_x = x := rfl
  have hr : ∀ r, r < 8 →
      (Quadrature.allocate x xi w nip).m_dNxi.read (k * (4 * 2) + r) =
      ([-(1 / 4) * (1 - xi.get2 k 1), -(1 / 4) * (1 - xi.get2 k 0),
        1 / 4 * (1 - xi.get2 k 1), -(1 / 4) * (1 + xi.get2 k 0),
        1 / 4 * (1 + xi.get2 k 1), 1 / 4 * (1 + xi.get2 k 0),
        -(1 / 4) * (1 + xi.get2 k 1), 1 / 4 * (1 - xi.get2 k 0)] : List α).getD r 0 :=
    fun r hr => Quadrature.allocate_dNxi_read x xi w nip k r hk hr
  have hxr : ∀ m j : Nat, x.get3 e m j = x.read (e * (4 * 2) + (m * 2 + j)) := by
    intro m j
    simp only [ArrD.get3, ArrD.offset3_of_shape hx]
    congr 1
    ring
  simp only [Quadrature.jacobian, ArrD.view, Tiny.at2, ArrD.offset1_of_shape3 hd,
    ArrD.offset1_of_shape3 hx2, hxx, hxr]
  rw [hr (0 * 2 + 0) (by decide), hr (1 * 2 + 0) (by decide), hr (2 * 2 + 0) (by decide),
    hr (3 * 2 + 0) (by decide), hr (0 * 2 + 1) (by decide), hr (1 * 2 + 1) (by decide),
    hr (2 * 2 + 1) (by decide), hr (3 * 2 + 1) (by decide)]
  simp [ArrD.offset1_of_shape3 hx]

/-- The determinant of the bilinear Jacobian at `(s, t)` is the bilinear interpolation
of the four corner cross products. -/
theorem det_bilinear_identity (s t x0 y0 x1 y1 x2 y2 x3 y3 : α) :
    (-(1 / 4) * (1 - t) * x0 + 1 / 4 * (1 - t) * x1 + 1 / 4 * (1 + t) * x2 +
        -(1 / 4) * (1 + t) * x3) *
      (-(1 / 4) * (1 - s) * y0 + -(1 / 4) * (1 + s) * y1 + 1 / 4 * (1 + s) * y2 +
        1 / 4 * (1 - s) * y3) -
    (-(1 / 4) * (1 - t) * y0 + 1 / 4 * (1 - t) * y1 + 1 / 4 * (1 + t) * y2 +
        -(1 / 4) * (1 + t) * y3) *
      (-(1 / 4) * (1 - s) * x0 + -(1 / 4) * (1 + s) * x1 + 1 / 4 * (1 + s) * x2 +
        1 / 4 * (1 - s) * x3) =
    1 / 16 *
      ((1 - s) * (1 - t) * ((x1 - x0) * (y3 - y0) - (y1 - y0) * (x3 - x0)) +
        (1 + s) * (1 - t) * ((x2 - x1) * (y0 - y1) - (y2 - y1) * (x0 - x1)) +
        (1 + s) * (1 + t) * ((x3 - x2) * (y1 - y2) - (y3 - y2) * (x1 - x2)) +
        (1 - s) * (1 + t) * ((x0 - x3) * (y2 - y3) - (y0 - y3) * (x2 - x3))) := by
  ring

end Element.Quad4

namespace Element.Quad4

variable {α : Type} [LinearOrderedField α]

theorem Gauss.gauss_xi_get2 (sqrt3 : α) (k : Nat) (hk : k < 4) :
    (Gauss.xi sqrt3).get2 k 0 =
      ([-(1 / sqrt3), 1 / sqrt3, 1 / sqrt3, -(1 / sqrt3)] : List α).getD k 0 ∧
    (Gauss.xi sqrt3).get2 k 1 =
      ([-(1 / sqrt3), -(1 / sqrt3), 1 / sqrt3, 1 / sqrt3] : List α).getD k 0 := by
  interval_cases k <;>
    simp [Gauss.xi, ArrD.get2, ArrD.read, ArrD.offset, ArrD.strides, neg_div]

theorem Gauss.w_get1 (k : Nat) (hk : k < 4) : (Gauss.w : ArrD α).get1 k = 1 := by
  interval_cases k <;> simp [Gauss.w, ArrD.get1, ArrD.read, ArrD.offset, ArrD.strides]

theorem inv_sqrt3_bounds (sqrt3 : α) (h3 : sqrt3 * sqrt3 = 3) (hpos : 0 < sqrt3) :
    0 < 1 / sqrt3 ∧ 1 / sqrt3 < 1 := by
  have h1 : 1 < sqrt3 := by
    by_contra h
    have hle : sqrt3 ≤ 1 := not_lt.mp h
    have : sqrt3 * sqrt3 ≤ 1 * 1 := mul_le_mul hle hle hpos.le zero_le_one
    rw [h3] at this
    norm_num at this
  exact ⟨one_div_pos.mpr hpos, (div_lt_one hpos).mpr h1⟩

/-- Positivity of the bilinear Jacobian determinant strictly inside the reference
square when the four corner cross products are positive. -/
theorem det_bilinear_pos (s t x0 y0 x1 y1 x2 y2 x3 y3 : α) (hs1 : -1 < s) (hs2 : s < 1)
    (ht1 : -1 < t) (ht2 : t < 1)
    (c0 : 0 < (x1 - x0) * (y3 - y0) - (y1 - y0) * (x3 - x0))
    (c1 : 0 < (x2 - x1) * (y0 - y1) - (y2 - y1) * (x0 - x1))
    (c2 : 0 < (x3 - x2) * (y1 - y2) - (y3 - y2) * (x1 - x2))
    (c3 : 0 < (x0 - x3) * (y2 - y3) - (y0 - y3) * (x2 - x3)) :
    0 < (-(1 / 4) * (1 - t) * x0 + 1 / 4 * (1 - t) * x1 + 1 / 4 * (1 + t) * x2 +
        -(1 / 4) * (1 + t) * x3) *
      (-(1 / 4) * (1 - s) * y0 + -(1 / 4) * (1 + s) * y1 + 1 / 4 * (1 + s) * y2 +
        1 / 4 * (1 - s) * y3) -
    (-(1 / 4) * (1 - t) * y0 + 1 / 4 * (1 - t) * y1 + 1 / 4 * (1 + t) * y2 +
        -(1 / 4) * (1 + t) * y3) *
      (-(1 / 4) * (1 - s) * x0 + -(1 / 4) * (1 + s) * x1 + 1 / 4 * (1 + s) * x2 +
        1 / 4 * (1 - s) * x3) := by
  rw [det_bilinear_identity]
  have a1 : 0 < 1 - s := by linarith
  have a2 : 0 < 1 + s := by linarith
  have b1 : 0 < 1 - t := by linarith
  have b2 : 0 < 1 + t := by linarith
  have p0 := mul_pos (mul_pos a1 b1) c0
  have p1 := mul_pos (mul_pos a2 b1) c1
  have p2 := mul_pos (mul_pos a2 b2) c2
  have p3 := mul_pos (mul_pos a1 b2) c3
  have : (0 : α) < 1 / 16 := by norm_num
  exact mul_pos this (by linarith)

/-- C12: for an element whose four nodes form a strictly convex, counter-clockwise
quadrilateral, the Jacobian determinant computed by `compute_dN` is strictly positive
at each of the four default Gauss points, and so is the stored volume. -/
theorem Quadrature.gauss_jacobian_pos (sqrt3 : α) (x xi w : ArrD α) (q : Quadrature α)
    (e : Nat) (h3 : sqrt3 * sqrt3 = 3) (hpos : 0 < sqrt3)
    (hx : x.hasShape [x.shape.getD 0 0, 4, 2]) (hw : w.size = 0)
    (hq : Quadrature.new sqrt3 x xi w = .ok q) (he : e < q.m_nelem)
    (hconv : strictlyConvexCCW x e) :
    q.m_nip = 4 ∧ ∀ k, k < 4 → 0 < (q.jacobian e k).det ∧ 0 < q.m_vol.get2 e k := by
  rcases Quadrature.new_eq_ok sqrt3 x xi w q hq with ⟨_, _, rfl⟩ | ⟨h1, _, _⟩
  swap
  · omega
  refine ⟨rfl, ?_⟩
  intro k hk
  obtain ⟨g0, g1⟩ := inv_sqrt3_bounds sqrt3 h3 hpos
  rw [one_div] at g0 g1
  obtain ⟨c0, c1, c2, c3⟩ := hconv
  have hJ : (Quadrature.init x (Gauss.xi sqrt3) Gauss.w Gauss.nip).jacobian e k =
      (Quadrature.allocate x (Gauss.xi sqrt3) Gauss.w Gauss.nip).jacobian e k := rfl
  have hdet : 0 < ((Quadrature.allocate x (Gauss.xi sqrt3) Gauss.w Gauss.nip).jacobian
      e k).det := by
    rw [Quadrature.allocate_jacobian x (Gauss.xi sqrt3) Gauss.w Gauss.nip _ e k hx.1 hk]
    simp only [Tensor2.det]
    have hs : -1 < (Gauss.xi sqrt3).get2 k 0 ∧ (Gauss.xi sqrt3).get2 k 0 < 1 := by
      rw [(Gauss.gauss_xi_get2 sqrt3 k hk).1]
      interval_cases k <;> simp <;> constructor <;> linarith
    have ht : -1 < (Gauss.xi sqrt3).get2 k 1 ∧ (Gauss.xi sqrt3).get2 k 1 < 1 := by
      rw [(Gauss.gauss_xi_get2 sqrt3 k hk).2]
      interval_cases k <;> simp <;> constructor <;> linarith
    exact det_bilinear_pos _ _ _ _ _ _ _ _ _ _ hs.1 hs.2 ht.1 ht.2 c0 c1 c2 c3
  refine ⟨hJ ▸ hdet, ?_⟩
  have hv := Quadrature.compute_dN_vol_get2
    (Quadrature.allocate x (Gauss.xi sqrt3) Gauss.w Gauss.nip) rfl e k he hk
  have hv2 : (Quadrature.init x (Gauss.xi sqrt3) Gauss.w Gauss.nip).m_vol.get2 e k =
      (Gauss.w : ArrD α).get1 k *
        ((Quadrature.allocate x (Gauss.xi sqrt3) Gauss.w Gauss.nip).jacobian e k).det := hv
  rw [hv2, Gauss.w_get1 k hk, one_mul]
  exact hdet

/-- Witness for `gauss_jacobian_pos`: the unit square over the reals with the real
square root of 3. -/
theorem Quadrature.gauss_jacobian_pos_witness :
    Real.sqrt 3 * Real.sqrt 3 = 3 ∧ 0 < Real.sqrt 3 ∧
    strictlyConvexCCW (Examples.unitSquare ℝ) 0 ∧
    ∀ k, k < 4 →
      0 < ((Quadrature.init (Examples.unitSquare ℝ) (Gauss.xi (Real.sqrt 3)) Gauss.w
        Gauss.nip).jacobian 0 k).det ∧
      0 < (Quadrature.init (Examples.unitSquare ℝ) (Gauss.xi (Real.sqrt 3)) Gauss.w
        Gauss.nip).m_vol.get2 0 k := by
  have hconv : strictlyConvexCCW (Examples.unitSquare ℝ) 0 := by
    simp [strictlyConvexCCW, cross, Examples.unitSquare, ArrD.get3, ArrD.read, ArrD.offset,
      ArrD.strides]
  have h3 : Real.sqrt 3 * Real.sqrt 3 = 3 := Real.mul_self_sqrt (by norm_num)
  have hpos : 0 < Real.sqrt 3 := Real.sqrt_pos.mpr (by norm_num)
  exact ⟨h3, hpos, hconv,
    (Quadrature.gauss_jacobian_pos (Real.sqrt 3) (Examples.unitSquare ℝ)
      (Examples.emptyArr ℝ) (Examples.emptyArr ℝ)
      (Quadrature.init (Examples.unitSquare ℝ) (Gauss.xi (Real.sqrt 3)) Gauss.w Gauss.nip)
      0 h3 hpos ⟨rfl, rfl⟩ rfl (by simp [Quadrature.new, Examples.emptyArr, ArrD.size])
      (by decide) hconv).2⟩

end Element.Quad4

/-! ## Stored global gradients -/

namespace Element.Quad4.Quadrature

variable {α : Type} [LinearOrderedField α]

theorem dNxBlock_apply (q : Quadrature α) (e k m : Nat) (hm : m < 4) :
    q.dNxBlock e k (m * 2 + 0) =
      (q.jacobian e k).inv.c00 * (q.m_dNxi.view (q.m_dNxi.offset [k])).at2 2 m 0 +
        (q.jacobian e k).inv.c01 * (q.m_dNxi.view (q.m_dNxi.offset [k])).at2 2 m 1 ∧
    q.dNxBlock e k (m * 2 + 1) =
      (q.jacobian e k).inv.c10 * (q.m_dNxi.view (q.m_dNxi.offset [k])).at2 2 m 0 +
        (q.jacobian e k).inv.c11 * (q.m_dNxi.view (q.m_dNxi.offset [k])).at2 2 m 1 := by
  have h4 : List.range 4 = [0, 1, 2, 3] := rfl
  unfold dNxBlock
  rw [h4]
  interval_cases m <;> simp [Tiny.set]

theorem compute_dN_dNx_view (q : Quadrature α)
    (hsh : q.m_dNx.shape = [q.m_nelem, q.m_nip, 4, 2]) (e k m i : Nat)
    (he : e < q.m_nelem) (hk : k < q.m_nip) (hm : m < 4) (hi : i < 2) :
    (q.compute_dN.m_dNx.view (q.compute_dN.m_dNx.offset [e, k])).at2 2 m i =
      q.dNxBlock e k (m * 2 + i) := by
  have hsh2 : q.compute_dN.m_dNx.shape = [q.m_nelem, q.m_nip, 4, 2] := hsh
  simp only [ArrD.view, Tiny.at2, ArrD.read, ArrD.offset2_of_shape4 hsh2]
  exact getD_blocks2 0 q.m_nelem q.m_nip (4 * 2) _ e k _ he hk (by omega)

theorem int_gradN_dot_tensor2_dV_get3 (T : TensorStorage) (q : Quadrature α)
    (qtensor : ArrD α) (e m j : Nat) (he : e < q.m_nelem) (hm : m < 4) (hj : j < 2) :
    (q.int_gradN_dot_tensor2_dV T qtensor).get3 e m j =
      q.forceBlock T qtensor e (m * 2 + j) := by
  have hsh : (q.int_gradN_dot_tensor2_dV T qtensor).shape = [q.m_nelem, 4, 2] := rfl
  simp only [ArrD.get3, ArrD.read]
  rw [ArrD.offset3_of_shape hsh]
  have hidx : (e * 4 + m) * 2 + j = e * (4 * 2) + (m * 2 + j) := by ring
  rw [hidx]
  simp only [int_gradN_dot_tensor2_dV]
  rw [getD_flatMap_range 0 _ (4 * 2) _ (fun e => Tiny.length_toList _ _) e _ he (by omega)]
  exact Tiny.getD_toList 0 _ _ _ (by omega)

end Element.Quad4.Quadrature

/-! ## Uniform stress on square elements -/

namespace Element.Quad4

variable {α : Type} [LinearOrderedField α]

/-- The Jacobian of an axis-parallel square element of side `h` is `h/2` times the unit
tensor at every integration point. -/
theorem Quadrature.square_jacobian (x xi w : ArrD α) (nip n e k : Nat) (h : α)
    (hx : x.shape = [n, 4, 2]) (hk : k < nip)
    (h10 : x.get3 e 1 0 = x.get3 e 0 0 + h) (h11 : x.get3 e 1 1 = x.get3 e 0 1)
    (h20 : x.get3 e 2 0 = x.get3 e 0 0 + h) (h21 : x.get3 e 2 1 = x.get3 e 0 1 + h)
    (h30 : x.get3 e 3 0 = x.get3 e 0 0) (h31 : x.get3 e 3 1 = x.get3 e 0 1 + h) :
    (Quadrature.allocate x xi w nip).jacobian e k =
      { c00 := h / 2, c01 := 0, c10 := 0, c11 := h / 2 } := by
  rw [Quadrature.allocate_jacobian x xi w nip n e k hx hk, h10, h11, h20, h21, h30, h31]
  simp only [Tensor2.mk.injEq]
  refine ⟨?_, ?_, ?_, ?_⟩ <;> ring

/-- Component `(i,j)` of a stored full tensor read through the local view. -/
theorem Quadrature.loadTensor_tensor2 (sigma : ArrD α) (n0 n1 e k i j : Nat)
    (hs : sigma.shape = [n0, n1, 4]) :
    Quadrature.loadTensor TensorStorage.tensor2 sigma e k i j = sigma.get3 e k (i * 2 + j) := by
  simp only [Quadrature.loadTensor, ArrD.view, ArrD.get3, TensorStorage.idx,
    ArrD.offset2_of_shape3 hs, ArrD.offset3_of_shape hs]

/-- Contribution of one integration point of a square element of side `h`. -/
theorem square_term (h w d0 d1 s0 s1 : α) (hh : h ≠ 0) :
    (((Tensor2.mk (h / 2) 0 0 (h / 2)).inv.c00 * d0 +
          (Tensor2.mk (h / 2) 0 0 (h / 2)).inv.c01 * d1) * s0 +
        ((Tensor2.mk (h / 2) 0 0 (h / 2)).inv.c10 * d0 +
          (Tensor2.mk (h / 2) 0 0 (h / 2)).inv.c11 * d1) * s1) *
      (w * (Tensor2.mk (h / 2) 0 0 (h / 2)).det) =
    w * (h / 2) * (d0 * s0 + d1 * s1) := by
  simp only [Tensor2.inv, Tensor2.det]
  field_simp
  ring

end Element.Quad4

namespace Element.Quad4

variable {α : Type} [LinearOrderedField α]

/-- Nodal force of a square element of side `h` under a stress that is the same at
every integration point of the element, for any scheme. -/
theorem Quadrature.square_force (x xi w sigma : ArrD α) (nip n n1 e m j : Nat) (h : α)
    (s : Nat → α) (hh : h ≠ 0)
    (hx : x.shape = [n, 4, 2]) (he : e < n) (hm : m < 4) (hj : j < 2)
    (hs : sigma.shape = [n, n1, 4])
    (hu : ∀ k, k < nip → ∀ c, c < 4 → sigma.get3 e k c = s c)
    (h10 : x.get3 e 1 0 = x.get3 e 0 0 + h) (h11 : x.get3 e 1 1 = x.get3 e 0 1)
    (h20 : x.get3 e 2 0 = x.get3 e 0 0 + h) (h21 : x.get3 e 2 1 = x.get3 e 0 1 + h)
    (h30 : x.get3 e 3 0 = x.get3 e 0 0) (h31 : x.get3 e 3 1 = x.get3 e 0 1 + h) :
    ((Quadrature.init x xi w nip).int_gradN_dot_tensor2_dV TensorStorage.tensor2
        sigma).get3 e m j =
      ∑ k ∈ Finset.range nip, w.get1 k * (h / 2) *
        ((Quadrature.allocate x xi w nip).m_dNxi.read (k * (4 * 2) + (m * 2 + 0)) *
            s (0 * 2 + j) +
          (Quadrature.allocate x xi w nip).m_dNxi.read (k * (4 * 2) + (m * 2 + 1)) *
            s (1 * 2 + j)) := by
  have hne : (Quadrature.init x xi w nip).m_nelem = n := by
    show x.shape.getD 0 0 = n
    rw [hx]; rfl
  have hnip : (Quadrature.init x xi w nip).m_nip = nip := rfl
  rw [Quadrature.int_gradN_dot_tensor2_dV_get3 _ _ _ e m j (hne ▸ he) hm hj,
    Quadrature.forceBlock_apply _ _ _ _ _ _ hm hj, hnip]
  refine Finset.sum_congr rfl (fun k hk => ?_)
  have hk2 : k < nip := Finset.mem_range.mp hk
  have hea : e < (Quadrature.allocate x xi w nip).m_nelem := by
    show e < x.shape.getD 0 0
    rw [hx]; exact he
  have hd0 := Quadrature.compute_dN_dNx_view (Quadrature.allocate x xi w nip) rfl e k m 0
    hea hk2 hm (by decide)
  have hd1 := Quadrature.compute_dN_dNx_view (Quadrature.allocate x xi w nip) rfl e k m 1
    hea hk2 hm (by decide)
  have hv := Quadrature.compute_dN_vol_get2 (Quadrature.allocate x xi w nip) rfl e k hea hk2
  have hb := Quadrature.dNxBlock_apply (Quadrature.allocate x xi w nip) e k m hm
  have hJ := Quadrature.square_jacobian x xi w nip n e k h hx hk2 h10 h11 h20 h21 h30 h31
  have hdsh : (Quadrature.allocate x xi w nip).m_dNxi.shape = [nip, 4, 2] := rfl
  have hw : (Quadrature.allocate x xi w nip).m_w = w := rfl
  rw [hJ] at hb hv
  simp only [Quadrature.init]
  rw [hd0, hd1, hv, hb.1, hb.2, Quadrature.loadTensor_tensor2 sigma n n1 e k 0 j hs,
    Quadrature.loadTensor_tensor2 sigma n n1 e k 1 j hs, hu k hk2 _ (by omega),
    hu k hk2 _ (by omega), hw]
  simp only [ArrD.view, Tiny.at2, ArrD.offset1_of_shape3 hdsh]
  exact square_term h _ _ _ _ _ hh

end Element.Quad4

namespace Element.Quad4

variable {α : Type} [LinearOrderedField α]

/-- Nodal force of a square element of side `h` under a uniform stress, for the Gauss
scheme: `h/2` times the stress contracted with the outward corner direction. -/
theorem Quadrature.gauss_square_force (sqrt3 : α) (x sigma : ArrD α) (n n1 e m j : Nat)
    (h : α) (s : Nat → α) (hh : h ≠ 0)
    (hx : x.shape = [n, 4, 2]) (he : e < n) (hm : m < 4) (hj : j < 2)
    (hs : sigma.shape = [n, n1, 4])
    (hu : ∀ k, k < 4 → ∀ c, c < 4 → sigma.get3 e k c = s c)
    (h10 : x.get3 e 1 0 = x.get3 e 0 0 + h) (h11 : x.get3 e 1 1 = x.get3 e 0 1)
    (h20 : x.get3 e 2 0 = x.get3 e 0 0 + h) (h21 : x.get3 e 2 1 = x.get3 e 0 1 + h)
    (h30 : x.get3 e 3 0 = x.get3 e 0 0) (h31 : x.get3 e 3 1 = x.get3 e 0 1 + h) :
    ((Quadrature.init x (Gauss.xi sqrt3) Gauss.w Gauss.nip).int_gradN_dot_tensor2_dV
        TensorStorage.tensor2 sigma).get3 e m j =
      h / 2 * (([-1, 1, 1, -1] : List α).getD m 0 * s (0 * 2 + j) +
        ([-1, -1, 1, 1] : List α).getD m 0 * s (1 * 2 + j)) := by
  rw [Quadrature.square_force x (Gauss.xi sqrt3) Gauss.w sigma Gauss.nip n n1 e m j h s hh
    hx he hm hj hs hu h10 h11 h20 h21 h30 h31]
  have hr : ∀ k, k < 4 → ∀ r, r < 8 →
      (Quadrature.allocate x (Gauss.xi sqrt3) Gauss.w 4).m_dNxi.read
        (k * (4 * 2) + r) = _ :=
    fun k hk r hr => Quadrature.allocate_dNxi_read x (Gauss.xi sqrt3) Gauss.w 4 k r hk hr
  have hn : Gauss.nip = 4 := rfl
  simp only [hn, Finset.sum_range_succ, Finset.sum_range_zero, zero_add]
  rw [hr 0 (by decide) _ (by omega), hr 0 (by decide) _ (by omega),
    hr 1 (by decide) _ (by omega), hr 1 (by decide) _ (by omega),
    hr 2 (by decide) _ (by omega), hr 2 (by decide) _ (by omega),
    hr 3 (by decide) _ (by omega), hr 3 (by decide) _ (by omega),
    Gauss.w_get1 0 (by decide), Gauss.w_get1 1 (by decide), Gauss.w_get1 2 (by decide),
    Gauss.w_get1 3 (by decide),
    (Gauss.gauss_xi_get2 sqrt3 0 (by decide)).1, (Gauss.gauss_xi_get2 sqrt3 0 (by decide)).2,
    (Gauss.gauss_xi_get2 sqrt3 1 (by decide)).1, (Gauss.gauss_xi_get2 sqrt3 1 (by decide)).2,
    (Gauss.gauss_xi_get2 sqrt3 2 (by decide)).1, (Gauss.gauss_xi_get2 sqrt3 2 (by decide)).2,
    (Gauss.gauss_xi_get2 sqrt3 3 (by decide)).1, (Gauss.gauss_xi_get2 sqrt3 3 (by decide)).2]
  interval_cases m
  · simp only [Nat.reduceMul, Nat.reduceAdd, List.getD_cons_zero, List.getD_cons_succ]
    ring
  · simp only [Nat.reduceMul, Nat.reduceAdd, List.getD_cons_zero, List.getD_cons_succ]
    ring
  · simp only [Nat.reduceMul, Nat.reduceAdd, List.getD_cons_zero, List.getD_cons_succ]
    ring
  · simp only [Nat.reduceMul, Nat.reduceAdd, List.getD_cons_zero, List.getD_cons_succ]
    ring

end Element.Quad4

namespace Element.Quad4

variable {α : Type} [LinearOrderedField α]

/-- The sum over the slots `(e, m)` of the 2 x 2 mesh that reference the centre node
runs over the slots `(0,2)`, `(1,3)`, `(2,1)` and `(3,0)`. -/
theorem centre_slots_sum (g : Nat → Nat → α) :
    (∑ e ∈ Finset.range 4, ∑ m ∈ Finset.range 4,
      if Mesh.Quad4.Regular22.conn.get2 e m = Mesh.Quad4.Regular22.centre then g e m
      else 0) = g 0 2 + g 1 3 + g 2 1 + g 3 0 := by
  simp [Finset.sum_range_succ, Mesh.Quad4.Regular22.conn, Mesh.Quad4.Regular22.centre,
    ArrD.get2, ArrD.read, ArrD.offset, ArrD.strides]

/-- Every element of the 2 x 2 mesh is an axis-parallel square of side `h`, its nodes
numbered counter-clockwise from the lower left corner. -/
theorem elemCoor_square (h : α) (e : Nat) (he : e < 4) :
    (Mesh.Quad4.Regular22.elemCoor h).get3 e 1 0 =
      (Mesh.Quad4.Regular22.elemCoor h).get3 e 0 0 + h ∧
    (Mesh.Quad4.Regular22.elemCoor h).get3 e 1 1 =
      (Mesh.Quad4.Regular22.elemCoor h).get3 e 0 1 ∧
    (Mesh.Quad4.Regular22.elemCoor h).get3 e 2 0 =
      (Mesh.Quad4.Regular22.elemCoor h).get3 e 0 0 + h ∧
    (Mesh.Quad4.Regular22.elemCoor h).get3 e 2 1 =
      (Mesh.Quad4.Regular22.elemCoor h).get3 e 0 1 + h ∧
    (Mesh.Quad4.Regular22.elemCoor h).get3 e 3 0 =
      (Mesh.Quad4.Regular22.elemCoor h).get3 e 0 0 ∧
    (Mesh.Quad4.Regular22.elemCoor h).get3 e 3 1 =
      (Mesh.Quad4.Regular22.elemCoor h).get3 e 0 1 + h := by
  have hl : Mesh.Quad4.Regular22.elemCoor h =
      { shape := [4, 4, 2]
        data := [0, 0, h, 0, h, h, 0, h,
                 h, 0, 2 * h, 0, 2 * h, h, h, h,
                 0, h, h, h, h, 2 * h, 0, 2 * h,
                 h, h, 2 * h, h, 2 * h, 2 * h, h, 2 * h] } := rfl
  rw [hl]
  interval_cases e <;>
    simp [ArrD.get3, ArrD.read, ArrD.offset, ArrD.strides, two_mul]

/-- C13: on the regular mesh of 2 x 2 square elements of side `h > 0` with the default
Gauss scheme, for a stress field `sigma` that has the same value at every element and
integration point, the entries of `int_gradN_dot_tensor2_dV(sigma)` in the four
(element, local node) slots that reference the centre node add up to zero, for both
components `j`. -/
theorem Quadrature.uniform_stress_centre_force_zero (sqrt3 h : α) (xi w sigma : ArrD α)
    (q : Quadrature α) (hh : 0 < h) (hw : w.size = 0)
    (hq : Quadrature.new sqrt3 (Mesh.Quad4.Regular22.elemCoor h) xi w = .ok q)
    (hs : sigma.hasShape [4, 4, 4])
    (hu : ∀ e, e < 4 → ∀ k, k < 4 → ∀ c, c < 4 → sigma.get3 e k c = sigma.get3 0 0 c) :
    ∀ j, j < 2 →
      (∑ e ∈ Finset.range 4, ∑ m ∈ Finset.range 4,
        if Mesh.Quad4.Regular22.conn.get2 e m = Mesh.Quad4.Regular22.centre then
          (q.int_gradN_dot_tensor2_dV TensorStorage.tensor2 sigma).get3 e m j
        else 0) = 0 := by
  rcases Quadrature.new_eq_ok sqrt3 _ xi w q hq with ⟨_, _, rfl⟩ | ⟨h1, _, _⟩
  swap
  · omega
  intro j hj
  have key : ∀ e, e < 4 → ∀ m, m < 4 →
      ((Quadrature.init (Mesh.Quad4.Regular22.elemCoor h) (Gauss.xi sqrt3) Gauss.w
        Gauss.nip).int_gradN_dot_tensor2_dV TensorStorage.tensor2 sigma).get3 e m j =
      h / 2 * (([-1, 1, 1, -1] : List α).getD m 0 * sigma.get3 0 0 (0 * 2 + j) +
        ([-1, -1, 1, 1] : List α).getD m 0 * sigma.get3 0 0 (1 * 2 + j)) := by
    intro e he m hm
    obtain ⟨h10, h11, h20, h21, h30, h31⟩ := elemCoor_square h e he
    exact Quadrature.gauss_square_force sqrt3 _ sigma 4 4 e m j h (fun c => sigma.get3 0 0 c)
      hh.ne.symm rfl he hm hj hs.1 (hu e he) h10 h11 h20 h21 h30 h31
  rw [centre_slots_sum, key 0 (by decide) 2 (by decide), key 1 (by decide) 3 (by decide),
    key 2 (by decide) 1 (by decide), key 3 (by decide) 0 (by decide)]
  simp only [List.getD_cons_zero, List.getD_cons_succ]
  ring

end Element.Quad4

theorem Examples.uniformSigma_get3 (α : Type) [LinearOrderedField α] (e k c : Nat)
    (he : e < 4) (hk : k < 4) (hc : c < 4) :
    (Examples.uniformSigma α).get3 e k c = ([1, 2, 3, 4] : List α).getD c 0 := by
  have hsh : (Examples.uniformSigma α).shape = [4, 4, 4] := rfl
  simp only [ArrD.get3, ArrD.read, ArrD.offset3_of_shape hsh]
  exact getD_flatMap_range 0 16 4 (fun _ => ([1, 2, 3, 4] : List α)) (fun _ => rfl)
    (e * 4 + k) c (by omega) hc

/-- Witness for `uniform_stress_centre_force_zero`: side 1 over the reals, the real
square root of 3 and the stress `[[1, 2], [3, 4]]` everywhere. -/
theorem Element.Quad4.Quadrature.uniform_stress_centre_force_zero_witness :
    (0 : ℝ) < 1 ∧ (Examples.uniformSigma ℝ).hasShape [4, 4, 4] ∧
    ∀ j, j < 2 →
      (∑ e ∈ Finset.range 4, ∑ m ∈ Finset.range 4,
        if Mesh.Quad4.Regular22.conn.get2 e m = Mesh.Quad4.Regular22.centre then
          ((Element.Quad4.Quadrature.init (Mesh.Quad4.Regular22.elemCoor (1 : ℝ))
            (Element.Quad4.Gauss.xi (Real.sqrt 3)) Element.Quad4.Gauss.w
            Element.Quad4.Gauss.nip).int_gradN_dot_tensor2_dV TensorStorage.tensor2
            (Examples.uniformSigma ℝ)).get3 e m j
        else 0) = 0 :=
  ⟨one_pos, ⟨rfl, rfl⟩,
    Element.Quad4.Quadrature.uniform_stress_centre_force_zero (Real.sqrt 3) 1
      (Examples.emptyArr ℝ) (Examples.emptyArr ℝ) (Examples.uniformSigma ℝ)
      (Element.Quad4.Quadrature.init (Mesh.Quad4.Regular22.elemCoor (1 : ℝ))
        (Element.Quad4.Gauss.xi (Real.sqrt 3)) Element.Quad4.Gauss.w
        Element.Quad4.Gauss.nip)
      one_pos rfl
      (by simp [Element.Quad4.Quadrature.new, Examples.emptyArr, ArrD.size])
      ⟨rfl, rfl⟩
      (fun e he k hk c hc => by
        rw [Examples.uniformSigma_get3 ℝ e k c he hk hc,
          Examples.uniformSigma_get3 ℝ 0 0 c (by decide) (by decide) hc])⟩

/-- Witness for `update_x_eq_fresh`: the unit square with the nodal scheme, updated to
the clockwise numbering (the value handed in for `sqrt(3)` is not used by a scheme that
is given explicitly), and the off-axis unit square of the axisymmetric class updated to
the unit square at the axis. -/
theorem Element.Quad4.update_x_eq_fresh_witness :
    Examples.squareCW.shape = Examples.squareCCW.shape ∧
    Element.Quad4.Quadrature.new 2 Examples.squareCCW Element.Quad4.Nodal.xi
      Element.Quad4.Nodal.w = .ok Examples.quadCCW ∧
    Element.Quad4.Quadrature.new 2 Examples.squareCW Element.Quad4.Nodal.xi
      Element.Quad4.Nodal.w = .ok (Examples.quadCCW.update_x Examples.squareCW) ∧
    Examples.axiCCW.update_x (22 / 7) Examples.squareCCW =
      Element.Quad4.QuadratureAxisymmetric.new (22 / 7) Examples.squareCCW
        Element.Quad4.Nodal.xi Element.Quad4.Nodal.w :=
  ⟨rfl, rfl,
    (@Element.Quad4.update_x_eq_fresh ℚ _).1 2 Examples.squareCCW Element.Quad4.Nodal.xi
      Element.Quad4.Nodal.w Examples.squareCW Examples.quadCCW rfl rfl,
    (@Element.Quad4.update_x_eq_fresh ℚ _).2 (22 / 7) Examples.squareOffAxis
      Element.Quad4.Nodal.xi Element.Quad4.Nodal.w Examples.squareCCW rfl⟩

/-- Witness for `gradN_vector_T_transpose`: the unit square with the nodal scheme and
the off-axis unit square of the axisymmetric class, each with one element and four
integration points. -/
theorem Element.Quad4.gradN_vector_T_transpose_witness :
    0 < Examples.quadCCW.m_nelem ∧ 0 < Examples.quadCCW.m_nip ∧
    0 < Examples.axiCCW.m_nelem ∧ 0 < Examples.axiCCW.m_nip ∧
    (∀ e k i j, e < Examples.quadCCW.m_nelem → k < Examples.quadCCW.m_nip → i < 2 → j < 2 →
      (Examples.quadCCW.gradN_vector_T TensorStorage.tensor2 Examples.uField).get3 e k
          (2 * i + j) =
        (Examples.quadCCW.gradN_vector TensorStorage.tensor2 Examples.uField).get3 e k
          (2 * j + i)) ∧
    (∀ e k i j, e < Examples.axiCCW.m_nelem → k < Examples.axiCCW.m_nip → i < 3 → j < 3 →
      (Examples.axiCCW.gradN_vector_T Examples.uField).get4 e k i j =
        (Examples.axiCCW.gradN_vector Examples.uField).get4 e k j i) :=
  ⟨by decide, by decide, by decide, by decide,
    (@Element.Quad4.gradN_vector_T_transpose ℚ _).1 Examples.quadCCW Examples.uField,
    (@Element.Quad4.gradN_vector_T_transpose ℚ _).2 Examples.axiCCW Examples.uField⟩

/-- Witness for `symGradN_vector_spec`: the unit square with the nodal scheme and the
off-axis unit square of the axisymmetric class. -/
theorem Element.Quad4.symGradN_vector_spec_witness :
    0 < Examples.quadCCW.m_nelem ∧ 0 < Examples.quadCCW.m_nip ∧
    0 < Examples.axiCCW.m_nelem ∧ 0 < Examples.axiCCW.m_nip ∧
    (Examples.quadCCW.symGradN_vector TensorStorage.tensor2s Examples.uField).hasShape
      [Examples.quadCCW.m_nelem, Examples.quadCCW.m_nip, 3] ∧
    (∀ e k i j, e < Examples.axiCCW.m_nelem → k < Examples.axiCCW.m_nip → i < 3 → j < 3 →
      (Examples.axiCCW.symGradN_vector Examples.uField).get4 e k i j =
          ((Examples.axiCCW.gradN_vector Examples.uField).get4 e k i j +
            (Examples.axiCCW.gradN_vector Examples.uField).get4 e k j i) / 2 ∧
        (Examples.axiCCW.symGradN_vector Examples.uField).get4 e k i j =
          (Examples.axiCCW.symGradN_vector Examples.uField).get4 e k j i) :=
  ⟨by decide, by decide, by decide, by decide,
    ((@Element.Quad4.symGradN_vector_spec ℚ _).1 Examples.quadCCW Examples.uField).1,
    (@Element.Quad4.symGradN_vector_spec ℚ _).2 Examples.axiCCW Examples.uField⟩

/-! ## Inverted elements -/

namespace Element.Quad4

variable {α : Type} [LinearOrderedField α]

/-- C21 (amended): an element with a negative Jacobian determinant is not rejected.
`compute_dN` has no test on the determinant: the planar constructor returns a state
whenever the scheme is not half-given, the axisymmetric constructor and both `update_x`
always return a state, and at every point with `det J(e,k) < 0` and a positive weight
the stored volume of the planar class is negative; so is the one of the axisymmetric
class where, in addition, the radius and the value of `M_PI` are positive. -/
theorem negative_jacobian_no_error :
    (∀ (sqrt3 : α) (x xi w : ArrD α),
      ¬ ((xi.size = 0 ∧ w.size ≠ 0) ∨ (xi.size ≠ 0 ∧ w.size = 0)) →
      ∃ q, Quadrature.new sqrt3 x xi w = .ok q ∧
        ∀ e k, e < q.m_nelem → k < q.m_nip → 0 < q.m_w.get1 k →
          (q.jacobian e k).det < 0 → q.m_vol.get2 e k < 0) ∧
    (∀ (q : Quadrature α) (x : ArrD α), q.WF →
      ∀ e k, e < q.m_nelem → k < q.m_nip → 0 < q.m_w.get1 k →
        ((q.update_x x).jacobian e k).det < 0 → (q.update_x x).m_vol.get2 e k < 0) ∧
    (∀ (pi : α) (x xi w : ArrD α) (e k : Nat),
      e < (QuadratureAxisymmetric.new pi x xi w).m_nelem →
      k < (QuadratureAxisymmetric.new pi x xi w).m_nip →
      0 < pi → 0 < w.get1 k → 0 < (QuadratureAxisymmetric.new pi x xi w).radius e k →
      ((QuadratureAxisymmetric.new pi x xi w).jacobian e k).det < 0 →
        (QuadratureAxisymmetric.new pi x xi w).m_vol.get2 e k < 0) ∧
    (∀ (pi : α) (q : QuadratureAxisymmetric α) (x : ArrD α), q.WF →
      ∀ e k, e < q.m_nelem → k < q.m_nip →
        0 < pi → 0 < q.m_w.get1 k → 0 < (q.update_x pi x).radius e k →
        ((q.update_x pi x).jacobian e k).det < 0 → (q.update_x pi x).m_vol.get2 e k < 0) := by
  have hinit : ∀ (x xi w : ArrD α) (nip e k : Nat),
      e < (Quadrature.init x xi w nip).m_nelem → k < (Quadrature.init x xi w nip).m_nip →
      0 < (Quadrature.init x xi w nip).m_w.get1 k →
      ((Quadrature.init x xi w nip).jacobian e k).det < 0 →
        (Quadrature.init x xi w nip).m_vol.get2 e k < 0 := by
    intro x xi w nip e k he hk hw hdet
    have h := Quadrature.compute_dN_vol_get2 (Quadrature.allocate x xi w nip) rfl e k he hk
    have hj2 : (Quadrature.init x xi w nip).jacobian e k =
        (Quadrature.allocate x xi w nip).jacobian e k := rfl
    have hw2 : (Quadrature.init x xi w nip).m_w = (Quadrature.allocate x xi w nip).m_w := rfl
    rw [hj2] at hdet
    rw [hw2] at hw
    have hv : (Quadrature.init x xi w nip).m_vol.get2 e k =
        (Quadrature.allocate x xi w nip).m_w.get1 k *
          ((Quadrature.allocate x xi w nip).jacobian e k).det := h
    rw [hv]
    exact mul_neg_of_pos_of_neg hw hdet
  have haxi : ∀ (pi wk d r : α), 0 < pi → 0 < wk → 0 < r → d < 0 →
      wk * d * 2 * pi * r < 0 := by
    intro pi wk d r hpi hwk hr hd
    have h1 : wk * d < 0 := mul_neg_of_pos_of_neg hwk hd
    have h2 : wk * d * 2 < 0 := mul_neg_of_neg_of_pos h1 two_pos
    exact mul_neg_of_neg_of_pos (mul_neg_of_neg_of_pos h2 hpi) hr
  refine ⟨?_, ?_, ?_, ?_⟩
  · intro sqrt3 x xi w hne
    unfold Quadrature.new
    split_ifs with h1 h2
    · exact ⟨_, rfl, fun e k he hk hw hdet => hinit _ _ _ _ e k he hk hw hdet⟩
    · exact ⟨_, rfl, fun e k he hk hw hdet => hinit _ _ _ _ e k he hk hw hdet⟩
    · exfalso
      apply hne
      simp only [not_and_or, not_lt, Nat.le_zero] at h1 h2
      omega
  · intro q x hq e k he hk hw hdet
    have h := Quadrature.compute_dN_vol_get2
      { q with m_x := { shape := q.m_x.shape, data := x.data } } hq.2.2.2.2.2.2.1 e k he hk
    have hj : (({ q with m_x := { shape := q.m_x.shape, data := x.data } } :
        Quadrature α).jacobian e k).det < 0 := hdet
    have hv : (q.update_x x).m_vol.get2 e k =
        q.m_w.get1 k * (({ q with m_x := { shape := q.m_x.shape, data := x.data } } :
          Quadrature α).jacobian e k).det := h
    rw [hv]
    exact mul_neg_of_pos_of_neg hw hj
  · intro pi x xi w e k he hk hpi hw hr hdet
    have h := QuadratureAxisymmetric.compute_dN_vol_axi pi
      (QuadratureAxisymmetric.allocate x xi w) rfl e k he hk
    have hv : (QuadratureAxisymmetric.new pi x xi w).m_vol.get2 e k =
        w.get1 k * ((QuadratureAxisymmetric.allocate x xi w).jacobian e k).det * 2 * pi *
          (QuadratureAxisymmetric.allocate x xi w).radius e k := h
    rw [hv]
    exact haxi _ _ _ _ hpi hw hr hdet
  · intro pi q x hq e k he hk hpi hw hr hdet
    have h := QuadratureAxisymmetric.compute_dN_vol_axi pi
      { q with m_x := { shape := q.m_x.shape, data := x.data } } hq.2.2.2.2.2.2.1 e k he hk
    have hv : (q.update_x pi x).m_vol.get2 e k =
        q.m_w.get1 k * (({ q with m_x := { shape := q.m_x.shape, data := x.data } } :
          QuadratureAxisymmetric α).jacobian e k).det * 2 * pi *
          ({ q with m_x := { shape := q.m_x.shape, data := x.data } } :
            QuadratureAxisymmetric α).radius e k := h
    rw [hv]
    exact haxi _ _ _ _ hpi hw hr hdet

/-- C21, the claim as stated fails: the unit square with its nodes listed clockwise has
`det J(0,0) = -1/4` at the first point of the nodal scheme; the constructor returns a
state whose volume there is `-1/4`, and so does `update_x` of the counter-clockwise
state to the clockwise coordinates. -/
theorem negative_jacobian_counterexample :
    Quadrature.newContract Examples.squareCW (Nodal.xi : ArrD ℚ) Nodal.w ∧
    Quadrature.new 2 Examples.squareCW Nodal.xi Nodal.w = .ok Examples.quadCW ∧
    (Examples.quadCW.jacobian 0 0).det = -1 / 4 ∧
    Examples.quadCW.m_vol.get2 0 0 = -1 / 4 ∧
    ((Examples.quadCCW.update_x Examples.squareCW).jacobian 0 0).det = -1 / 4 ∧
    (Examples.quadCCW.update_x Examples.squareCW).m_vol.get2 0 0 = -1 / 4 := by
  refine ⟨by decide, rfl, by decide!, by decide!, by decide!, by decide!⟩

/-- Witness for `negative_jacobian_no_error`: the clockwise unit square. -/
theorem negative_jacobian_no_error_witness :
    ∃ q, Quadrature.new (2 : ℚ) Examples.squareCW Nodal.xi Nodal.w = .ok q ∧
      ∀ e k, e < q.m_nelem → k < q.m_nip → 0 < q.m_w.get1 k →
        (q.jacobian e k).det < 0 → q.m_vol.get2 e k < 0 :=
  (@negative_jacobian_no_error ℚ _).1 2 Examples.squareCW Nodal.xi Nodal.w (by decide)

end Element.Quad4

/-! ## Broadcast of the integration volume -/

namespace Element.Quad4

variable {α : Type} [LinearOrderedField α]

/-- C22: for a planar state with the allocated shapes, `dV(0)` is the stored volume
array of shape `(nelem, nip)`, and for `ncomp >= 1` the result of `dV(ncomp)` has shape
`(nelem, nip, ncomp)` with `out(e,k,i) = vol(e,k)` for every `i < ncomp`.  (`dV` is a
`const` member: it returns an array and leaves the state as it is.) -/
theorem Quadrature.dV_spec (q : Quadrature α) (hq : q.WF) :
    (q.dV 0 = q.m_vol ∧ (q.dV 0).hasShape [q.m_nelem, q.m_nip]) ∧
    ∀ ncomp, 1 ≤ ncomp →
      (q.dV ncomp).hasShape [q.m_nelem, q.m_nip, ncomp] ∧
      ∀ e k i, e < q.m_nelem → k < q.m_nip → i < ncomp →
        (q.dV ncomp).get3 e k i = q.m_vol.get2 e k := by
  refine ⟨⟨rfl, hq.2.2.2.2.2.2⟩, ?_⟩
  intro ncomp hn
  have hne : ncomp ≠ 0 := by omega
  have hsh : (q.dV ncomp).shape = [q.m_nelem, q.m_nip, ncomp] := by
    simp [Quadrature.dV, hne]
  refine ⟨⟨hsh, ?_⟩, ?_⟩
  · simp only [Quadrature.dV, if_neg hne]
    exact (length_blocks2 q.m_nelem q.m_nip ncomp (fun e k _ => q.m_vol.get2 e k)).trans
      (by simp)
  · intro e k i he hk hi
    simp only [ArrD.get3, ArrD.read]
    rw [ArrD.offset3_of_shape hsh]
    simp only [Quadrature.dV, if_neg hne]
    exact getD_blocks2 0 q.m_nelem q.m_nip ncomp (fun e k _ => q.m_vol.get2 e k) e k i
      he hk hi

/-- Witness for `dV_spec`: the unit square with the nodal scheme. -/
theorem Quadrature.dV_spec_witness :
    Examples.quadCCW.WF ∧
    (Examples.quadCCW.dV 2).hasShape [1, 4, 2] ∧
    (Examples.quadCCW.dV 2).data = [1 / 4, 1 / 4, 1 / 4, 1 / 4, 1 / 4, 1 / 4, 1 / 4, 1 / 4] ∧
    ∀ ncomp, 1 ≤ ncomp →
      (Examples.quadCCW.dV ncomp).hasShape
        [Examples.quadCCW.m_nelem, Examples.quadCCW.m_nip, ncomp] ∧
      ∀ e k i, e < Examples.quadCCW.m_nelem → k < Examples.quadCCW.m_nip → i < ncomp →
        (Examples.quadCCW.dV ncomp).get3 e k i = Examples.quadCCW.m_vol.get2 e k :=
  ⟨Examples.quadCCW_WF, by decide, by decide!,
    (Quadrature.dV_spec Examples.quadCCW Examples.quadCCW_WF).2⟩

end Element.Quad4

/-! ## Independence of the elements -/

namespace Element.Quad4

variable {α : Type} [LinearOrderedField α]

theorem view_at2_eq_get3 (u : ArrD α) (n e m j : Nat) (h : u.shape = [n, 4, 2]) :
    (u.view (u.offset [e])).at2 2 m j = u.get3 e m j := by
  simp only [ArrD.view, Tiny.at2, ArrD.get3, ArrD.offset1_of_shape3 h,
    ArrD.offset3_of_shape h]
  congr 1
  ring

theorem view_congr (u1 u2 : ArrD α) (n1 n2 e : Nat) (h1 : u1.shape = [n1, 4, 2])
    (h2 : u2.shape = [n2, 4, 2]) (hag : agreeOn u1 u2 e) (m j : Nat) (hm : m < 4)
    (hj : j < 2) :
    (u1.view (u1.offset [e])).at2 2 m j = (u2.view (u2.offset [e])).at2 2 m j := by
  rw [view_at2_eq_get3 u1 n1 e m j h1, view_at2_eq_get3 u2 n2 e m j h2]
  exact hag m hm j hj

theorem Quadrature.jacobian_congr (q1 q2 : Quadrature α) (n1 n2 e k : Nat)
    (h1 : q1.m_x.shape = [n1, 4, 2]) (h2 : q2.m_x.shape = [n2, 4, 2])
    (hd : q1.m_dNxi = q2.m_dNxi) (hag : agreeOn q1.m_x q2.m_x e) :
    q1.jacobian e k = q2.jacobian e k := by
  have hv := view_congr q1.m_x q2.m_x n1 n2 e h1 h2 hag
  simp only [Quadrature.jacobian, hd, hv 0 0 (by decide) (by decide),
    hv 0 1 (by decide) (by decide), hv 1 0 (by decide) (by decide),
    hv 1 1 (by decide) (by decide), hv 2 0 (by decide) (by decide),
    hv 2 1 (by decide) (by decide), hv 3 0 (by decide) (by decide),
    hv 3 1 (by decide) (by decide)]

theorem Quadrature.graduLocal_congr (T : TensorStorage) (q : Quadrature α) (u1 u2 : ArrD α)
    (n1 n2 e k : Nat) (h1 : u1.shape = [n1, 4, 2]) (h2 : u2.shape = [n2, 4, 2])
    (hag : agreeOn u1 u2 e) :
    Quadrature.graduLocal T q u1 e k = Quadrature.graduLocal T q u2 e k ∧
    Quadrature.graduTLocal T q u1 e k = Quadrature.graduTLocal T q u2 e k ∧
    Quadrature.epsLocal T q u1 e k = Quadrature.epsLocal T q u2 e k := by
  have hv := view_congr u1 u2 n1 n2 e h1 h2 hag
  refine ⟨?_, ?_, ?_⟩ <;>
  simp only [Quadrature.graduLocal, Quadrature.graduTLocal, Quadrature.epsLocal,
    hv 0 0 (by decide) (by decide),
    hv 0 1 (by decide) (by decide), hv 1 0 (by decide) (by decide),
    hv 1 1 (by decide) (by decide), hv 2 0 (by decide) (by decide),
    hv 2 1 (by decide) (by decide), hv 3 0 (by decide) (by decide),
    hv 3 1 (by decide) (by decide)]

theorem Quadrature.dNxBlock_congr (q1 q2 : Quadrature α) (e k : Nat)
    (hJ : q1.jacobian e k = q2.jacobian e k) (hd : q1.m_dNxi = q2.m_dNxi) :
    q1.dNxBlock e k = q2.dNxBlock e k := by
  simp only [Quadrature.dNxBlock, hJ, hd]

theorem Quadrature.compute_dN_dNx_get4 (q : Quadrature α)
    (hsh : q.m_dNx.shape = [q.m_nelem, q.m_nip, 4, 2]) (e k m i : Nat)
    (he : e < q.m_nelem) (hk : k < q.m_nip) (hm : m < 4) (hi : i < 2) :
    q.compute_dN.m_dNx.get4 e k m i = q.dNxBlock e k (m * 2 + i) := by
  have hsh2 : q.compute_dN.m_dNx.shape = [q.m_nelem, q.m_nip, 4, 2] := hsh
  simp only [ArrD.get4, ArrD.read, ArrD.offset4_of_shape hsh2]
  exact getD_blocks2 0 q.m_nelem q.m_nip (4 * 2) _ e k _ he hk (by omega)

theorem Quadrature.massBlock_congr (q : Quadrature α) (rho1 rho2 : ArrD α) (e : Nat)
    (hag : ∀ k, k < q.m_nip → rho1.get2 e k = rho2.get2 e k) :
    q.massBlock rho1 e = q.massBlock rho2 e := by
  unfold Quadrature.massBlock
  refine List.foldl_ext _ _ _ (fun M k hk => ?_)
  simp only [hag k (List.mem_range.mp hk)]

theorem Quadrature.loadTensor_get3 (T : TensorStorage) (sigma : ArrD α)
    (n0 n1 n2 e k i j : Nat) (hs : sigma.shape = [n0, n1, n2]) :
    Quadrature.loadTensor T sigma e k i j = sigma.get3 e k (T.idx i j) := by
  simp only [Quadrature.loadTensor, ArrD.view, ArrD.get3,
    ArrD.offset2_of_shape3 hs, ArrD.offset3_of_shape hs]

theorem TensorStorage.idx_lt_Size (T : TensorStorage) (i j : Nat) (hi : i < 2) (hj : j < 2) :
    T.idx i j < T.Size := by
  cases T <;> interval_cases i <;> interval_cases j <;> decide

theorem Quadrature.forceBlock_congr (T : TensorStorage) (q : Quadrature α)
    (s1 s2 : ArrD α) (n1 n2 e : Nat) (h1 : s1.shape = [n1, q.m_nip, T.Size])
    (h2 : s2.shape = [n2, q.m_nip, T.Size])
    (hag : agreeOnPoints q.m_nip T.Size s1 s2 e) :
    q.forceBlock T s1 e = q.forceBlock T s2 e := by
  unfold Quadrature.forceBlock
  refine List.foldl_ext _ _ _ (fun f k hk => ?_)
  have hl : ∀ i j, i < 2 → j < 2 →
      Quadrature.loadTensor T s1 e k i j = Quadrature.loadTensor T s2 e k i j := by
    intro i j hi hj
    rw [Quadrature.loadTensor_get3 T s1 _ _ _ e k i j h1,
      Quadrature.loadTensor_get3 T s2 _ _ _ e k i j h2]
    exact hag k (List.mem_range.mp hk) _ (TensorStorage.idx_lt_Size T i j hi hj)
  simp only [hl 0 0 (by decide) (by decide), hl 0 1 (by decide) (by decide),
    hl 1 0 (by decide) (by decide), hl 1 1 (by decide) (by decide)]

end Element.Quad4

namespace Element.Quad4

variable {α : Type} [LinearOrderedField α]

/-- C24: every per-element operation of the planar class writes the output block of
element `e` from the inputs of element `e` only.  Two states with the same scheme whose
coordinates agree on element `e` get the same gradients and volumes on `e` from
`compute_dN`; two element vectors that agree on `e` give the same block of
`gradN_vector`, `gradN_vector_T` and `symGradN_vector` on `e`; two quadrature-point
fields that agree on `e` give the same block of `int_N_scalar_NT_dV` and of
`int_gradN_dot_tensor2_dV` on `e`.  The other elements of the two inputs, and their
number, are arbitrary. -/
theorem element_independence (e : Nat) :
    (∀ (q1 q2 : Quadrature α), q1.WF → q2.WF → q1.m_nip = q2.m_nip → q1.m_w = q2.m_w →
      q1.m_dNxi = q2.m_dNxi → e < q1.m_nelem → e < q2.m_nelem →
      agreeOn q1.m_x q2.m_x e →
      ∀ k, k < q1.m_nip →
        q1.compute_dN.m_vol.get2 e k = q2.compute_dN.m_vol.get2 e k ∧
        ∀ m i, m < 4 → i < 2 →
          q1.compute_dN.m_dNx.get4 e k m i = q2.compute_dN.m_dNx.get4 e k m i) ∧
    (∀ (T : TensorStorage) (q : Quadrature α) (u1 u2 : ArrD α) (n1 n2 : Nat),
      u1.shape = [n1, 4, 2] → u2.shape = [n2, 4, 2] → e < q.m_nelem → agreeOn u1 u2 e →
      ∀ k c, k < q.m_nip → c < T.Size →
        (q.gradN_vector T u1).get3 e k c = (q.gradN_vector T u2).get3 e k c ∧
        (q.gradN_vector_T T u1).get3 e k c = (q.gradN_vector_T T u2).get3 e k c ∧
        (q.symGradN_vector T u1).get3 e k c = (q.symGradN_vector T u2).get3 e k c) ∧
    (∀ (q : Quadrature α) (rho1 rho2 : ArrD α), e < q.m_nelem →
      (∀ k, k < q.m_nip → rho1.get2 e k = rho2.get2 e k) →
      ∀ a b, a < 8 → b < 8 →
        (q.int_N_scalar_NT_dV rho1).get3 e a b = (q.int_N_scalar_NT_dV rho2).get3 e a b) ∧
    (∀ (T : TensorStorage) (q : Quadrature α) (s1 s2 : ArrD α) (n1 n2 : Nat),
      s1.shape = [n1, q.m_nip, T.Size] → s2.shape = [n2, q.m_nip, T.Size] →
      e < q.m_nelem → agreeOnPoints q.m_nip T.Size s1 s2 e →
      ∀ m j, m < 4 → j < 2 →
        (q.int_gradN_dot_tensor2_dV T s1).get3 e m j =
          (q.int_gradN_dot_tensor2_dV T s2).get3 e m j) := by
  refine ⟨?_, ?_, ?_, ?_⟩
  · intro q1 q2 hq1 hq2 hnip hw hd he1 he2 hag k hk
    have hk2 : k < q2.m_nip := hnip ▸ hk
    have hJ := Quadrature.jacobian_congr q1 q2 _ _ e k hq1.1.1 hq2.1.1 hd hag
    refine ⟨?_, ?_⟩
    · rw [Quadrature.compute_dN_vol_get2 q1 hq1.2.2.2.2.2.2.1 e k he1 hk,
        Quadrature.compute_dN_vol_get2 q2 hq2.2.2.2.2.2.2.1 e k he2 hk2, hJ, hw]
    · intro m i hm hi
      rw [Quadrature.compute_dN_dNx_get4 q1 hq1.2.2.2.2.2.1.1 e k m i he1 hk hm hi,
        Quadrature.compute_dN_dNx_get4 q2 hq2.2.2.2.2.2.1.1 e k m i he2 hk2 hm hi,
        Quadrature.dNxBlock_congr q1 q2 e k hJ hd]
  · intro T q u1 u2 n1 n2 h1 h2 he hag k c hk hc
    obtain ⟨hg, hgT, heps⟩ := Quadrature.graduLocal_congr T q u1 u2 n1 n2 e k h1 h2 hag
    refine ⟨?_, ?_, ?_⟩
    · rw [Quadrature.gradN_vector_read T q u1 e k c he hk hc,
        Quadrature.gradN_vector_read T q u2 e k c he hk hc, hg]
    · rw [Quadrature.gradN_vector_T_read T q u1 e k c he hk hc,
        Quadrature.gradN_vector_T_read T q u2 e k c he hk hc, hgT]
    · rw [Quadrature.symGradN_vector_read T q u1 e k c he hk hc,
        Quadrature.symGradN_vector_read T q u2 e k c he hk hc, heps]
  · intro q rho1 rho2 he hag a b ha hb
    rw [Quadrature.int_N_scalar_NT_dV_get3 q rho1 e a b he ha hb,
      Quadrature.int_N_scalar_NT_dV_get3 q rho2 e a b he ha hb,
      Quadrature.massBlock_congr q rho1 rho2 e hag]
  · intro T q s1 s2 n1 n2 h1 h2 he hag m j hm hj
    rw [Quadrature.int_gradN_dot_tensor2_dV_get3 T q s1 e m j he hm hj,
      Quadrature.int_gradN_dot_tensor2_dV_get3 T q s2 e m j he hm hj,
      Quadrature.forceBlock_congr T q s1 s2 n1 n2 e h1 h2 hag]

/-- Witness for `element_independence`: two meshes of two elements that agree on the
first element and differ on the second, as coordinates of the nodal scheme and as
element vectors. -/
theorem element_independence_witness :
    agreeOn Examples.twoSquares Examples.twoSquaresB 0 ∧
    ¬ agreeOn Examples.twoSquares Examples.twoSquaresB 1 ∧
    (∀ k, k < 4 →
      (Quadrature.init Examples.twoSquares Nodal.xi Nodal.w Nodal.nip).m_vol.get2 0 k =
        (Quadrature.init Examples.twoSquaresB Nodal.xi Nodal.w Nodal.nip).m_vol.get2 0 k ∧
      ∀ m i, m < 4 → i < 2 →
        (Quadrature.init Examples.twoSquares Nodal.xi Nodal.w Nodal.nip).m_dNx.get4 0 k m i =
          (Quadrature.init Examples.twoSquaresB Nodal.xi Nodal.w Nodal.nip).m_dNx.get4
            0 k m i) ∧
    (∀ k c, k < 4 → c < 4 →
      ((Quadrature.init Examples.twoSquares Nodal.xi Nodal.w Nodal.nip).gradN_vector
          TensorStorage.tensor2 Examples.twoSquares).get3 0 k c =
        ((Quadrature.init Examples.twoSquares Nodal.xi Nodal.w Nodal.nip).gradN_vector
          TensorStorage.tensor2 Examples.twoSquaresB).get3 0 k c) :=
  ⟨by decide, by decide!,
    ((@element_independence ℚ _ 0).1
      (Quadrature.allocate Examples.twoSquares Nodal.xi Nodal.w Nodal.nip)
      (Quadrature.allocate Examples.twoSquaresB Nodal.xi Nodal.w Nodal.nip)
      (by decide) (by decide) rfl rfl rfl (by decide) (by decide) (by decide)),
    fun k c hk hc =>
      (((@element_independence ℚ _ 0).2.1 TensorStorage.tensor2
        (Quadrature.init Examples.twoSquares Nodal.xi Nodal.w Nodal.nip)
        Examples.twoSquares Examples.twoSquaresB 2 2 rfl rfl (by decide) (by decide)
        k c hk hc).1)⟩

end Element.Quad4

/-! ## Virtual work: the force operator is the adjoint of the gradient -/

namespace Element.Quad4

variable {α : Type} [LinearOrderedField α]

theorem Quadrature.graduLocal_tensor2 (q : Quadrature α) (u : ArrD α) (e k i j : Nat)
    (hi : i < 2) (hj : j < 2) :
    Quadrature.graduLocal TensorStorage.tensor2 q u e k (2 * i + j) =
      (q.m_dNx.view (q.m_dNx.offset [e, k])).at2 2 0 i * (u.view (u.offset [e])).at2 2 0 j +
      (q.m_dNx.view (q.m_dNx.offset [e, k])).at2 2 1 i * (u.view (u.offset [e])).at2 2 1 j +
      (q.m_dNx.view (q.m_dNx.offset [e, k])).at2 2 2 i * (u.view (u.offset [e])).at2 2 2 j +
      (q.m_dNx.view (q.m_dNx.offset [e, k])).at2 2 3 i * (u.view (u.offset [e])).at2 2 3 j := by
  interval_cases i <;> interval_cases j <;>
    simp [Quadrature.graduLocal, Tiny.set, TensorStorage.idx]

/-- C29: virtual-work duality of the planar element.  For every state, every full
tensor field `sigma` of shape `(n, nip, 4)` and every element vector `u` of shape
`(n, 4, 2)`, on every element `e`:
`sum over m, j of int_gradN_dot_tensor2_dV(sigma)(e,m,j) * u(e,m,j)` equals
`sum over k of vol(e,k) * sum over i, j of sigma(e,k,i,j) * gradN_vector(u)(e,k,i,j)`,
component `(i,j)` of a full tensor being stored at position `2*i+j`. -/
theorem Quadrature.virtual_work (q : Quadrature α) (sigma u : ArrD α) (n1 n2 e : Nat)
    (hs : sigma.shape = [n1, q.m_nip, 4]) (hu : u.shape = [n2, 4, 2]) (he : e < q.m_nelem) :
    ∑ m ∈ Finset.range 4, ∑ j ∈ Finset.range 2,
      (q.int_gradN_dot_tensor2_dV TensorStorage.tensor2 sigma).get3 e m j * u.get3 e m j =
    ∑ k ∈ Finset.range q.m_nip, q.m_vol.get2 e k *
      ∑ i ∈ Finset.range 2, ∑ j ∈ Finset.range 2,
        sigma.get3 e k (2 * i + j) *
          (q.gradN_vector TensorStorage.tensor2 u).get3 e k (2 * i + j) := by
  have hf : ∀ m j, m < 4 → j < 2 →
      (q.int_gradN_dot_tensor2_dV TensorStorage.tensor2 sigma).get3 e m j =
        ∑ k ∈ Finset.range q.m_nip,
          ((q.m_dNx.view (q.m_dNx.offset [e, k])).at2 2 m 0 * sigma.get3 e k (0 * 2 + j) +
            (q.m_dNx.view (q.m_dNx.offset [e, k])).at2 2 m 1 * sigma.get3 e k (1 * 2 + j)) *
            q.m_vol.get2 e k := by
    intro m j hm hj
    rw [Quadrature.int_gradN_dot_tensor2_dV_get3 _ q sigma e m j he hm hj,
      Quadrature.forceBlock_apply _ q sigma e m j hm hj]
    refine Finset.sum_congr rfl (fun k _ => ?_)
    rw [Quadrature.loadTensor_tensor2 sigma _ _ e k 0 j hs,
      Quadrature.loadTensor_tensor2 sigma _ _ e k 1 j hs]
  have hg : ∀ k i j, k < q.m_nip → i < 2 → j < 2 →
      (q.gradN_vector TensorStorage.tensor2 u).get3 e k (2 * i + j) =
        (q.m_dNx.view (q.m_dNx.offset [e, k])).at2 2 0 i * u.get3 e 0 j +
        (q.m_dNx.view (q.m_dNx.offset [e, k])).at2 2 1 i * u.get3 e 1 j +
        (q.m_dNx.view (q.m_dNx.offset [e, k])).at2 2 2 i * u.get3 e 2 j +
        (q.m_dNx.view (q.m_dNx.offset [e, k])).at2 2 3 i * u.get3 e 3 j := by
    intro k i j hk hi hj
    rw [Quadrature.gradN_vector_read _ q u e k _ he hk
        (by simp only [TensorStorage.Size]; omega),
      Quadrature.graduLocal_tensor2 q u e k i j hi hj,
      view_at2_eq_get3 u n2 e 0 j hu, view_at2_eq_get3 u n2 e 1 j hu,
      view_at2_eq_get3 u n2 e 2 j hu, view_at2_eq_get3 u n2 e 3 j hu]
  simp only [Finset.sum_range_succ, Finset.sum_range_zero, zero_add]
  rw [hf 0 0 (by decide) (by decide), hf 0 1 (by decide) (by decide),
    hf 1 0 (by decide) (by decide), hf 1 1 (by decide) (by decide),
    hf 2 0 (by decide) (by decide), hf 2 1 (by decide) (by decide),
    hf 3 0 (by decide) (by decide), hf 3 1 (by decide) (by decide)]
  simp only [Finset.sum_mul, ← Finset.sum_add_distrib]
  refine Finset.sum_congr rfl (fun k hk => ?_)
  have hk2 : k < q.m_nip := Finset.mem_range.mp hk
  rw [hg k 0 0 hk2 (by decide) (by decide), hg k 0 1 hk2 (by decide) (by decide),
    hg k 1 0 hk2 (by decide) (by decide), hg k 1 1 hk2 (by decide) (by decide)]
  ring

/-- Witness for `virtual_work`: the unit square with the nodal scheme, the stress
`[[1, 2], [3, 4]]` and the element vector `u = (x, 2 y)`; both sides are 9. -/
theorem Quadrature.virtual_work_witness :
    (∑ m ∈ Finset.range 4, ∑ j ∈ Finset.range 2,
      (Examples.quadCCW.int_gradN_dot_tensor2_dV TensorStorage.tensor2
        Examples.sigmaField).get3 0 m j * Examples.uField.get3 0 m j = 9) ∧
    ∑ m ∈ Finset.range 4, ∑ j ∈ Finset.range 2,
      (Examples.quadCCW.int_gradN_dot_tensor2_dV TensorStorage.tensor2
        Examples.sigmaField).get3 0 m j * Examples.uField.get3 0 m j =
    ∑ k ∈ Finset.range Examples.quadCCW.m_nip, Examples.quadCCW.m_vol.get2 0 k *
      ∑ i ∈ Finset.range 2, ∑ j ∈ Finset.range 2,
        Examples.sigmaField.get3 0 k (2 * i + j) *
          (Examples.quadCCW.gradN_vector TensorStorage.tensor2 Examples.uField).get3 0 k
            (2 * i + j) :=
  ⟨by decide!,
    Quadrature.virtual_work Examples.quadCCW Examples.sigmaField Examples.uField 1 1 0
      rfl rfl (by decide)⟩

end Element.Quad4

/-! ## Axisymmetric class: allocated buffers and the B-matrix -/

section AuxRank6

variable {β : Type}

theorem ArrD.offset6_of_shape {a : ArrD β} {n0 n1 n2 n3 n4 n5 : Nat}
    (h : a.shape = [n0, n1, n2, n3, n4, n5]) (i j k l m n : Nat) :
    a.offset [i, j, k, l, m, n] =
      (i * n1 + j) * (n2 * n3 * n4 * n5) + (((k * n3 + l) * n4 + m) * n5 + n) := by
  simp [ArrD.offset, ArrD.strides, h]; ring

end AuxRank6

namespace Element.Quad4

variable {α : Type} [LinearOrderedField α]

/-- C25, what the code does: the buffer of shape `(nelem, nip, 3, 3)` that `dVtensor`,
`gradN_vector`, `gradN_vector_T` and `symGradN_vector` allocate satisfies the `assert`
lines of the in-place overload exactly when `nip = 4`, because the second extent is
compared with `m_nne`; with the assertions compiled out the results have shape
`(nelem, nip, 3, 3)` and `dVtensor()(e,q,i,j) = dV()(e,q)`. -/
theorem QuadratureAxisymmetric.allocated_buffer_asserts (q : QuadratureAxisymmetric α) :
    (q.qtensorAsserts q.allocTensor ↔ q.m_nip = 4) ∧
    q.dVtensor.hasShape [q.m_nelem, q.m_nip, 3, 3] ∧
    (q.gradN_vector (ArrD.zero [q.m_nelem, 4, 2])).shape = [q.m_nelem, q.m_nip, 3, 3] ∧
    (q.gradN_vector_T (ArrD.zero [q.m_nelem, 4, 2])).shape = [q.m_nelem, q.m_nip, 3, 3] ∧
    (q.symGradN_vector (ArrD.zero [q.m_nelem, 4, 2])).shape = [q.m_nelem, q.m_nip, 3, 3] ∧
    ∀ e k i j, e < q.m_nelem → k < q.m_nip → i < 3 → j < 3 →
      q.dVtensor.get4 e k i j = q.dV.get2 e k := by
  refine ⟨?_, ⟨rfl, ?_⟩, rfl, rfl, rfl, ?_⟩
  · simp [QuadratureAxisymmetric.qtensorAsserts, QuadratureAxisymmetric.allocTensor,
      ArrD.zero]
  · simp only [QuadratureAxisymmetric.dVtensor]
    exact (length_blocks2 q.m_nelem q.m_nip (3 * 3) (fun e k _ => q.m_vol.get2 e k)).trans
      (by simp)
  · intro e k i j he hk hi hj
    have hsh : q.dVtensor.shape = [q.m_nelem, q.m_nip, 3, 3] := rfl
    have hsh2 : q.dV.shape = [q.m_nelem, q.m_nip] := rfl
    simp only [ArrD.get4, ArrD.get2, ArrD.read, ArrD.offset4_of_shape hsh,
      ArrD.offset2_of_shape hsh2]
    simp only [QuadratureAxisymmetric.dVtensor, QuadratureAxisymmetric.dV]
    rw [getD_blocks2 0 q.m_nelem q.m_nip (3 * 3) (fun e k _ => q.m_vol.get2 e k) e k
      (i * 3 + j) he hk (by omega),
      getD_flatMap_range 0 _ q.m_nip _ (fun e => by simp) e _ he hk,
      getD_map_range 0 _ _ _ hk]

/-- Evaluation of `allocated_buffer_asserts` at the one-point scheme on the off-axis
unit square (`nip = 1`): the allocated buffer has shape `(1, 1, 3, 3)`, its second
extent is not `m_nne = 4`, and the assertion of the in-place overload fails. -/
theorem QuadratureAxisymmetric.allocated_buffer_asserts_witness :
    Examples.axiOnePoint.WF ∧ Examples.axiOnePoint.m_nip = 1 ∧
    Examples.axiOnePoint.allocTensor.shape = [1, 1, 3, 3] ∧
    ¬ Examples.axiOnePoint.qtensorAsserts Examples.axiOnePoint.allocTensor ∧
    Examples.axiOnePoint.dVtensor.data = List.replicate 9 (66 / 7) :=
  ⟨by decide, rfl, rfl,
    fun h => absurd ((QuadratureAxisymmetric.allocated_buffer_asserts
      Examples.axiOnePoint).1.mp h) (by decide),
    by decide!⟩

end Element.Quad4

namespace Element.Quad4

variable {α : Type} [LinearOrderedField α]

/-- The view `B` after the node loop of `compute_dN`, component by component. -/
theorem QuadratureAxisymmetric.BBlock_apply (q : QuadratureAxisymmetric α)
    (e k m i j l : Nat) (hm : m < 4) (hi : i < 3) (hj : j < 3) (hl : l < 3) :
    q.BBlock e k (QuadratureAxisymmetric.Bpos m i j l) =
      if i = 0 ∧ j = 0 ∧ l = 0 then
        (q.jacobian e k).inv.c00 * (q.m_dNxi.view (q.m_dNxi.offset [k, 0, 0])).at2 2 m 0 +
          (q.jacobian e k).inv.c01 * (q.m_dNxi.view (q.m_dNxi.offset [k, 0, 0])).at2 2 m 1
      else if i = 0 ∧ j = 2 ∧ l = 2 then
        (q.jacobian e k).inv.c10 * (q.m_dNxi.view (q.m_dNxi.offset [k, 0, 0])).at2 2 m 0 +
          (q.jacobian e k).inv.c11 * (q.m_dNxi.view (q.m_dNxi.offset [k, 0, 0])).at2 2 m 1
      else if i = 1 ∧ j = 1 ∧ l = 0 then
        1 / q.radius e k * q.m_N.view (q.m_N.offset [k, 0]) m
      else if i = 2 ∧ j = 0 ∧ l = 0 then
        (q.jacobian e k).inv.c00 * (q.m_dNxi.view (q.m_dNxi.offset [k, 0, 0])).at2 2 m 0 +
          (q.jacobian e k).inv.c01 * (q.m_dNxi.view (q.m_dNxi.offset [k, 0, 0])).at2 2 m 1
      else if i = 2 ∧ j = 2 ∧ l = 2 then
        (q.jacobian e k).inv.c10 * (q.m_dNxi.view (q.m_dNxi.offset [k, 0, 0])).at2 2 m 0 +
          (q.jacobian e k).inv.c11 * (q.m_dNxi.view (q.m_dNxi.offset [k, 0, 0])).at2 2 m 1
      else 0 := by
  have h4 : List.range 4 = [0, 1, 2, 3] := rfl
  unfold QuadratureAxisymmetric.BBlock
  rw [h4]
  simp only [List.foldl_cons, List.foldl_nil]
  interval_cases m <;> interval_cases i <;> interval_cases j <;> interval_cases l <;>
    simp [Tiny.set, Tiny.zero, QuadratureAxisymmetric.Bpos]

end Element.Quad4

namespace Element.Quad4

variable {α : Type} [LinearOrderedField α]

theorem QuadratureAxisymmetric.B_view_eq_get6 (q : QuadratureAxisymmetric α) (n0 n1 : Nat)
    (hB : q.m_B.shape = [n0, n1, 4, 3, 3, 3]) (e k m i j l : Nat) :
    (q.m_B.view (q.m_B.offset [e, k, 0, 0, 0, 0])) (QuadratureAxisymmetric.Bpos m i j l) =
      q.m_B.get6 e k m i j l := by
  simp only [ArrD.view, ArrD.get6, QuadratureAxisymmetric.Bpos, ArrD.offset6_of_shape hB]
  congr 1

theorem QuadratureAxisymmetric.compute_dN_B_get6 (pi : α) (q : QuadratureAxisymmetric α)
    (hB : q.m_B.shape = [q.m_nelem, q.m_nip, 4, 3, 3, 3]) (e k m i j l : Nat)
    (he : e < q.m_nelem) (hk : k < q.m_nip) (hm : m < 4) (hi : i < 3) (hj : j < 3)
    (hl : l < 3) :
    (q.compute_dN pi).m_B.get6 e k m i j l =
      q.BBlock e k (QuadratureAxisymmetric.Bpos m i j l) := by
  have hsh : (q.compute_dN pi).m_B.shape = [q.m_nelem, q.m_nip, 4, 3, 3, 3] := hB
  have hlt : QuadratureAxisymmetric.Bpos m i j l < 4 * 3 * 3 * 3 := by
    simp only [QuadratureAxisymmetric.Bpos]
    omega
  simp only [ArrD.get6, ArrD.read, ArrD.offset6_of_shape hsh]
  exact getD_blocks2 0 q.m_nelem q.m_nip (4 * 3 * 3 * 3) _ e k _ he hk hlt

/-- C26, what the code does: after `compute_dN` the stored operator is, for every
element, integration point and node `m`, with
`dNdx(m,i) = Jinv(i,0)*dNxi(m,0) + Jinv(i,1)*dNxi(m,1)`:
`B(m,0,0,0) = dNdx(m,0)`, `B(m,0,2,2) = dNdx(m,1)`, `B(m,1,1,0) = N(m)/r`,
`B(m,2,0,0) = dNdx(m,0)`, `B(m,2,2,2) = dNdx(m,1)`, and every other component is 0.
The comments of the source name `dNdx(m,1)` for `B(m,0,0,0)` and `dNdx(m,0)` for
`B(m,2,2,2)`; the statements assign the other gradient component to these two. -/
theorem QuadratureAxisymmetric.compute_dN_B_components (pi : α)
    (q : QuadratureAxisymmetric α) (hq : q.WF) (e k m : Nat) (he : e < q.m_nelem)
    (hk : k < q.m_nip) (hm : m < 4) :
    (q.compute_dN pi).m_B.get6 e k m 0 0 0 = q.dNdx e k m 0 ∧
    (q.compute_dN pi).m_B.get6 e k m 0 2 2 = q.dNdx e k m 1 ∧
    (q.compute_dN pi).m_B.get6 e k m 1 1 0 = q.m_N.get2 k m / q.radius e k ∧
    (q.compute_dN pi).m_B.get6 e k m 2 0 0 = q.dNdx e k m 0 ∧
    (q.compute_dN pi).m_B.get6 e k m 2 2 2 = q.dNdx e k m 1 ∧
    ∀ i j l, i < 3 → j < 3 → l < 3 → ¬ QuadratureAxisymmetric.written i j l →
      (q.compute_dN pi).m_B.get6 e k m i j l = 0 := by
  have hB := hq.2.2.2.2.2.1.1
  have hN : q.m_N.view (q.m_N.offset [k, 0]) m = q.m_N.get2 k m := by
    simp only [ArrD.view, ArrD.get2, ArrD.offset2_of_shape hq.2.2.2.1.1]
    congr 1
  have hb : ∀ i j l, i < 3 → j < 3 → l < 3 → (q.compute_dN pi).m_B.get6 e k m i j l = _ :=
    fun i j l hi hj hl =>
      (QuadratureAxisymmetric.compute_dN_B_get6 pi q hB e k m i j l he hk hm hi hj hl).trans
        (QuadratureAxisymmetric.BBlock_apply q e k m i j l hm hi hj hl)
  refine ⟨?_, ?_, ?_, ?_, ?_, ?_⟩
  · rw [hb 0 0 0 (by decide) (by decide) (by decide)]
    simp [QuadratureAxisymmetric.dNdx, Tensor2.entry]
  · rw [hb 0 2 2 (by decide) (by decide) (by decide)]
    simp [QuadratureAxisymmetric.dNdx, Tensor2.entry]
  · rw [hb 1 1 0 (by decide) (by decide) (by decide), ← hN]
    simp [div_eq_inv_mul]
  · rw [hb 2 0 0 (by decide) (by decide) (by decide)]
    simp [QuadratureAxisymmetric.dNdx, Tensor2.entry]
  · rw [hb 2 2 2 (by decide) (by decide) (by decide)]
    simp [QuadratureAxisymmetric.dNdx, Tensor2.entry]
  · intro i j l hi hj hl hw
    rw [hb i j l hi hj hl]
    simp only [QuadratureAxisymmetric.written, not_or] at hw
    obtain ⟨h1, h2, h3, h4, h5⟩ := hw
    rw [if_neg h1, if_neg h2, if_neg h3, if_neg h4, if_neg h5]

/-- Evaluation of `compute_dN_B_components` at the off-axis unit square with the nodal
scheme, first integration point, node 1: there `dNdx(1,0) = 1` and `dNdx(1,1) = 0`, and
the stored `B(1,0,0,0)` is `dNdx(1,0) = 1`, not `dNdx(1,1)`; likewise the stored
`B(1,2,2,2)` is `dNdx(1,1) = 0`, not `dNdx(1,0)`. -/
theorem QuadratureAxisymmetric.compute_dN_B_components_witness :
    (QuadratureAxisymmetric.allocate Examples.squareOffAxis Nodal.xi Nodal.w).WF ∧
    Examples.axiCCW.dNdx 0 0 1 0 = 1 ∧ Examples.axiCCW.dNdx 0 0 1 1 = 0 ∧
    Examples.axiCCW.m_B.get6 0 0 1 0 0 0 = Examples.axiCCW.dNdx 0 0 1 0 ∧
    Examples.axiCCW.m_B.get6 0 0 1 2 2 2 = Examples.axiCCW.dNdx 0 0 1 1 ∧
    Examples.axiCCW.m_B.get6 0 0 1 0 0 0 ≠ Examples.axiCCW.dNdx 0 0 1 1 ∧
    Examples.axiCCW.m_B.get6 0 0 1 2 2 2 ≠ Examples.axiCCW.dNdx 0 0 1 0 :=
  ⟨by decide!, by decide!, by decide!,
    (QuadratureAxisymmetric.compute_dN_B_components (22 / 7)
      (QuadratureAxisymmetric.allocate Examples.squareOffAxis Nodal.xi Nodal.w)
      (by decide!) 0 0 1 (by decide) (by decide) (by decide)).1,
    (QuadratureAxisymmetric.compute_dN_B_components (22 / 7)
      (QuadratureAxisymmetric.allocate Examples.squareOffAxis Nodal.xi Nodal.w)
      (by decide!) 0 0 1 (by decide) (by decide) (by decide)).2.2.2.2.1,
    by decide!, by decide!⟩

end Element.Quad4

/-! ## Axisymmetric class: force, stiffness and virtual work -/

namespace Element.Quad4

variable {α : Type} [LinearOrderedField α]

/-- One pass of a node loop that adds `a m` to slot `(m,0)` and `b m` to slot `(m,1)`
of an element vector. -/
theorem nodeLoop_apply (a b : Nat → α) (f : Tiny α) (m j : Nat) (hm : m < 4) (hj : j < 2) :
    (List.foldl (fun (f : Tiny α) m => (f.add (m * 2 + 0) (a m)).add (m * 2 + 1) (b m))
      f (List.range 4)) (m * 2 + j) = f (m * 2 + j) + if j = 0 then a m else b m := by
  have h4 : List.range 4 = [0, 1, 2, 3] := rfl
  rw [h4]
  interval_cases m <;> interval_cases j <;> simp [Tiny.add]

theorem QuadratureAxisymmetric.forceBlock_apply_axi (q : QuadratureAxisymmetric α)
    (qtensor : ArrD α) (e m j : Nat) (hm : m < 4) (hj : j < 2) :
    q.forceBlock qtensor e (m * 2 + j) =
      ∑ k ∈ Finset.range q.m_nip,
        if j = 0 then
          ((q.m_B.view (q.m_B.offset [e, k, 0, 0, 0, 0])) (QuadratureAxisymmetric.Bpos m 2 2 2) *
              (qtensor.view (qtensor.offset [e, k, 0, 0])).at2 3 2 2 +
            (q.m_B.view (q.m_B.offset [e, k, 0, 0, 0, 0])) (QuadratureAxisymmetric.Bpos m 0 2 2) *
              (qtensor.view (qtensor.offset [e, k, 0, 0])).at2 3 0 2) * q.m_vol.get2 e k
        else
          ((q.m_B.view (q.m_B.offset [e, k, 0, 0, 0, 0])) (QuadratureAxisymmetric.Bpos m 0 0 0) *
              (qtensor.view (qtensor.offset [e, k, 0, 0])).at2 3 0 0 +
            (q.m_B.view (q.m_B.offset [e, k, 0, 0, 0, 0])) (QuadratureAxisymmetric.Bpos m 1 1 0) *
              (qtensor.view (qtensor.offset [e, k, 0, 0])).at2 3 1 1 +
            (q.m_B.view (q.m_B.offset [e, k, 0, 0, 0, 0])) (QuadratureAxisymmetric.Bpos m 2 0 0) *
              (qtensor.view (qtensor.offset [e, k, 0, 0])).at2 3 2 0) * q.m_vol.get2 e k := by
  unfold QuadratureAxisymmetric.forceBlock
  refine (foldl_range_accum _ (m * 2 + j)
    (fun k =>
      if j = 0 then
        ((q.m_B.view (q.m_B.offset [e, k, 0, 0, 0, 0])) (QuadratureAxisymmetric.Bpos m 2 2 2) *
            (qtensor.view (qtensor.offset [e, k, 0, 0])).at2 3 2 2 +
          (q.m_B.view (q.m_B.offset [e, k, 0, 0, 0, 0])) (QuadratureAxisymmetric.Bpos m 0 2 2) *
            (qtensor.view (qtensor.offset [e, k, 0, 0])).at2 3 0 2) * q.m_vol.get2 e k
      else
        ((q.m_B.view (q.m_B.offset [e, k, 0, 0, 0, 0])) (QuadratureAxisymmetric.Bpos m 0 0 0) *
            (qtensor.view (qtensor.offset [e, k, 0, 0])).at2 3 0 0 +
          (q.m_B.view (q.m_B.offset [e, k, 0, 0, 0, 0])) (QuadratureAxisymmetric.Bpos m 1 1 0) *
            (qtensor.view (qtensor.offset [e, k, 0, 0])).at2 3 1 1 +
          (q.m_B.view (q.m_B.offset [e, k, 0, 0, 0, 0])) (QuadratureAxisymmetric.Bpos m 2 0 0) *
            (qtensor.view (qtensor.offset [e, k, 0, 0])).at2 3 2 0) * q.m_vol.get2 e k)
    (fun f k => ?_) Tiny.zero q.m_nip).trans ?_
  · exact nodeLoop_apply _ _ f m j hm hj
  · simp [Tiny.zero]

theorem QuadratureAxisymmetric.int_gradN_dot_tensor2_dV_get3_axi
    (q : QuadratureAxisymmetric α) (qtensor : ArrD α) (e m j : Nat) (he : e < q.m_nelem)
    (hm : m < 4) (hj : j < 2) :
    (q.int_gradN_dot_tensor2_dV qtensor).get3 e m j = q.forceBlock qtensor e (m * 2 + j) := by
  have hsh : (q.int_gradN_dot_tensor2_dV qtensor).shape = [q.m_nelem, 4, 2] := rfl
  simp only [ArrD.get3, ArrD.read]
  rw [ArrD.offset3_of_shape hsh]
  have hidx : (e * 4 + m) * 2 + j = e * (4 * 2) + (m * 2 + j) := by ring
  rw [hidx]
  simp only [QuadratureAxisymmetric.int_gradN_dot_tensor2_dV]
  rw [getD_flatMap_range 0 _ (4 * 2) _ (fun e => Tiny.length_toList _ _) e _ he (by omega)]
  exact Tiny.getD_toList 0 _ _ _ (by omega)

theorem view_at2_eq_get4 (s : ArrD α) (n0 n1 e k i j : Nat) (h : s.shape = [n0, n1, 3, 3]) :
    (s.view (s.offset [e, k, 0, 0])).at2 3 i j = s.get4 e k i j := by
  simp only [ArrD.view, Tiny.at2, ArrD.get4, ArrD.offset4_of_shape h]
  congr 1

theorem view3_at2_eq_get3 (u : ArrD α) (n e m j : Nat) (h : u.shape = [n, 4, 2]) :
    (u.view (u.offset [e, 0, 0])).at2 2 m j = u.get3 e m j := by
  simp only [ArrD.view, Tiny.at2, ArrD.get3, ArrD.offset3_of_shape h]
  congr 1
  ring

end Element.Quad4

namespace Element.Quad4

variable {α : Type} [LinearOrderedField α]

/-- The view `gradu` of the axisymmetric `gradN_vector` at `(e,k)`, component by
component, with the element vector read by its indices. -/
theorem QuadratureAxisymmetric.gradN_vector_get4 (q : QuadratureAxisymmetric α)
    (u : ArrD α) (n e k : Nat) (hu : u.shape = [n, 4, 2]) (he : e < q.m_nelem)
    (hk : k < q.m_nip) (i j : Nat) (hi : i < 3) (hj : j < 3) :
    (q.gradN_vector u).get4 e k i j =
      if i = 0 ∧ j = 0 then
        ∑ m ∈ Finset.range 4, (q.m_B.view (q.m_B.offset [e, k, 0, 0, 0, 0]))
          (QuadratureAxisymmetric.Bpos m 0 0 0) * u.get3 e m 1
      else if i = 1 ∧ j = 1 then
        ∑ m ∈ Finset.range 4, (q.m_B.view (q.m_B.offset [e, k, 0, 0, 0, 0]))
          (QuadratureAxisymmetric.Bpos m 1 1 0) * u.get3 e m 1
      else if i = 2 ∧ j = 2 then
        ∑ m ∈ Finset.range 4, (q.m_B.view (q.m_B.offset [e, k, 0, 0, 0, 0]))
          (QuadratureAxisymmetric.Bpos m 2 2 2) * u.get3 e m 0
      else if i = 0 ∧ j = 2 then
        ∑ m ∈ Finset.range 4, (q.m_B.view (q.m_B.offset [e, k, 0, 0, 0, 0]))
          (QuadratureAxisymmetric.Bpos m 0 2 2) * u.get3 e m 0
      else if i = 2 ∧ j = 0 then
        ∑ m ∈ Finset.range 4, (q.m_B.view (q.m_B.offset [e, k, 0, 0, 0, 0]))
          (QuadratureAxisymmetric.Bpos m 2 0 0) * u.get3 e m 1
      else 0 := by
  rw [QuadratureAxisymmetric.gradN_vector_read_axi q u e k i j he hk hi hj]
  simp only [← view3_at2_eq_get3 u n e _ _ hu, Finset.sum_range_succ, Finset.sum_range_zero,
    zero_add]
  interval_cases i <;> interval_cases j <;>
    simp [QuadratureAxisymmetric.graduBlock, Tiny.set, Tiny.zero]

/-- C30: virtual-work duality of the axisymmetric element.  For every state, every
tensor field `sigma` of shape `(n, nip, 3, 3)` and every element vector `u` of shape
`(n, 4, 2)`, on every element `e`:
`sum over m, c of int_gradN_dot_tensor2_dV(sigma)(e,m,c) * u(e,m,c)` equals
`sum over q of vol(e,q) * sum over i, j of sigma(e,q,i,j) * gradN_vector(u)(e,q,i,j)`. -/
theorem QuadratureAxisymmetric.virtual_work_axi (q : QuadratureAxisymmetric α)
    (sigma u : ArrD α) (n1 n2 e : Nat) (hs : sigma.shape = [n1, q.m_nip, 3, 3])
    (hu : u.shape = [n2, 4, 2]) (he : e < q.m_nelem) :
    ∑ m ∈ Finset.range 4, ∑ c ∈ Finset.range 2,
      (q.int_gradN_dot_tensor2_dV sigma).get3 e m c * u.get3 e m c =
    ∑ k ∈ Finset.range q.m_nip, q.m_vol.get2 e k *
      ∑ i ∈ Finset.range 3, ∑ j ∈ Finset.range 3,
        sigma.get4 e k i j * (q.gradN_vector u).get4 e k i j := by
  have hf : ∀ m j, m < 4 → j < 2 →
      (q.int_gradN_dot_tensor2_dV sigma).get3 e m j = _ := fun m j hm hj =>
    (QuadratureAxisymmetric.int_gradN_dot_tensor2_dV_get3_axi q sigma e m j he hm hj).trans
      (QuadratureAxisymmetric.forceBlock_apply_axi q sigma e m j hm hj)
  simp only [Finset.sum_range_succ, Finset.sum_range_zero, zero_add]
  rw [hf 0 0 (by decide) (by decide), hf 0 1 (by decide) (by decide),
    hf 1 0 (by decide) (by decide), hf 1 1 (by decide) (by decide),
    hf 2 0 (by decide) (by decide), hf 2 1 (by decide) (by decide),
    hf 3 0 (by decide) (by decide), hf 3 1 (by decide) (by decide)]
  simp only [if_true, one_ne_zero, if_false, Finset.sum_mul, ← Finset.sum_add_distrib,
    view_at2_eq_get4 sigma n1 q.m_nip e _ _ _ hs]
  refine Finset.sum_congr rfl (fun k hk => ?_)
  have hk2 : k < q.m_nip := Finset.mem_range.mp hk
  have hg := QuadratureAxisymmetric.gradN_vector_get4 q u n2 e k hu he hk2
  rw [hg 0 0 (by decide) (by decide), hg 0 1 (by decide) (by decide),
    hg 0 2 (by decide) (by decide), hg 1 0 (by decide) (by decide),
    hg 1 1 (by decide) (by decide), hg 1 2 (by decide) (by decide),
    hg 2 0 (by decide) (by decide), hg 2 1 (by decide) (by decide),
    hg 2 2 (by decide) (by decide)]
  simp only [Finset.sum_range_succ, Finset.sum_range_zero, zero_add]
  norm_num
  ring

/-- Witness for `virtual_work_axi`: the off-axis unit square with the nodal scheme, the
stress with components `1, ..., 9` at every point and the element vector
`u = (x, 2 y)` of the planar example; both sides are `220 / 7`. -/
theorem QuadratureAxisymmetric.virtual_work_axi_witness :
    (∑ m ∈ Finset.range 4, ∑ c ∈ Finset.range 2,
      (Examples.axiCCW.int_gradN_dot_tensor2_dV Examples.sigmaAxi).get3 0 m c *
        Examples.uField.get3 0 m c = 220 / 7) ∧
    ∑ m ∈ Finset.range 4, ∑ c ∈ Finset.range 2,
      (Examples.axiCCW.int_gradN_dot_tensor2_dV Examples.sigmaAxi).get3 0 m c *
        Examples.uField.get3 0 m c =
    ∑ k ∈ Finset.range Examples.axiCCW.m_nip, Examples.axiCCW.m_vol.get2 0 k *
      ∑ i ∈ Finset.range 3, ∑ j ∈ Finset.range 3,
        Examples.sigmaAxi.get4 0 k i j *
          (Examples.axiCCW.gradN_vector Examples.uField).get4 0 k i j :=
  ⟨by decide!,
    QuadratureAxisymmetric.virtual_work_axi Examples.axiCCW Examples.sigmaAxi
      Examples.uField 1 1 0 rfl rfl (by decide)⟩

end Element.Quad4

namespace Element.Quad4

variable {α : Type} [LinearOrderedField α]

/-- A sum over all pairs of nodes of terms that live in one slot of the 8 x 8 element
matrix picks the pair of nodes of that slot. -/
theorem sum_slot (X : Nat → Nat → α) (m0 n0 r s r' s' : Nat) (hm0 : m0 < 4) (hn0 : n0 < 4)
    (hr : r < 2) (hs : s < 2) (hr' : r' < 2) (hs' : s' < 2) :
    (∑ m ∈ Finset.range 4, ∑ n ∈ Finset.range 4,
      if (2 * m0 + r) * 8 + (2 * n0 + s) = (m * 2 + r') * 8 + (n * 2 + s') then X m n
      else 0) = if r = r' ∧ s = s' then X m0 n0 else 0 := by
  have key : ∀ m n, m < 4 → n < 4 →
      ((2 * m0 + r) * 8 + (2 * n0 + s) = (m * 2 + r') * 8 + (n * 2 + s') ↔
        m = m0 ∧ (n = n0 ∧ (r = r' ∧ s = s'))) := by
    intro m n hm hn
    omega
  have h1 : (∑ m ∈ Finset.range 4, ∑ n ∈ Finset.range 4,
      if (2 * m0 + r) * 8 + (2 * n0 + s) = (m * 2 + r') * 8 + (n * 2 + s') then X m n
      else 0) = ∑ m ∈ Finset.range 4, ∑ n ∈ Finset.range 4,
        if m = m0 then (if n = n0 then (if r = r' ∧ s = s' then X m n else 0) else 0)
        else 0 := by
    refine Finset.sum_congr rfl (fun m hm => Finset.sum_congr rfl (fun n hn => ?_))
    rw [if_congr (key m n (Finset.mem_range.mp hm) (Finset.mem_range.mp hn)) rfl rfl]
    simp only [ite_and]
  rw [h1]
  have h2 : ∀ m, (∑ n ∈ Finset.range 4,
      if m = m0 then (if n = n0 then (if r = r' ∧ s = s' then X m n else 0) else 0)
      else 0) = if m = m0 then (if r = r' ∧ s = s' then X m n0 else 0) else 0 := by
    intro m
    by_cases h : m = m0
    · simp only [h, if_true]
      rw [Finset.sum_ite_eq' (Finset.range 4) n0, if_pos (Finset.mem_range.mpr hn0)]
    · simp [h]
  simp only [h2]
  rw [Finset.sum_ite_eq' (Finset.range 4) m0, if_pos (Finset.mem_range.mpr hm0)]

theorem QuadratureAxisymmetric.stiffStep_apply (B C : Nat → Nat → Nat → Nat → α) (vol : α)
    (K : Tiny α) (m n p : Nat) :
    QuadratureAxisymmetric.stiffStep B C vol K m n p =
      K p +
        ((if p = (m * 2 + 1) * 8 + (n * 2 + 1) then
            QuadratureAxisymmetric.stiffEntry B C vol 1 1 m n else 0) +
          (if p = (m * 2 + 1) * 8 + (n * 2 + 0) then
            QuadratureAxisymmetric.stiffEntry B C vol 1 0 m n else 0) +
          (if p = (m * 2 + 0) * 8 + (n * 2 + 1) then
            QuadratureAxisymmetric.stiffEntry B C vol 0 1 m n else 0) +
          (if p = (m * 2 + 0) * 8 + (n * 2 + 0) then
            QuadratureAxisymmetric.stiffEntry B C vol 0 0 m n else 0)) := by
  simp only [QuadratureAxisymmetric.stiffStep, Tiny.add_apply,
    QuadratureAxisymmetric.stiffEntry]
  norm_num
  split_ifs <;> ring

end Element.Quad4

namespace Element.Quad4

variable {α : Type} [LinearOrderedField α]

/-- The double node loop of `int_gradN_dot_tensor4_dot_gradNT_dV` adds to the entry
`K(2m+r, 2n+s)` the terms of the pair of nodes `(m, n)` that belong to it. -/
theorem QuadratureAxisymmetric.stiffLoop_apply (B C : Nat → Nat → Nat → Nat → α) (vol : α)
    (K : Tiny α) (m0 n0 r s : Nat) (hm0 : m0 < 4) (hn0 : n0 < 4) (hr : r < 2) (hs : s < 2) :
    (List.foldl
      (fun (K : Tiny α) m =>
        List.foldl (fun (K : Tiny α) n => QuadratureAxisymmetric.stiffStep B C vol K m n) K
          (List.range 4))
      K (List.range 4)) ((2 * m0 + r) * 8 + (2 * n0 + s)) =
    K ((2 * m0 + r) * 8 + (2 * n0 + s)) +
      QuadratureAxisymmetric.stiffEntry B C vol r s m0 n0 := by
  refine (foldl_range_accum _ ((2 * m0 + r) * 8 + (2 * n0 + s))
    (fun m => ∑ n ∈ Finset.range 4,
      ((if (2 * m0 + r) * 8 + (2 * n0 + s) = (m * 2 + 1) * 8 + (n * 2 + 1) then
          QuadratureAxisymmetric.stiffEntry B C vol 1 1 m n else 0) +
        (if (2 * m0 + r) * 8 + (2 * n0 + s) = (m * 2 + 1) * 8 + (n * 2 + 0) then
          QuadratureAxisymmetric.stiffEntry B C vol 1 0 m n else 0) +
        (if (2 * m0 + r) * 8 + (2 * n0 + s) = (m * 2 + 0) * 8 + (n * 2 + 1) then
          QuadratureAxisymmetric.stiffEntry B C vol 0 1 m n else 0) +
        (if (2 * m0 + r) * 8 + (2 * n0 + s) = (m * 2 + 0) * 8 + (n * 2 + 0) then
          QuadratureAxisymmetric.stiffEntry B C vol 0 0 m n else 0)))
    (fun K m => ?_) K 4).trans ?_
  · exact foldl_range_accum _ _ _
      (fun K n => QuadratureAxisymmetric.stiffStep_apply B C vol K m n _) K 4
  · congr 1
    simp only [Finset.sum_add_distrib]
    rw [sum_slot _ m0 n0 r s 1 1 hm0 hn0 hr hs (by decide) (by decide),
      sum_slot _ m0 n0 r s 1 0 hm0 hn0 hr hs (by decide) (by decide),
      sum_slot _ m0 n0 r s 0 1 hm0 hn0 hr hs (by decide) (by decide),
      sum_slot _ m0 n0 r s 0 0 hm0 hn0 hr hs (by decide) (by decide)]
    interval_cases r <;> interval_cases s <;> simp

theorem QuadratureAxisymmetric.stiffBlock_apply (q : QuadratureAxisymmetric α)
    (qtensor : ArrD α) (e m n r s : Nat) (hm : m < 4) (hn : n < 4) (hr : r < 2) (hs : s < 2) :
    q.stiffBlock qtensor e ((2 * m + r) * 8 + (2 * n + s)) =
      ∑ k ∈ Finset.range q.m_nip,
        QuadratureAxisymmetric.stiffEntry
          (fun m i j l => (q.m_B.view (q.m_B.offset [e, k, 0, 0, 0, 0]))
            (QuadratureAxisymmetric.Bpos m i j l))
          (fun a b d g => (qtensor.view (qtensor.offset [e, k, 0, 0, 0, 0]))
            (QuadratureAxisymmetric.Cpos a b d g))
          (q.m_vol.get2 e k) r s m n := by
  unfold QuadratureAxisymmetric.stiffBlock
  refine (foldl_range_accum _ ((2 * m + r) * 8 + (2 * n + s))
    (fun k => QuadratureAxisymmetric.stiffEntry
      (fun m i j l => (q.m_B.view (q.m_B.offset [e, k, 0, 0, 0, 0]))
        (QuadratureAxisymmetric.Bpos m i j l))
      (fun a b d g => (qtensor.view (qtensor.offset [e, k, 0, 0, 0, 0]))
        (QuadratureAxisymmetric.Cpos a b d g))
      (q.m_vol.get2 e k) r s m n)
    (fun K k => ?_) Tiny.zero q.m_nip).trans ?_
  · exact QuadratureAxisymmetric.stiffLoop_apply _ _ _ K m n r s hm hn hr hs
  · simp [Tiny.zero]

theorem QuadratureAxisymmetric.stiff_get3 (q : QuadratureAxisymmetric α)
    (qtensor : ArrD α) (e a b : Nat) (he : e < q.m_nelem) (ha : a < 8) (hb : b < 8) :
    (q.int_gradN_dot_tensor4_dot_gradNT_dV qtensor).get3 e a b =
      q.stiffBlock qtensor e (a * 8 + b) := by
  have hsh : (q.int_gradN_dot_tensor4_dot_gradNT_dV qtensor).shape = [q.m_nelem, 8, 8] := rfl
  simp only [ArrD.get3, ArrD.read]
  rw [ArrD.offset3_of_shape hsh]
  have hidx : (e * 8 + a) * 8 + b = e * (4 * 2 * (4 * 2)) + (a * 8 + b) := by ring
  rw [hidx]
  simp only [QuadratureAxisymmetric.int_gradN_dot_tensor4_dot_gradNT_dV]
  rw [getD_flatMap_range 0 _ (4 * 2 * (4 * 2)) _ (fun e => Tiny.length_toList _ _) e _ he
    (by omega)]
  exact Tiny.getD_toList 0 _ _ _ (by omega)

end Element.Quad4

namespace Element.Quad4

variable {α : Type} [LinearOrderedField α]

theorem QuadratureAxisymmetric.C_view_eq_get6 (C : ArrD α) (n0 n1 : Nat)
    (hC : C.shape = [n0, n1, 3, 3, 3, 3]) (e k a b d g : Nat) :
    (C.view (C.offset [e, k, 0, 0, 0, 0])) (QuadratureAxisymmetric.Cpos a b d g) =
      C.get6 e k a b d g := by
  simp only [ArrD.view, ArrD.get6, QuadratureAxisymmetric.Cpos, ArrD.offset6_of_shape hC]
  congr 1

/-- With only the five written components of `B` non-zero, the terms of `stiffStep`
that go to one entry are the full contraction `B(m,a,b,c) * C(a,b,d,g) * B(n,g,d,f)`. -/
theorem QuadratureAxisymmetric.stiffEntry_eq_contraction
    (B C : Nat → Nat → Nat → Nat → α) (vol : α) (m n c f : Nat)
    (hBm : ∀ i j l, i < 3 → j < 3 → l < 3 → ¬ QuadratureAxisymmetric.written i j l →
      B m i j l = 0)
    (hBn : ∀ i j l, i < 3 → j < 3 → l < 3 → ¬ QuadratureAxisymmetric.written i j l →
      B n i j l = 0)
    (hc : c = 0 ∨ c = 2) (hf : f = 0 ∨ f = 2) :
    QuadratureAxisymmetric.stiffEntry B C vol (QuadratureAxisymmetric.perm c)
        (QuadratureAxisymmetric.perm f) m n =
      vol * ∑ a ∈ Finset.range 3, ∑ b ∈ Finset.range 3, ∑ d ∈ Finset.range 3,
        ∑ g ∈ Finset.range 3, B m a b c * C a b d g * B n g d f := by
  have m1 := hBm 0 1 0 (by decide) (by decide) (by decide) (by decide)
  have m2 := hBm 0 2 0 (by decide) (by decide) (by decide) (by decide)
  have m3 := hBm 1 0 0 (by decide) (by decide) (by decide) (by decide)
  have m4 := hBm 1 2 0 (by decide) (by decide) (by decide) (by decide)
  have m5 := hBm 2 1 0 (by decide) (by decide) (by decide) (by decide)
  have m6 := hBm 2 2 0 (by decide) (by decide) (by decide) (by decide)
  have m7 := hBm 0 0 2 (by decide) (by decide) (by decide) (by decide)
  have m8 := hBm 0 1 2 (by decide) (by decide) (by decide) (by decide)
  have m9 := hBm 1 0 2 (by decide) (by decide) (by decide) (by decide)
  have m10 := hBm 1 1 2 (by decide) (by decide) (by decide) (by decide)
  have m11 := hBm 1 2 2 (by decide) (by decide) (by decide) (by decide)
  have m12 := hBm 2 0 2 (by decide) (by decide) (by decide) (by decide)
  have m13 := hBm 2 1 2 (by decide) (by decide) (by decide) (by decide)
  have n1 := hBn 0 1 0 (by decide) (by decide) (by decide) (by decide)
  have n2 := hBn 0 2 0 (by decide) (by decide) (by decide) (by decide)
  have n3 := hBn 1 0 0 (by decide) (by decide) (by decide) (by decide)
  have n4 := hBn 1 2 0 (by decide) (by decide) (by decide) (by decide)
  have n5 := hBn 2 1 0 (by decide) (by decide) (by decide) (by decide)
  have n6 := hBn 2 2 0 (by decide) (by decide) (by decide) (by decide)
  have n7 := hBn 0 0 2 (by decide) (by decide) (by decide) (by decide)
  have n8 := hBn 0 1 2 (by decide) (by decide) (by decide) (by decide)
  have n9 := hBn 1 0 2 (by decide) (by decide) (by decide) (by decide)
  have n10 := hBn 1 1 2 (by decide) (by decide) (by decide) (by decide)
  have n11 := hBn 1 2 2 (by decide) (by decide) (by decide) (by decide)
  have n12 := hBn 2 0 2 (by decide) (by decide) (by decide) (by decide)
  have n13 := hBn 2 1 2 (by decide) (by decide) (by decide) (by decide)
  rcases hc with rfl | rfl <;> rcases hf with rfl | rfl <;>
    simp only [QuadratureAxisymmetric.perm, QuadratureAxisymmetric.stiffEntry,
      Finset.sum_range_succ, Finset.sum_range_zero, zero_add, m1, m2, m3, m4, m5, m6, m7,
      m8, m9, m10, m11, m12, m13, n1, n2, n3, n4, n5, n6, n7, n8, n9, n10, n11, n12, n13,
      mul_zero, zero_mul, add_zero] <;>
    norm_num <;> ring

end Element.Quad4

namespace Element.Quad4

variable {α : Type} [LinearOrderedField α]

/-- After `compute_dN` every component of `B` other than the five written ones is 0. -/
theorem QuadratureAxisymmetric.compute_dN_B_zero (pi : α) (q : QuadratureAxisymmetric α)
    (hB : q.m_B.shape = [q.m_nelem, q.m_nip, 4, 3, 3, 3]) (e : Nat) (he : e < q.m_nelem) :
    ∀ k, k < q.m_nip → ∀ m, m < 4 → ∀ i j l, i < 3 → j < 3 → l < 3 →
      ¬ QuadratureAxisymmetric.written i j l → (q.compute_dN pi).m_B.get6 e k m i j l = 0 := by
  intro k hk m hm i j l hi hj hl hw
  rw [QuadratureAxisymmetric.compute_dN_B_get6 pi q hB e k m i j l he hk hm hi hj hl,
    QuadratureAxisymmetric.BBlock_apply q e k m i j l hm hi hj hl]
  simp only [QuadratureAxisymmetric.written, not_or] at hw
  obtain ⟨h1, h2, h3, h4, h5⟩ := hw
  rw [if_neg h1, if_neg h2, if_neg h3, if_neg h4, if_neg h5]

/-- C27: for a state whose `B` has only the five written components non-zero on element
`e`, and a 4th-order field `C` of shape `(n, nip, 3, 3, 3, 3)`, the 25 unrolled terms of
`int_gradN_dot_tensor4_dot_gradNT_dV` are the full contraction of its comment:
`K(e, 2m+perm(c), 2n+perm(f)) = sum over q of vol(e,q) * sum over a, b, d, g of
B(m,a,b,c) * C(a,b,d,g) * B(n,g,d,f)` for `c, f` in `0, 2`, with `perm(0) = 1` and
`perm(2) = 0`. -/
theorem QuadratureAxisymmetric.stiffness_eq_contraction (q : QuadratureAxisymmetric α)
    (C : ArrD α) (n0 e : Nat) (hB : q.m_B.shape = [q.m_nelem, q.m_nip, 4, 3, 3, 3])
    (hC : C.shape = [n0, q.m_nip, 3, 3, 3, 3]) (he : e < q.m_nelem)
    (hsp : ∀ k, k < q.m_nip → ∀ m, m < 4 → ∀ i j l, i < 3 → j < 3 → l < 3 →
      ¬ QuadratureAxisymmetric.written i j l → q.m_B.get6 e k m i j l = 0) :
    ∀ m n c f, m < 4 → n < 4 → (c = 0 ∨ c = 2) → (f = 0 ∨ f = 2) →
      (q.int_gradN_dot_tensor4_dot_gradNT_dV C).get3 e
          (2 * m + QuadratureAxisymmetric.perm c) (2 * n + QuadratureAxisymmetric.perm f) =
        ∑ k ∈ Finset.range q.m_nip, q.m_vol.get2 e k *
          ∑ a ∈ Finset.range 3, ∑ b ∈ Finset.range 3, ∑ d ∈ Finset.range 3,
            ∑ g ∈ Finset.range 3,
              q.m_B.get6 e k m a b c * C.get6 e k a b d g * q.m_B.get6 e k n g d f := by
  intro m n c f hm hn hc hf
  have hpc : QuadratureAxisymmetric.perm c < 2 := by
    unfold QuadratureAxisymmetric.perm; split <;> decide
  have hpf : QuadratureAxisymmetric.perm f < 2 := by
    unfold QuadratureAxisymmetric.perm; split <;> decide
  rw [QuadratureAxisymmetric.stiff_get3 q C e _ _ he (by omega) (by omega),
    QuadratureAxisymmetric.stiffBlock_apply q C e m n _ _ hm hn hpc hpf]
  refine Finset.sum_congr rfl (fun k hk => ?_)
  have hk2 : k < q.m_nip := Finset.mem_range.mp hk
  simp only [QuadratureAxisymmetric.B_view_eq_get6 q _ _ hB,
    QuadratureAxisymmetric.C_view_eq_get6 C _ _ hC]
  exact QuadratureAxisymmetric.stiffEntry_eq_contraction
    (fun m i j l => q.m_B.get6 e k m i j l) (fun a b d g => C.get6 e k a b d g)
    (q.m_vol.get2 e k) m n c f (hsp k hk2 m hm) (hsp k hk2 n hn) hc hf

/-- Witness for `stiffness_eq_contraction`: the off-axis unit square with the nodal
scheme, whose `B` is the one stored by `compute_dN`, and a 4th-order field with
components `1 + a + 2 b + 3 d + 5 g`. -/
theorem QuadratureAxisymmetric.stiffness_eq_contraction_witness :
    Examples.axiCCW.m_B.shape = [Examples.axiCCW.m_nelem, Examples.axiCCW.m_nip, 4, 3, 3, 3] ∧
    Examples.tangentAxi.shape = [1, Examples.axiCCW.m_nip, 3, 3, 3, 3] ∧
    ∀ m n c f, m < 4 → n < 4 → (c = 0 ∨ c = 2) → (f = 0 ∨ f = 2) →
      (Examples.axiCCW.int_gradN_dot_tensor4_dot_gradNT_dV Examples.tangentAxi).get3 0
          (2 * m + QuadratureAxisymmetric.perm c) (2 * n + QuadratureAxisymmetric.perm f) =
        ∑ k ∈ Finset.range Examples.axiCCW.m_nip, Examples.axiCCW.m_vol.get2 0 k *
          ∑ a ∈ Finset.range 3, ∑ b ∈ Finset.range 3, ∑ d ∈ Finset.range 3,
            ∑ g ∈ Finset.range 3,
              Examples.axiCCW.m_B.get6 0 k m a b c * Examples.tangentAxi.get6 0 k a b d g *
                Examples.axiCCW.m_B.get6 0 k n g d f :=
  ⟨rfl, rfl,
    QuadratureAxisymmetric.stiffness_eq_contraction Examples.axiCCW Examples.tangentAxi 1 0
      rfl rfl (by decide)
      (QuadratureAxisymmetric.compute_dN_B_zero (22 / 7)
        (QuadratureAxisymmetric.allocate Examples.squareOffAxis Nodal.xi Nodal.w) rfl 0
        (by decide))⟩

end Element.Quad4

namespace Element.Quad4

variable {α : Type} [LinearOrderedField α]

/-- The view `gradu` of the axisymmetric `gradN_vector_T` at `(e,k)`, component by
component, with the element vector read by its indices. -/
theorem QuadratureAxisymmetric.gradN_vector_T_get4 (q : QuadratureAxisymmetric α)
    (u : ArrD α) (n e k : Nat) (hu : u.shape = [n, 4, 2]) (he : e < q.m_nelem)
    (hk : k < q.m_nip) (i j : Nat) (hi : i < 3) (hj : j < 3) :
    (q.gradN_vector_T u).get4 e k i j =
      if i = 0 ∧ j = 0 then
        ∑ m ∈ Finset.range 4, (q.m_B.view (q.m_B.offset [e, k, 0, 0, 0, 0]))
          (QuadratureAxisymmetric.Bpos m 0 0 0) * u.get3 e m 1
      else if i = 1 ∧ j = 1 then
        ∑ m ∈ Finset.range 4, (q.m_B.view (q.m_B.offset [e, k, 0, 0, 0, 0]))
          (QuadratureAxisymmetric.Bpos m 1 1 0) * u.get3 e m 1
      else if i = 2 ∧ j = 2 then
        ∑ m ∈ Finset.range 4, (q.m_B.view (q.m_B.offset [e, k, 0, 0, 0, 0]))
          (QuadratureAxisymmetric.Bpos m 2 2 2) * u.get3 e m 0
      else if i = 2 ∧ j = 0 then
        ∑ m ∈ Finset.range 4, (q.m_B.view (q.m_B.offset [e, k, 0, 0, 0, 0]))
          (QuadratureAxisymmetric.Bpos m 0 2 2) * u.get3 e m 0
      else if i = 0 ∧ j = 2 then
        ∑ m ∈ Finset.range 4, (q.m_B.view (q.m_B.offset [e, k, 0, 0, 0, 0]))
          (QuadratureAxisymmetric.Bpos m 2 0 0) * u.get3 e m 1
      else 0 := by
  rw [QuadratureAxisymmetric.gradN_vector_T_read_axi q u e k i j he hk hi hj]
  simp only [← view3_at2_eq_get3 u n e _ _ hu, Finset.sum_range_succ, Finset.sum_range_zero,
    zero_add]
  interval_cases i <;> interval_cases j <;>
    simp [QuadratureAxisymmetric.graduTBlock, Tiny.set, Tiny.zero]

/-- C28: tangent consistency of the axisymmetric element.  For every state, every
4th-order field `C` and every element vector `u`, with
`sigma(e,q,a,b) = sum over d, g of C(e,q,a,b,d,g) * gradN_vector_T(u)(e,q,d,g)`,
the element stiffness `K(e) = int_gradN_dot_tensor4_dot_gradNT_dV(C)(e)` applied to the
flattened nodal vector (entry `2n+c` is `u(e,n,c)`) is the flattened element force
`int_gradN_dot_tensor2_dV(sigma)(e)`: row `2m+r` gives `f(e,m,r)`. -/
theorem QuadratureAxisymmetric.tangent_consistency (q : QuadratureAxisymmetric α)
    (C sigma u : ArrD α) (n1 n2 n3 e : Nat) (hC : C.shape = [n1, q.m_nip, 3, 3, 3, 3])
    (hs : sigma.shape = [n2, q.m_nip, 3, 3]) (hu : u.shape = [n3, 4, 2])
    (he : e < q.m_nelem)
    (hsig : ∀ k, k < q.m_nip → ∀ a, a < 3 → ∀ b, b < 3 →
      sigma.get4 e k a b =
        ∑ d ∈ Finset.range 3, ∑ g ∈ Finset.range 3,
          C.get6 e k a b d g * (q.gradN_vector_T u).get4 e k d g) :
    ∀ m r, m < 4 → r < 2 →
      ∑ n ∈ Finset.range 4, ∑ c ∈ Finset.range 2,
        (q.int_gradN_dot_tensor4_dot_gradNT_dV C).get3 e (2 * m + r) (2 * n + c) *
          u.get3 e n c =
      (q.int_gradN_dot_tensor2_dV sigma).get3 e m r := by
  intro m r hm hr
  have hK : ∀ n c, n < 4 → c < 2 →
      (q.int_gradN_dot_tensor4_dot_gradNT_dV C).get3 e (2 * m + r) (2 * n + c) = _ :=
    fun n c hn hc =>
      (QuadratureAxisymmetric.stiff_get3 q C e _ _ he (by omega) (by omega)).trans
        (QuadratureAxisymmetric.stiffBlock_apply q C e m n r c hm hn hr hc)
  rw [QuadratureAxisymmetric.int_gradN_dot_tensor2_dV_get3_axi q sigma e m r he hm hr,
    QuadratureAxisymmetric.forceBlock_apply_axi q sigma e m r hm hr]
  simp only [Finset.sum_range_succ, Finset.sum_range_zero, zero_add]
  rw [hK 0 0 (by decide) (by decide), hK 0 1 (by decide) (by decide),
    hK 1 0 (by decide) (by decide), hK 1 1 (by decide) (by decide),
    hK 2 0 (by decide) (by decide), hK 2 1 (by decide) (by decide),
    hK 3 0 (by decide) (by decide), hK 3 1 (by decide) (by decide)]
  simp only [Finset.sum_mul, ← Finset.sum_add_distrib]
  refine Finset.sum_congr rfl (fun k hk => ?_)
  have hk2 : k < q.m_nip := Finset.mem_range.mp hk
  have hg := QuadratureAxisymmetric.gradN_vector_T_get4 q u n3 e k hu he hk2
  have hsg : ∀ a b, a < 3 → b < 3 → sigma.get4 e k a b = _ := fun a b ha hb =>
    hsig k hk2 a ha b hb
  simp only [view_at2_eq_get4 sigma n2 q.m_nip e _ _ _ hs,
    QuadratureAxisymmetric.C_view_eq_get6 C _ _ hC]
  rw [hsg 2 2 (by decide) (by decide), hsg 0 2 (by decide) (by decide),
    hsg 0 0 (by decide) (by decide), hsg 1 1 (by decide) (by decide),
    hsg 2 0 (by decide) (by decide)]
  simp only [Finset.sum_range_succ, Finset.sum_range_zero, zero_add]
  rw [hg 0 0 (by decide) (by decide), hg 0 1 (by decide) (by decide),
    hg 0 2 (by decide) (by decide), hg 1 0 (by decide) (by decide),
    hg 1 1 (by decide) (by decide), hg 1 2 (by decide) (by decide),
    hg 2 0 (by decide) (by decide), hg 2 1 (by decide) (by decide),
    hg 2 2 (by decide) (by decide)]
  simp only [Finset.sum_range_succ, Finset.sum_range_zero, zero_add]
  interval_cases r
  · simp only [QuadratureAxisymmetric.stiffEntry]
    norm_num
    ring
  · simp only [QuadratureAxisymmetric.stiffEntry]
    norm_num
    ring

end Element.Quad4

namespace Element.Quad4

/-- Witness for `tangent_consistency`: the off-axis unit square with the nodal scheme,
the tangent with components `1 + a + 2 b + 3 d + 5 g` and an element vector with stretch
and shear. -/
theorem QuadratureAxisymmetric.tangent_consistency_witness :
    (∀ k, k < Examples.axiCCW.m_nip → ∀ a, a < 3 → ∀ b, b < 3 →
      Examples.tangentStress.get4 0 k a b =
        ∑ d ∈ Finset.range 3, ∑ g ∈ Finset.range 3,
          Examples.tangentAxi.get6 0 k a b d g *
            (Examples.axiCCW.gradN_vector_T Examples.uShear).get4 0 k d g) ∧
    (Examples.axiCCW.int_gradN_dot_tensor2_dV Examples.tangentStress).get3 0 0 1 ≠ 0 ∧
    ∀ m r, m < 4 → r < 2 →
      ∑ n ∈ Finset.range 4, ∑ c ∈ Finset.range 2,
        (Examples.axiCCW.int_gradN_dot_tensor4_dot_gradNT_dV Examples.tangentAxi).get3 0
          (2 * m + r) (2 * n + c) * Examples.uShear.get3 0 n c =
      (Examples.axiCCW.int_gradN_dot_tensor2_dV Examples.tangentStress).get3 0 m r :=
  ⟨by decide!, by decide!,
    QuadratureAxisymmetric.tangent_consistency Examples.axiCCW Examples.tangentAxi
      Examples.tangentStress Examples.uShear 1 1 1 0 rfl rfl rfl (by decide) (by decide!)⟩

end Element.Quad4

/-! ## Tyings: conservation of the assembled total -/

namespace VectorPartitionedTyings

variable {α : Type} [LinearOrderedField α]

theorem sum_range_getD (l : List Nat) (f : Nat → α) :
    ∑ a ∈ Finset.range l.length, f (l.getD a 0) = (l.map f).sum := by
  induction l with
  | nil => simp
  | cons x xs ih =>
    rw [List.length_cons, Finset.sum_range_succ', List.map_cons, List.sum_cons, add_comm]
    simp only [List.getD_cons_succ, List.getD_cons_zero]
    rw [ih]

theorem assembleDofs_i_get1 (v : VectorPartitionedTyings α) (elemvec : ArrD α) (a : Nat)
    (ha : a < v.nni) :
    (v.assembleDofs_i elemvec).get1 a =
      (v.base.assembleDofs_elemvec elemvec).get1 (v.iii.getD a 0) +
        ∑ b ∈ Finset.range v.nnd,
          v.m_Cdi.get2 b a *
            (v.base.assembleDofs_elemvec elemvec).get1 (v.m_iid.getD b 0) := by
  have hsh : (v.assembleDofs_i elemvec).shape = [v.nni] := rfl
  rw [ArrD.get1_of_shape hsh]
  simp only [ArrD.read, assembleDofs_i]
  exact getD_map_range 0 v.nni a _ ha

/-- C23: for a `VectorPartitionedTyings` whose unknown, prescribed and dependent DOFs
partition `[0, ndof)` and whose `Cdi` has rows that sum to 1 (pure periodic tying), and
every element-layout field `fe`, the sum over the independent DOFs of the tying-reduced
assembly (direct independent contributions plus `Cdi^T` applied to the dependent ones)
equals the sum over all DOFs of the plain assembly of `fe`. -/
theorem tying_total_conserved (v : VectorPartitionedTyings α) (fe : ArrD α) (hv : v.WF)
    (hrow : v.rowsSumToOne) :
    ∑ a ∈ Finset.range v.nni, (v.assembleDofs_i fe).get1 a =
      ∑ d ∈ Finset.range v.base.m_ndof, (v.base.assembleDofs_elemvec fe).get1 d := by
  have h1 : ∑ a ∈ Finset.range v.nni, (v.assembleDofs_i fe).get1 a =
      ∑ a ∈ Finset.range v.nni,
        ((v.base.assembleDofs_elemvec fe).get1 (v.iii.getD a 0) +
          ∑ b ∈ Finset.range v.nnd,
            v.m_Cdi.get2 b a * (v.base.assembleDofs_elemvec fe).get1 (v.m_iid.getD b 0)) :=
    Finset.sum_congr rfl (fun a ha =>
      assembleDofs_i_get1 v fe a (Finset.mem_range.mp ha))
  have h2 : ∑ a ∈ Finset.range v.nni, ∑ b ∈ Finset.range v.nnd,
      v.m_Cdi.get2 b a * (v.base.assembleDofs_elemvec fe).get1 (v.m_iid.getD b 0) =
      ∑ b ∈ Finset.range v.nnd, (v.base.assembleDofs_elemvec fe).get1 (v.m_iid.getD b 0) := by
    rw [Finset.sum_comm]
    refine Finset.sum_congr rfl (fun b hb => ?_)
    rw [← Finset.sum_mul, hrow b (Finset.mem_range.mp hb), one_mul]
  rw [h1, Finset.sum_add_distrib, h2]
  have h3 := sum_range_getD v.iii (fun d => (v.base.assembleDofs_elemvec fe).get1 d)
  have h4 := sum_range_getD v.m_iid (fun d => (v.base.assembleDofs_elemvec fe).get1 d)
  have h5 : ((v.iii ++ v.m_iid).map fun d => (v.base.assembleDofs_elemvec fe).get1 d).sum =
      ((List.range v.base.m_ndof).map fun d =>
        (v.base.assembleDofs_elemvec fe).get1 d).sum :=
    (hv.1.map _).sum_eq
  rw [sum_map_range, List.map_append, List.sum_append] at h5
  rw [← h5]
  exact congrArg₂ (· + ·) h3 h4

end VectorPartitionedTyings

/-- Witness for `tying_total_conserved`: the periodic setup of the 2 x 2 mesh and the
element field with entries `0, ..., 31`, whose total is 496. -/
theorem VectorPartitionedTyings.tying_total_conserved_witness :
    Mesh.Quad4.Regular22.tyings.WF ∧ Mesh.Quad4.Regular22.tyings.rowsSumToOne ∧
    Mesh.Quad4.Regular22.tyings.nni = 8 ∧ Mesh.Quad4.Regular22.tyings.base.m_ndof = 18 ∧
    (∑ d ∈ Finset.range Mesh.Quad4.Regular22.tyings.base.m_ndof,
      (Mesh.Quad4.Regular22.tyings.base.assembleDofs_elemvec
        Mesh.Quad4.Regular22.feField).get1 d = 496) ∧
    ∑ a ∈ Finset.range Mesh.Quad4.Regular22.tyings.nni,
      (Mesh.Quad4.Regular22.tyings.assembleDofs_i Mesh.Quad4.Regular22.feField).get1 a =
    ∑ d ∈ Finset.range Mesh.Quad4.Regular22.tyings.base.m_ndof,
      (Mesh.Quad4.Regular22.tyings.base.assembleDofs_elemvec
        Mesh.Quad4.Regular22.feField).get1 d :=
  ⟨by decide!, by decide!, by decide, by decide, by decide!,
    VectorPartitionedTyings.tying_total_conserved Mesh.Quad4.Regular22.tyings
      Mesh.Quad4.Regular22.feField (by decide!) (by decide!)⟩

/-! ## Partition of unity and its consequences -/

namespace Element.Quad4

variable {α : Type} [LinearOrderedField α]

/-- The inverse of `Tensor2.inv` is a left inverse wherever the determinant does not
vanish. -/
theorem inv_mul_self_of_det_ne_zero (J : Tensor2 α) (h : J.det ≠ 0) :
    J.inv.c00 * J.c00 + J.inv.c01 * J.c10 = 1 ∧
    J.inv.c00 * J.c01 + J.inv.c01 * J.c11 = 0 ∧
    J.inv.c10 * J.c00 + J.inv.c11 * J.c10 = 0 ∧
    J.inv.c10 * J.c01 + J.inv.c11 * J.c11 = 1 := by
  have hd : J.c00 * J.c11 - J.c01 * J.c10 ≠ 0 := h
  simp only [Tensor2.inv, Tensor2.det]
  refine ⟨?_, ?_, ?_, ?_⟩ <;> field_simp <;> ring

/-- The local gradients written by the constructor, read through the view that
`compute_dN` takes at integration point `k`. -/
theorem Quadrature.allocate_dNxi_view (x xi w : ArrD α) (nip k m j : Nat) (hk : k < nip)
    (hm : m < 4) (hj : j < 2) :
    ((Quadrature.allocate x xi w nip).m_dNxi.view
        ((Quadrature.allocate x xi w nip).m_dNxi.offset [k])).at2 2 m j =
      ([-(1 / 4) * (1 - xi.get2 k 1), -(1 / 4) * (1 - xi.get2 k 0),
        1 / 4 * (1 - xi.get2 k 1), -(1 / 4) * (1 + xi.get2 k 0),
        1 / 4 * (1 + xi.get2 k 1), 1 / 4 * (1 + xi.get2 k 0),
        -(1 / 4) * (1 + xi.get2 k 1), 1 / 4 * (1 - xi.get2 k 0)] : List α).getD
          (m * 2 + j) 0 := by
  have hd : (Quadrature.allocate x xi w nip).m_dNxi.shape = [nip, 4, 2] := rfl
  simp only [ArrD.view, Tiny.at2, ArrD.offset1_of_shape3 hd]
  exact Quadrature.allocate_dNxi_read x xi w nip k (m * 2 + j) hk (by omega)

/-- The local gradients of the four shape functions sum to zero in each reference
direction, at every integration point of every scheme. -/
theorem Quadrature.allocate_dNxi_colsum (x xi w : ArrD α) (nip k j : Nat) (hk : k < nip)
    (hj : j < 2) :
    ((Quadrature.allocate x xi w nip).m_dNxi.view
        ((Quadrature.allocate x xi w nip).m_dNxi.offset [k])).at2 2 0 j +
      ((Quadrature.allocate x xi w nip).m_dNxi.view
        ((Quadrature.allocate x xi w nip).m_dNxi.offset [k])).at2 2 1 j +
      ((Quadrature.allocate x xi w nip).m_dNxi.view
        ((Quadrature.allocate x xi w nip).m_dNxi.offset [k])).at2 2 2 j +
      ((Quadrature.allocate x xi w nip).m_dNxi.view
        ((Quadrature.allocate x xi w nip).m_dNxi.offset [k])).at2 2 3 j = 0 := by
  rw [Quadrature.allocate_dNxi_view x xi w nip k 0 j hk (by decide) hj,
    Quadrature.allocate_dNxi_view x xi w nip k 1 j hk (by decide) hj,
    Quadrature.allocate_dNxi_view x xi w nip k 2 j hk (by decide) hj,
    Quadrature.allocate_dNxi_view x xi w nip k 3 j hk (by decide) hj]
  interval_cases j <;>
    simp only [Nat.reduceMul, Nat.reduceAdd, List.getD_cons_zero, List.getD_cons_succ] <;>
    ring

/-- The global gradients that `compute_dN` stores for a state of the constructor sum
to zero over the four nodes. -/
theorem Quadrature.init_dNx_colsum (x xi w : ArrD α) (nip e k i : Nat)
    (he : e < x.shape.getD 0 0) (hk : k < nip) (hi : i < 2) :
    ((Quadrature.init x xi w nip).m_dNx.view
        ((Quadrature.init x xi w nip).m_dNx.offset [e, k])).at2 2 0 i +
      ((Quadrature.init x xi w nip).m_dNx.view
        ((Quadrature.init x xi w nip).m_dNx.offset [e, k])).at2 2 1 i +
      ((Quadrature.init x xi w nip).m_dNx.view
        ((Quadrature.init x xi w nip).m_dNx.offset [e, k])).at2 2 2 i +
      ((Quadrature.init x xi w nip).m_dNx.view
        ((Quadrature.init x xi w nip).m_dNx.offset [e, k])).at2 2 3 i = 0 := by
  have hv : ∀ m, m < 4 →
      ((Quadrature.init x xi w nip).m_dNx.view
        ((Quadrature.init x xi w nip).m_dNx.offset [e, k])).at2 2 m i =
      (Quadrature.allocate x xi w nip).dNxBlock e k (m * 2 + i) := fun m hm =>
    compute_dN_dNx_view (Quadrature.allocate x xi w nip) rfl e k m i he hk hm hi
  have h0 := Quadrature.allocate_dNxi_colsum x xi w nip k 0 hk (by decide)
  have h1 := Quadrature.allocate_dNxi_colsum x xi w nip k 1 hk (by decide)
  rw [hv 0 (by decide), hv 1 (by decide), hv 2 (by decide), hv 3 (by decide)]
  interval_cases i
  · rw [(dNxBlock_apply _ e k 0 (by decide)).1, (dNxBlock_apply _ e k 1 (by decide)).1,
      (dNxBlock_apply _ e k 2 (by decide)).1, (dNxBlock_apply _ e k 3 (by decide)).1]
    linear_combination
      ((Quadrature.allocate x xi w nip).jacobian e k).inv.c00 * h0 +
      ((Quadrature.allocate x xi w nip).jacobian e k).inv.c01 * h1
  · rw [(dNxBlock_apply _ e k 0 (by decide)).2, (dNxBlock_apply _ e k 1 (by decide)).2,
      (dNxBlock_apply _ e k 2 (by decide)).2, (dNxBlock_apply _ e k 3 (by decide)).2]
    linear_combination
      ((Quadrature.allocate x xi w nip).jacobian e k).inv.c10 * h0 +
      ((Quadrature.allocate x xi w nip).jacobian e k).inv.c11 * h1

/-- The four entries of the Jacobian, as the source accumulates them. -/
theorem Quadrature.jacobian_entries (q : Quadrature α) (e k : Nat) :
    (q.jacobian e k).c00 =
      (q.m_dNxi.view (q.m_dNxi.offset [k])).at2 2 0 0 * (q.m_x.view (q.m_x.offset [e])).at2 2 0 0 +
      (q.m_dNxi.view (q.m_dNxi.offset [k])).at2 2 1 0 * (q.m_x.view (q.m_x.offset [e])).at2 2 1 0 +
      (q.m_dNxi.view (q.m_dNxi.offset [k])).at2 2 2 0 * (q.m_x.view (q.m_x.offset [e])).at2 2 2 0 +
      (q.m_dNxi.view (q.m_dNxi.offset [k])).at2 2 3 0 * (q.m_x.view (q.m_x.offset [e])).at2 2 3 0 ∧
    (q.jacobian e k).c01 =
      (q.m_dNxi.view (q.m_dNxi.offset [k])).at2 2 0 0 * (q.m_x.view (q.m_x.offset [e])).at2 2 0 1 +
      (q.m_dNxi.view (q.m_dNxi.offset [k])).at2 2 1 0 * (q.m_x.view (q.m_x.offset [e])).at2 2 1 1 +
      (q.m_dNxi.view (q.m_dNxi.offset [k])).at2 2 2 0 * (q.m_x.view (q.m_x.offset [e])).at2 2 2 1 +
      (q.m_dNxi.view (q.m_dNxi.offset [k])).at2 2 3 0 * (q.m_x.view (q.m_x.offset [e])).at2 2 3 1 ∧
    (q.jacobian e k).c10 =
      (q.m_dNxi.view (q.m_dNxi.offset [k])).at2 2 0 1 * (q.m_x.view (q.m_x.offset [e])).at2 2 0 0 +
      (q.m_dNxi.view (q.m_dNxi.offset [k])).at2 2 1 1 * (q.m_x.view (q.m_x.offset [e])).at2 2 1 0 +
      (q.m_dNxi.view (q.m_dNxi.offset [k])).at2 2 2 1 * (q.m_x.view (q.m_x.offset [e])).at2 2 2 0 +
      (q.m_dNxi.view (q.m_dNxi.offset [k])).at2 2 3 1 * (q.m_x.view (q.m_x.offset [e])).at2 2 3 0 ∧
    (q.jacobian e k).c11 =
      (q.m_dNxi.view (q.m_dNxi.offset [k])).at2 2 0 1 * (q.m_x.view (q.m_x.offset [e])).at2 2 0 1 +
      (q.m_dNxi.view (q.m_dNxi.offset [k])).at2 2 1 1 * (q.m_x.view (q.m_x.offset [e])).at2 2 1 1 +
      (q.m_dNxi.view (q.m_dNxi.offset [k])).at2 2 2 1 * (q.m_x.view (q.m_x.offset [e])).at2 2 2 1 +
      (q.m_dNxi.view (q.m_dNxi.offset [k])).at2 2 3 1 * (q.m_x.view (q.m_x.offset [e])).at2 2 3 1 :=
  ⟨rfl, rfl, rfl, rfl⟩

/-- The global gradients of a state of the constructor reproduce the nodal coordinates:
`sum over m of dNx(e,k,m,i) * x(e,m,l)` is one for `i = l` and zero otherwise, wherever
the Jacobian is not singular. -/
theorem Quadrature.init_dNx_dot_x (x xi w : ArrD α) (nip n e k i l : Nat)
    (hx : x.shape = [n, 4, 2]) (he : e < n) (hk : k < nip) (hi : i < 2) (hl : l < 2)
    (hdet : ((Quadrature.init x xi w nip).jacobian e k).det ≠ 0) :
    ((Quadrature.init x xi w nip).m_dNx.view
        ((Quadrature.init x xi w nip).m_dNx.offset [e, k])).at2 2 0 i * x.get3 e 0 l +
      ((Quadrature.init x xi w nip).m_dNx.view
        ((Quadrature.init x xi w nip).m_dNx.offset [e, k])).at2 2 1 i * x.get3 e 1 l +
      ((Quadrature.init x xi w nip).m_dNx.view
        ((Quadrature.init x xi w nip).m_dNx.offset [e, k])).at2 2 2 i * x.get3 e 2 l +
      ((Quadrature.init x xi w nip).m_dNx.view
        ((Quadrature.init x xi w nip).m_dNx.offset [e, k])).at2 2 3 i * x.get3 e 3 l =
      if i = l then 1 else 0 := by
  have hn : x.shape.getD 0 0 = n := by rw [hx]; rfl
  have hv : ∀ m, m < 4 →
      ((Quadrature.init x xi w nip).m_dNx.view
        ((Quadrature.init x xi w nip).m_dNx.offset [e, k])).at2 2 m i =
      (Quadrature.allocate x xi w nip).dNxBlock e k (m * 2 + i) := fun m hm =>
    compute_dN_dNx_view (Quadrature.allocate x xi w nip) rfl e k m i (by rw [← hn] at he; exact he)
      hk hm hi
  have hJ : (Quadrature.init x xi w nip).jacobian e k =
      (Quadrature.allocate x xi w nip).jacobian e k := rfl
  rw [hJ] at hdet
  obtain ⟨i00, i01, i10, i11⟩ := inv_mul_self_of_det_ne_zero _ hdet
  have hxv : ∀ m j, x.get3 e m j =
      ((Quadrature.allocate x xi w nip).m_x.view
        ((Quadrature.allocate x xi w nip).m_x.offset [e])).at2 2 m j := fun m j =>
    (view_at2_eq_get3 x n e m j hx).symm
  obtain ⟨c00, c01, c10, c11⟩ := Quadrature.jacobian_entries (Quadrature.allocate x xi w nip) e k
  rw [hv 0 (by decide), hv 1 (by decide), hv 2 (by decide), hv 3 (by decide)]
  simp only [hxv]
  interval_cases i <;> interval_cases l
  · rw [(dNxBlock_apply _ e k 0 (by decide)).1, (dNxBlock_apply _ e k 1 (by decide)).1,
      (dNxBlock_apply _ e k 2 (by decide)).1, (dNxBlock_apply _ e k 3 (by decide)).1]
    simp only [if_true]
    linear_combination i00 -
      ((Quadrature.allocate x xi w nip).jacobian e k).inv.c00 * c00 -
      ((Quadrature.allocate x xi w nip).jacobian e k).inv.c01 * c10
  · rw [(dNxBlock_apply _ e k 0 (by decide)).1, (dNxBlock_apply _ e k 1 (by decide)).1,
      (dNxBlock_apply _ e k 2 (by decide)).1, (dNxBlock_apply _ e k 3 (by decide)).1]
    simp only [Nat.zero_ne_one, if_false]
    linear_combination i01 -
      ((Quadrature.allocate x xi w nip).jacobian e k).inv.c00 * c01 -
      ((Quadrature.allocate x xi w nip).jacobian e k).inv.c01 * c11
  · rw [(dNxBlock_apply _ e k 0 (by decide)).2, (dNxBlock_apply _ e k 1 (by decide)).2,
      (dNxBlock_apply _ e k 2 (by decide)).2, (dNxBlock_apply _ e k 3 (by decide)).2]
    simp only [Nat.one_ne_zero, if_false]
    linear_combination i10 -
      ((Quadrature.allocate x xi w nip).jacobian e k).inv.c10 * c00 -
      ((Quadrature.allocate x xi w nip).jacobian e k).inv.c11 * c10
  · rw [(dNxBlock_apply _ e k 0 (by decide)).2, (dNxBlock_apply _ e k 1 (by decide)).2,
      (dNxBlock_apply _ e k 2 (by decide)).2, (dNxBlock_apply _ e k 3 (by decide)).2]
    simp only [if_true]
    linear_combination i11 -
      ((Quadrature.allocate x xi w nip).jacobian e k).inv.c10 * c01 -
      ((Quadrature.allocate x xi w nip).jacobian e k).inv.c11 * c11

end Element.Quad4

namespace Element.Quad4

variable {α : Type} [LinearOrderedField α]

/-- Gradient of an affine field for a state of the constructor. -/
theorem Quadrature.init_gradN_affine (x xi w u : ArrD α) (nip n nu e k : Nat)
    (A : Nat → Nat → α) (b : Nat → α) (hx : x.shape = [n, 4, 2])
    (hus : u.shape = [nu, 4, 2]) (he : e < n) (hk : k < nip)
    (hdet : ((Quadrature.init x xi w nip).jacobian e k).det ≠ 0)
    (hu : ∀ m, m < 4 → ∀ j, j < 2 →
      u.get3 e m j = b j + ∑ l ∈ Finset.range 2, A j l * x.get3 e m l)
    (i j : Nat) (hi : i < 2) (hj : j < 2) :
    ((Quadrature.init x xi w nip).gradN_vector TensorStorage.tensor2 u).get3 e k (2 * i + j) =
      A j i := by
  have hn : x.shape.getD 0 0 = n := by rw [hx]; rfl
  have he2 : e < x.shape.getD 0 0 := by rw [hn]; exact he
  have hr : 2 * i + j < TensorStorage.tensor2.Size := by
    have : TensorStorage.tensor2.Size = 4 := rfl
    omega
  rw [Quadrature.gradN_vector_read _ _ u e k _ he2 hk hr,
    Quadrature.graduLocal_tensor2 _ u e k i j hi hj]
  simp only [view_at2_eq_get3 u nu e _ j hus]
  have hs := Quadrature.init_dNx_colsum x xi w nip e k i he2 hk hi
  have d0 := Quadrature.init_dNx_dot_x x xi w nip n e k i 0 hx he hk hi (by decide) hdet
  have d1 := Quadrature.init_dNx_dot_x x xi w nip n e k i 1 hx he hk hi (by decide) hdet
  rw [hu 0 (by decide) j hj, hu 1 (by decide) j hj, hu 2 (by decide) j hj,
    hu 3 (by decide) j hj]
  simp only [Finset.sum_range_succ, Finset.sum_range_zero, zero_add]
  interval_cases i
  · simp only [if_true, Nat.zero_ne_one, if_false] at d0 d1
    linear_combination b j * hs + A j 0 * d0 + A j 1 * d1
  · simp only [if_true, Nat.one_ne_zero, if_false] at d0 d1
    linear_combination b j * hs + A j 0 * d0 + A j 1 * d1

/-- C31: patch test of the planar element.  For a state `q` returned by the
constructor (any scheme), an element `e` and an integration point `k` with
`det J(e,k) ≠ 0`, every matrix `A` and vector `b`: if the element vector is the affine
field `u(e,m,j) = b(j) + sum over l of A(j,l) * x(e,m,l)` at the four nodes, then
`gradN_vector(u)(e,k,i,j) = A(j,i)` (full storage, component `2*i + j`); and
`gradN_vector` applied to the nodal coordinates is the identity tensor. -/
theorem Quadrature.affine_patch_test (sqrt3 : α) (x xi w u : ArrD α) (q : Quadrature α)
    (n nu e k : Nat) (A : Nat → Nat → α) (b : Nat → α)
    (hq : Quadrature.new sqrt3 x xi w = .ok q) (hx : x.shape = [n, 4, 2])
    (hus : u.shape = [nu, 4, 2]) (he : e < n) (hk : k < q.m_nip)
    (hdet : (q.jacobian e k).det ≠ 0)
    (hu : ∀ m, m < 4 → ∀ j, j < 2 →
      u.get3 e m j = b j + ∑ l ∈ Finset.range 2, A j l * x.get3 e m l) :
    (∀ i j, i < 2 → j < 2 →
      (q.gradN_vector TensorStorage.tensor2 u).get3 e k (2 * i + j) = A j i) ∧
    (∀ i j, i < 2 → j < 2 →
      (q.gradN_vector TensorStorage.tensor2 x).get3 e k (2 * i + j) =
        if i = j then 1 else 0) := by
  have hid : ∀ m, m < 4 → ∀ j, j < 2 →
      x.get3 e m j =
        (fun _ => (0 : α)) j +
          ∑ l ∈ Finset.range 2, (fun a c => if c = a then (1 : α) else 0) j l * x.get3 e m l := by
    intro m _ j hj
    interval_cases j <;> simp [Finset.sum_range_succ]
  rcases Quadrature.new_eq_ok sqrt3 x xi w q hq with ⟨_, _, rfl⟩ | ⟨_, _, rfl⟩
  · exact ⟨fun i j hi hj => Quadrature.init_gradN_affine x _ _ u _ n nu e k A b hx hus he hk
        hdet hu i j hi hj,
      fun i j hi hj => Quadrature.init_gradN_affine x _ _ x _ n n e k _ _ hx hx he hk
        hdet hid i j hi hj⟩
  · exact ⟨fun i j hi hj => Quadrature.init_gradN_affine x _ _ u _ n nu e k A b hx hus he hk
        hdet hu i j hi hj,
      fun i j hi hj => Quadrature.init_gradN_affine x _ _ x _ n n e k _ _ hx hx he hk
        hdet hid i j hi hj⟩

/-- Witness for `affine_patch_test`: the unit square with the nodal scheme and the field
`u = (x, 2 y)`, that is `A = [[1, 0], [0, 2]]` and `b = 0`, at element 0 and point 0. -/
theorem Quadrature.affine_patch_test_witness :
    Quadrature.new 2 Examples.squareCCW Nodal.xi Nodal.w = .ok Examples.quadCCW ∧
    (Examples.quadCCW.jacobian 0 0).det ≠ 0 ∧
    (∀ m, m < 4 → ∀ j, j < 2 →
      Examples.uField.get3 0 m j =
        (fun _ => (0 : ℚ)) j +
          ∑ l ∈ Finset.range 2,
            (fun a c => if a = c then (if a = 0 then (1 : ℚ) else 2) else 0) j l *
              Examples.squareCCW.get3 0 m l) ∧
    (∀ i j, i < 2 → j < 2 →
      (Examples.quadCCW.gradN_vector TensorStorage.tensor2 Examples.uField).get3 0 0
          (2 * i + j) =
        (fun a c => if a = c then (if a = 0 then (1 : ℚ) else 2) else 0) j i) ∧
    (∀ i j, i < 2 → j < 2 →
      (Examples.quadCCW.gradN_vector TensorStorage.tensor2 Examples.squareCCW).get3 0 0
          (2 * i + j) =
        if i = j then 1 else 0) :=
  ⟨rfl, by decide!, by decide!,
    @Quadrature.affine_patch_test ℚ _ 2 Examples.squareCCW Nodal.xi Nodal.w Examples.uField
      Examples.quadCCW 1 1 0 0
      (fun a c => if a = c then (if a = 0 then (1 : ℚ) else 2) else 0) (fun _ => 0)
      rfl rfl rfl (by decide) (by decide) (by decide!) (by decide!)⟩

end Element.Quad4

namespace Element.Quad4

variable {α : Type} [LinearOrderedField α]

end Element.Quad4

namespace Element.Quad4

variable {α : Type} [LinearOrderedField α]

end Element.Quad4

namespace Element.Quad4

variable {α : Type} [LinearOrderedField α]

/-- The shape function values written by the constructor sum to one at every
integration point of every scheme. -/
theorem Quadrature.init_N_partition (x xi w : ArrD α) (nip k : Nat) (hk : k < nip) :
    (∀ n, n < 4 →
      (Quadrature.init x xi w nip).m_N.view ((Quadrature.init x xi w nip).m_N.offset [k]) n =
        (Quadrature.init x xi w nip).m_N.get2 k n) ∧
    (Quadrature.init x xi w nip).m_N.get2 k 0 + (Quadrature.init x xi w nip).m_N.get2 k 1 +
      (Quadrature.init x xi w nip).m_N.get2 k 2 + (Quadrature.init x xi w nip).m_N.get2 k 3 =
      1 := by
  have hN : (Quadrature.init x xi w nip).m_N.shape = [nip, 4] := rfl
  have h1 : (Quadrature.init x xi w nip).m_N.offset [k] = k * 4 := by
    simp [ArrD.offset, ArrD.strides, hN]
  have hr : ∀ n, n < 4 → (Quadrature.init x xi w nip).m_N.get2 k n =
      ([1 / 4 * (1 - xi.get2 k 0) * (1 - xi.get2 k 1),
        1 / 4 * (1 + xi.get2 k 0) * (1 - xi.get2 k 1),
        1 / 4 * (1 + xi.get2 k 0) * (1 + xi.get2 k 1),
        1 / 4 * (1 - xi.get2 k 0) * (1 + xi.get2 k 1)] : List α).getD n 0 := by
    intro n hn
    simp only [ArrD.get2, ArrD.read, ArrD.offset2_of_shape hN]
    exact Quadrature.allocate_N_read x xi w nip k n hk hn
  refine ⟨fun n _ => ?_, ?_⟩
  · simp only [ArrD.view, ArrD.get2, ArrD.offset2_of_shape hN, h1]
  · rw [hr 0 (by decide), hr 1 (by decide), hr 2 (by decide), hr 3 (by decide)]
    simp only [List.getD_cons_zero, List.getD_cons_succ]
    ring

/-- Row sums and block sums of the element mass matrix for a state of the
constructor. -/
theorem Quadrature.init_mass_row_sum (x xi w s : ArrD α) (nip e c : Nat)
    (he : e < x.shape.getD 0 0) (hc : c < 2) :
    (∀ m, m < 4 →
      ∑ n ∈ Finset.range 4,
        ((Quadrature.init x xi w nip).int_N_scalar_NT_dV s).get3 e (2 * m + c) (2 * n + c) =
      ∑ k ∈ Finset.range nip,
        (Quadrature.init x xi w nip).m_N.get2 k m * s.get2 e k *
          (Quadrature.init x xi w nip).m_vol.get2 e k) ∧
    ∑ k ∈ Finset.range nip,
        ((Quadrature.init x xi w nip).m_N.get2 k 0 * s.get2 e k *
            (Quadrature.init x xi w nip).m_vol.get2 e k +
          (Quadrature.init x xi w nip).m_N.get2 k 1 * s.get2 e k *
            (Quadrature.init x xi w nip).m_vol.get2 e k +
          (Quadrature.init x xi w nip).m_N.get2 k 2 * s.get2 e k *
            (Quadrature.init x xi w nip).m_vol.get2 e k +
          (Quadrature.init x xi w nip).m_N.get2 k 3 * s.get2 e k *
            (Quadrature.init x xi w nip).m_vol.get2 e k) =
      ∑ k ∈ Finset.range nip, s.get2 e k * (Quadrature.init x xi w nip).m_vol.get2 e k := by
  have hnip : (Quadrature.init x xi w nip).m_nip = nip := rfl
  refine ⟨fun m hm => ?_, ?_⟩
  · simp only [Finset.sum_range_succ, Finset.sum_range_zero, zero_add]
    rw [Quadrature.int_N_scalar_NT_dV_get3 _ s e _ _ he (by omega) (by omega),
      Quadrature.int_N_scalar_NT_dV_get3 _ s e _ _ he (by omega) (by omega),
      Quadrature.int_N_scalar_NT_dV_get3 _ s e _ _ he (by omega) (by omega),
      Quadrature.int_N_scalar_NT_dV_get3 _ s e _ _ he (by omega) (by omega),
      Quadrature.massBlock_apply _ s e m 0 c c hm (by decide) hc hc,
      Quadrature.massBlock_apply _ s e m 1 c c hm (by decide) hc hc,
      Quadrature.massBlock_apply _ s e m 2 c c hm (by decide) hc hc,
      Quadrature.massBlock_apply _ s e m 3 c c hm (by decide) hc hc,
      ← Finset.sum_add_distrib, ← Finset.sum_add_distrib, ← Finset.sum_add_distrib, hnip]
    refine Finset.sum_congr rfl (fun k hk => ?_)
    obtain ⟨hv, hp⟩ := Quadrature.init_N_partition x xi w nip k (Finset.mem_range.mp hk)
    simp only [if_true, hv 0 (by decide), hv 1 (by decide), hv 2 (by decide),
      hv 3 (by decide), hv m hm]
    linear_combination
      (Quadrature.init x xi w nip).m_N.get2 k m * s.get2 e k *
        (Quadrature.init x xi w nip).m_vol.get2 e k * hp
  · refine Finset.sum_congr rfl (fun k hk => ?_)
    obtain ⟨_, hp⟩ := Quadrature.init_N_partition x xi w nip k (Finset.mem_range.mp hk)
    linear_combination
      s.get2 e k * (Quadrature.init x xi w nip).m_vol.get2 e k * hp

/-- C35: mass conservation under row-sum lumping.  For a state `q` returned by the
constructor (every scheme `xi`, `w`) and every scalar field `s`: the shape functions sum
to one at every integration point; for every element `e`, node `m` and component `c`
the row sum of `M = int_N_scalar_NT_dV(s)` is
`sum over n of M(e, 2m+c, 2n+c) = sum over k of N(k,m) * s(e,k) * vol(e,k)`; and the sum
of all entries of the component-`c` block is `sum over k of s(e,k) * vol(e,k)`. -/
theorem Quadrature.mass_row_sum_lumping (sqrt3 : α) (x xi w s : ArrD α) (q : Quadrature α)
    (hq : Quadrature.new sqrt3 x xi w = .ok q) :
    (∀ k, k < q.m_nip → ∑ n ∈ Finset.range 4, q.m_N.get2 k n = 1) ∧
    (∀ e m c, e < q.m_nelem → m < 4 → c < 2 →
      ∑ n ∈ Finset.range 4, (q.int_N_scalar_NT_dV s).get3 e (2 * m + c) (2 * n + c) =
        ∑ k ∈ Finset.range q.m_nip, q.m_N.get2 k m * s.get2 e k * q.m_vol.get2 e k) ∧
    (∀ e c, e < q.m_nelem → c < 2 →
      ∑ m ∈ Finset.range 4, ∑ n ∈ Finset.range 4,
          (q.int_N_scalar_NT_dV s).get3 e (2 * m + c) (2 * n + c) =
        ∑ k ∈ Finset.range q.m_nip, s.get2 e k * q.m_vol.get2 e k) := by
  have key : ∀ (xi0 w0 : ArrD α) (nip : Nat), q = Quadrature.init x xi0 w0 nip →
      (∀ k, k < q.m_nip → ∑ n ∈ Finset.range 4, q.m_N.get2 k n = 1) ∧
      (∀ e m c, e < q.m_nelem → m < 4 → c < 2 →
        ∑ n ∈ Finset.range 4, (q.int_N_scalar_NT_dV s).get3 e (2 * m + c) (2 * n + c) =
          ∑ k ∈ Finset.range q.m_nip, q.m_N.get2 k m * s.get2 e k * q.m_vol.get2 e k) ∧
      (∀ e c, e < q.m_nelem → c < 2 →
        ∑ m ∈ Finset.range 4, ∑ n ∈ Finset.range 4,
            (q.int_N_scalar_NT_dV s).get3 e (2 * m + c) (2 * n + c) =
          ∑ k ∈ Finset.range q.m_nip, s.get2 e k * q.m_vol.get2 e k) := by
    intro xi0 w0 nip hq0
    subst hq0
    refine ⟨fun k hk => ?_, fun e m c he hm hc => ?_, fun e c he hc => ?_⟩
    · simp only [Finset.sum_range_succ, Finset.sum_range_zero, zero_add]
      exact (Quadrature.init_N_partition x xi0 w0 nip k hk).2
    · exact (Quadrature.init_mass_row_sum x xi0 w0 s nip e c he hc).1 m hm
    · obtain ⟨hrow, hblock⟩ := Quadrature.init_mass_row_sum x xi0 w0 s nip e c he hc
      rw [Finset.sum_congr rfl (fun m hm => hrow m (Finset.mem_range.mp hm))]
      simp only [Finset.sum_range_succ (fun m => ∑ k ∈ Finset.range nip, _),
        Finset.sum_range_zero, zero_add]
      rw [← Finset.sum_add_distrib, ← Finset.sum_add_distrib, ← Finset.sum_add_distrib]
      exact hblock
  rcases Quadrature.new_eq_ok sqrt3 x xi w q hq with ⟨_, _, h⟩ | ⟨_, _, h⟩
  · exact key _ _ _ h
  · exact key _ _ _ h

/-- Witness for `mass_row_sum_lumping`: the unit square with the default (Gauss) scheme
for the value 2 of the square root, and the scalar field that is one at every point. -/
theorem Quadrature.mass_row_sum_lumping_witness :
    Quadrature.new 2 Examples.squareCCW (Examples.emptyArr ℚ) (Examples.emptyArr ℚ) =
      .ok Examples.quadGauss ∧
    (∀ k, k < Examples.quadGauss.m_nip →
      ∑ n ∈ Finset.range 4, Examples.quadGauss.m_N.get2 k n = 1) ∧
    (∀ e m c, e < Examples.quadGauss.m_nelem → m < 4 → c < 2 →
      ∑ n ∈ Finset.range 4,
          (Examples.quadGauss.int_N_scalar_NT_dV Examples.rhoField).get3 e (2 * m + c)
            (2 * n + c) =
        ∑ k ∈ Finset.range Examples.quadGauss.m_nip,
          Examples.quadGauss.m_N.get2 k m * Examples.rhoField.get2 e k *
            Examples.quadGauss.m_vol.get2 e k) ∧
    (∀ e c, e < Examples.quadGauss.m_nelem → c < 2 →
      ∑ m ∈ Finset.range 4, ∑ n ∈ Finset.range 4,
          (Examples.quadGauss.int_N_scalar_NT_dV Examples.rhoField).get3 e (2 * m + c)
            (2 * n + c) =
        ∑ k ∈ Finset.range Examples.quadGauss.m_nip,
          Examples.rhoField.get2 e k * Examples.quadGauss.m_vol.get2 e k) :=
  ⟨rfl,
    @Quadrature.mass_row_sum_lumping ℚ _ 2 Examples.squareCCW (Examples.emptyArr ℚ)
      (Examples.emptyArr ℚ) Examples.rhoField Examples.quadGauss rfl⟩

end Element.Quad4

namespace Element.Quad4

variable {α : Type} [LinearOrderedField α]

/-- The volumes of a state of the constructor with four unit-weight points at
`(-g,-g)`, `(g,-g)`, `(g,g)`, `(-g,g)` sum to the signed shoelace area. -/
theorem Quadrature.init_volume_sum (x xi w : ArrD α) (g : α) (n e : Nat)
    (hx : x.shape = [n, 4, 2]) (he : e < n)
    (hw : ∀ k, k < 4 → w.get1 k = 1)
    (hxi : ∀ k, k < 4 →
      xi.get2 k 0 = ([-g, g, g, -g] : List α).getD k 0 ∧
      xi.get2 k 1 = ([-g, -g, g, g] : List α).getD k 0) :
    ∑ k ∈ Finset.range 4, ((Quadrature.init x xi w 4).dV 0).get2 e k =
      ((x.get3 e 2 0 - x.get3 e 0 0) * (x.get3 e 3 1 - x.get3 e 1 1) -
        (x.get3 e 3 0 - x.get3 e 1 0) * (x.get3 e 2 1 - x.get3 e 0 1)) / 2 := by
  have hn : x.shape.getD 0 0 = n := by rw [hx]; rfl
  have he2 : e < (Quadrature.allocate x xi w 4).m_nelem := by
    show e < x.shape.getD 0 0
    rw [hn]; exact he
  have hv : ∀ k, k < 4 → ((Quadrature.init x xi w 4).dV 0).get2 e k =
      w.get1 k * ((Quadrature.allocate x xi w 4).jacobian e k).det := fun k hk =>
    Quadrature.compute_dN_vol_get2 (Quadrature.allocate x xi w 4) rfl e k he2 hk
  simp only [Finset.sum_range_succ, Finset.sum_range_zero, zero_add]
  rw [hv 0 (by decide), hv 1 (by decide), hv 2 (by decide), hv 3 (by decide),
    hw 0 (by decide), hw 1 (by decide), hw 2 (by decide), hw 3 (by decide),
    Quadrature.allocate_jacobian x xi w 4 n e 0 hx (by decide),
    Quadrature.allocate_jacobian x xi w 4 n e 1 hx (by decide),
    Quadrature.allocate_jacobian x xi w 4 n e 2 hx (by decide),
    Quadrature.allocate_jacobian x xi w 4 n e 3 hx (by decide),
    (hxi 0 (by decide)).1, (hxi 0 (by decide)).2, (hxi 1 (by decide)).1,
    (hxi 1 (by decide)).2, (hxi 2 (by decide)).1, (hxi 2 (by decide)).2,
    (hxi 3 (by decide)).1, (hxi 3 (by decide)).2]
  simp only [Tensor2.det, List.getD_cons_zero, List.getD_cons_succ]
  ring

end Element.Quad4

namespace Element.Quad4

variable {α : Type} [LinearOrderedField α]

/-- C33: with either built-in scheme of the planar class (the Gauss scheme, chosen by
default when `xi` and `w` are empty or given explicitly, or the nodal scheme) the state
returned by the constructor has four integration points and, for every element `e`
with nodes `(x0,y0)..(x3,y3)` of whatever geometry, the volumes `dV(e,k)` sum to the
signed shoelace area `((x2-x0)*(y3-y1) - (x3-x1)*(y2-y0)) / 2`, exactly. -/
theorem Quadrature.volume_sum_shoelace (sqrt3 : α) (x xi w : ArrD α) (q : Quadrature α)
    (n e : Nat) (hq : Quadrature.new sqrt3 x xi w = .ok q) (hx : x.shape = [n, 4, 2])
    (he : e < n)
    (hs : (w.size = 0 ∧ xi.size = 0) ∨ (xi = Gauss.xi sqrt3 ∧ w = Gauss.w) ∨
      (xi = Nodal.xi ∧ w = Nodal.w)) :
    q.m_nip = 4 ∧
    ∑ k ∈ Finset.range q.m_nip, (q.dV 0).get2 e k =
      ((x.get3 e 2 0 - x.get3 e 0 0) * (x.get3 e 3 1 - x.get3 e 1 1) -
        (x.get3 e 3 0 - x.get3 e 1 0) * (x.get3 e 2 1 - x.get3 e 0 1)) / 2 := by
  have hG : q = Quadrature.init x (Gauss.xi sqrt3) Gauss.w 4 →
      q.m_nip = 4 ∧
      ∑ k ∈ Finset.range q.m_nip, (q.dV 0).get2 e k =
        ((x.get3 e 2 0 - x.get3 e 0 0) * (x.get3 e 3 1 - x.get3 e 1 1) -
          (x.get3 e 3 0 - x.get3 e 1 0) * (x.get3 e 2 1 - x.get3 e 0 1)) / 2 := by
    intro h
    subst h
    exact ⟨rfl, Quadrature.init_volume_sum x (Gauss.xi sqrt3) Gauss.w (1 / sqrt3) n e hx he
      (fun k hk => Gauss.w_get1 k hk) (fun k hk => Gauss.gauss_xi_get2 sqrt3 k hk)⟩
  have hN : q = Quadrature.init x Nodal.xi Nodal.w 4 →
      q.m_nip = 4 ∧
      ∑ k ∈ Finset.range q.m_nip, (q.dV 0).get2 e k =
        ((x.get3 e 2 0 - x.get3 e 0 0) * (x.get3 e 3 1 - x.get3 e 1 1) -
          (x.get3 e 3 0 - x.get3 e 1 0) * (x.get3 e 2 1 - x.get3 e 0 1)) / 2 := by
    intro h
    subst h
    exact ⟨rfl, Quadrature.init_volume_sum x Nodal.xi Nodal.w 1 n e hx he
      (fun k hk => Gauss.w_get1 k hk) (fun k hk => Nodal.nodal_xi_get2 k hk)⟩
  have hsize : (Gauss.w : ArrD α).size ≠ 0 := by simp [Gauss.w, ArrD.size]
  rcases hs with ⟨hw0, _⟩ | ⟨rfl, rfl⟩ | ⟨rfl, rfl⟩
  · rcases Quadrature.new_eq_ok sqrt3 x xi w q hq with ⟨_, _, h⟩ | ⟨hpos, _, _⟩
    · exact hG h
    · omega
  · rcases Quadrature.new_eq_ok sqrt3 x _ _ q hq with ⟨h0, _, _⟩ | ⟨_, _, h⟩
    · exact absurd h0 hsize
    · exact hG h
  · rcases Quadrature.new_eq_ok sqrt3 x _ _ q hq with ⟨h0, _, _⟩ | ⟨_, _, h⟩
    · exact absurd h0 hsize
    · exact hN h

/-- Witness for `volume_sum_shoelace`: the trapezoid with nodes `(0,0)`, `(2,0)`,
`(1,1)`, `(0,1)` and the nodal scheme; the four volumes sum to its area `3/2`. -/
theorem Quadrature.volume_sum_shoelace_witness :
    Quadrature.new 2 Examples.trapezoid Nodal.xi Nodal.w =
      .ok (Quadrature.init Examples.trapezoid Nodal.xi Nodal.w Nodal.nip) ∧
    ((Quadrature.init Examples.trapezoid Nodal.xi Nodal.w Nodal.nip).m_nip = 4 ∧
    ∑ k ∈ Finset.range (Quadrature.init Examples.trapezoid Nodal.xi Nodal.w Nodal.nip).m_nip,
        ((Quadrature.init Examples.trapezoid Nodal.xi Nodal.w Nodal.nip).dV 0).get2 0 k =
      ((Examples.trapezoid.get3 0 2 0 - Examples.trapezoid.get3 0 0 0) *
          (Examples.trapezoid.get3 0 3 1 - Examples.trapezoid.get3 0 1 1) -
        (Examples.trapezoid.get3 0 3 0 - Examples.trapezoid.get3 0 1 0) *
          (Examples.trapezoid.get3 0 2 1 - Examples.trapezoid.get3 0 0 1)) / 2) ∧
    ((Examples.trapezoid.get3 0 2 0 - Examples.trapezoid.get3 0 0 0) *
          (Examples.trapezoid.get3 0 3 1 - Examples.trapezoid.get3 0 1 1) -
        (Examples.trapezoid.get3 0 3 0 - Examples.trapezoid.get3 0 1 0) *
          (Examples.trapezoid.get3 0 2 1 - Examples.trapezoid.get3 0 0 1)) / 2 = 3 / 2 :=
  ⟨rfl,
    @Quadrature.volume_sum_shoelace ℚ _ 2 Examples.trapezoid Nodal.xi Nodal.w _ 1 0 rfl rfl
      (by decide) (Or.inr (Or.inr ⟨rfl, rfl⟩)),
    by decide!⟩

end Element.Quad4

namespace Element.Quad4

variable {α : Type} [LinearOrderedField α]

/-- Blocks that agree on every index of the range give the same concatenation. -/
theorem flatMap_range_congr {β : Type} (n : Nat) (f g : Nat → List β)
    (h : ∀ e, e < n → f e = g e) :
    (List.range n).flatMap f = (List.range n).flatMap g := by
  induction n with
  | zero => rfl
  | succ n ih =>
    rw [List.range_succ, List.flatMap_append, List.flatMap_append,
      ih (fun e he => h e (Nat.lt_succ_of_lt he))]
    simp [h n (Nat.lt_succ_self n)]

/-- C36: symmetric and full tensor storage agree.  For every state `q`, every
three-component field `sym = [s00, s01, s11]` and the four-component field
`full = [s00, s01, s01, s11]` of the same values on the elements and points of `q`:
`int_gradN_dot_tensor2s_dV(sym)`, and `int_gradN_dot_tensor2_dV(sym)` through the
overload that selects the storage from the number of components, return the array that
`int_gradN_dot_tensor2_dV` returns for `full`. -/
theorem Quadrature.sym_full_storage_agree (q : Quadrature α) (sym full : ArrD α)
    (n0 n1 m0 m1 : Nat) (h3 : sym.shape = [n0, n1, 3]) (h4 : full.shape = [m0, m1, 4])
    (hf : ∀ e, e < q.m_nelem → ∀ k, k < q.m_nip →
      full.get3 e k 0 = sym.get3 e k 0 ∧ full.get3 e k 1 = sym.get3 e k 1 ∧
      full.get3 e k 2 = sym.get3 e k 1 ∧ full.get3 e k 3 = sym.get3 e k 2) :
    q.int_gradN_dot_tensor2s_dV sym = q.int_gradN_dot_tensor2_dV TensorStorage.tensor2 full ∧
    q.int_gradN_dot_tensor2_dV_auto sym =
      .ok (q.int_gradN_dot_tensor2_dV TensorStorage.tensor2 full) ∧
    q.int_gradN_dot_tensor2_dV_auto full =
      .ok (q.int_gradN_dot_tensor2_dV TensorStorage.tensor2 full) := by
  have hblock : ∀ e, e < q.m_nelem →
      q.forceBlock TensorStorage.tensor2s sym e = q.forceBlock TensorStorage.tensor2 full e := by
    intro e he
    unfold Quadrature.forceBlock
    refine List.foldl_ext _ _ _ (fun f k hk => ?_)
    obtain ⟨f0, f1, f2, f3⟩ := hf e he k (List.mem_range.mp hk)
    have hl : ∀ i j, i < 2 → j < 2 →
        Quadrature.loadTensor TensorStorage.tensor2s sym e k i j =
          Quadrature.loadTensor TensorStorage.tensor2 full e k i j := by
      intro i j hi hj
      rw [Quadrature.loadTensor_get3 _ sym _ _ _ e k i j h3,
        Quadrature.loadTensor_get3 _ full _ _ _ e k i j h4]
      interval_cases i <;> interval_cases j <;>
        simp [TensorStorage.idx, f0, f1, f2, f3]
    simp only [hl 0 0 (by decide) (by decide), hl 0 1 (by decide) (by decide),
      hl 1 0 (by decide) (by decide), hl 1 1 (by decide) (by decide)]
  have hmain : q.int_gradN_dot_tensor2_dV TensorStorage.tensor2s sym =
      q.int_gradN_dot_tensor2_dV TensorStorage.tensor2 full := by
    simp only [Quadrature.int_gradN_dot_tensor2_dV]
    rw [flatMap_range_congr q.m_nelem _ _ (fun e he => by rw [hblock e he])]
  refine ⟨hmain, ?_, ?_⟩
  · simp only [Quadrature.int_gradN_dot_tensor2_dV_auto, h3]
    simp [hmain]
  · simp only [Quadrature.int_gradN_dot_tensor2_dV_auto, h4]
    simp

/-- Witness for `sym_full_storage_agree`: the unit square with the nodal scheme and a
symmetric field with different values at the four points. -/
theorem Quadrature.sym_full_storage_agree_witness :
    (∀ e, e < Examples.quadCCW.m_nelem → ∀ k, k < Examples.quadCCW.m_nip →
      Examples.sigmaSymFull.get3 e k 0 = Examples.sigmaSym.get3 e k 0 ∧
      Examples.sigmaSymFull.get3 e k 1 = Examples.sigmaSym.get3 e k 1 ∧
      Examples.sigmaSymFull.get3 e k 2 = Examples.sigmaSym.get3 e k 1 ∧
      Examples.sigmaSymFull.get3 e k 3 = Examples.sigmaSym.get3 e k 2) ∧
    (Examples.quadCCW.int_gradN_dot_tensor2s_dV Examples.sigmaSym =
      Examples.quadCCW.int_gradN_dot_tensor2_dV TensorStorage.tensor2
        Examples.sigmaSymFull ∧
    Examples.quadCCW.int_gradN_dot_tensor2_dV_auto Examples.sigmaSym =
      .ok (Examples.quadCCW.int_gradN_dot_tensor2_dV TensorStorage.tensor2
        Examples.sigmaSymFull) ∧
    Examples.quadCCW.int_gradN_dot_tensor2_dV_auto Examples.sigmaSymFull =
      .ok (Examples.quadCCW.int_gradN_dot_tensor2_dV TensorStorage.tensor2
        Examples.sigmaSymFull)) :=
  ⟨by decide!,
    @Quadrature.sym_full_storage_agree ℚ _ Examples.quadCCW Examples.sigmaSym
      Examples.sigmaSymFull 1 4 1 4 rfl rfl (by decide!)⟩

end Element.Quad4

namespace Element.Quad4

variable {α : Type} [LinearOrderedField α]

/-- With the major symmetry of `C`, the terms of `stiffStep` that go to the entry
`K(2m+r, 2n+s)` are those that go to `K(2n+s, 2m+r)`. -/
theorem QuadratureAxisymmetric.stiffEntry_symm (B C : Nat → Nat → Nat → Nat → α) (vol : α)
    (r s m n : Nat) (hr : r < 2) (hs : s < 2)
    (hC : ∀ a, a < 3 → ∀ b, b < 3 → ∀ d, d < 3 → ∀ g, g < 3 → C a b d g = C g d b a) :
    QuadratureAxisymmetric.stiffEntry B C vol r s m n =
      QuadratureAxisymmetric.stiffEntry B C vol s r n m := by
  have c1 := hC 1 (by decide) 1 (by decide) 0 (by decide) 0 (by decide)
  have c2 := hC 2 (by decide) 0 (by decide) 0 (by decide) 0 (by decide)
  have c3 := hC 2 (by decide) 0 (by decide) 1 (by decide) 1 (by decide)
  have c4 := hC 2 (by decide) 2 (by decide) 0 (by decide) 0 (by decide)
  have c5 := hC 0 (by decide) 2 (by decide) 0 (by decide) 0 (by decide)
  have c6 := hC 2 (by decide) 2 (by decide) 1 (by decide) 1 (by decide)
  have c7 := hC 0 (by decide) 2 (by decide) 1 (by decide) 1 (by decide)
  have c8 := hC 2 (by decide) 2 (by decide) 0 (by decide) 2 (by decide)
  have c9 := hC 0 (by decide) 2 (by decide) 0 (by decide) 2 (by decide)
  have c10 := hC 0 (by decide) 2 (by decide) 2 (by decide) 2 (by decide)
  interval_cases r <;> interval_cases s <;>
    simp only [QuadratureAxisymmetric.stiffEntry, c1, c2, c3, c4, c5, c6, c7, c8, c9, c10] <;>
    norm_num <;> ring

/-- C37: for every state `q` of the axisymmetric class, every element `e` and every
4th-order field `C` of shape `(n0, n1, 3, 3, 3, 3)` with the major symmetry
`C(e,k,a,b,d,g) = C(e,k,g,d,b,a)` at the integration points of `e`, the element matrix
of `int_gradN_dot_tensor4_dot_gradNT_dV` is symmetric: `K(e,i,j) = K(e,j,i)` for all
`i, j` in `0..7`. -/
theorem QuadratureAxisymmetric.stiffness_symmetric (q : QuadratureAxisymmetric α)
    (C : ArrD α) (n0 n1 e : Nat) (hC : C.shape = [n0, n1, 3, 3, 3, 3]) (he : e < q.m_nelem)
    (hsym : ∀ k, k < q.m_nip → ∀ a, a < 3 → ∀ b, b < 3 → ∀ d, d < 3 → ∀ g, g < 3 →
      C.get6 e k a b d g = C.get6 e k g d b a) :
    ∀ i j, i < 8 → j < 8 →
      (q.int_gradN_dot_tensor4_dot_gradNT_dV C).get3 e i j =
        (q.int_gradN_dot_tensor4_dot_gradNT_dV C).get3 e j i := by
  intro i j hi hj
  have hi2 : i = 2 * (i / 2) + i % 2 := by omega
  have hj2 : j = 2 * (j / 2) + j % 2 := by omega
  rw [QuadratureAxisymmetric.stiff_get3 q C e i j he hi hj,
    QuadratureAxisymmetric.stiff_get3 q C e j i he hj hi]
  rw [hi2, hj2,
    QuadratureAxisymmetric.stiffBlock_apply q C e (i / 2) (j / 2) (i % 2) (j % 2) (by omega)
      (by omega) (by omega) (by omega),
    QuadratureAxisymmetric.stiffBlock_apply q C e (j / 2) (i / 2) (j % 2) (i % 2) (by omega)
      (by omega) (by omega) (by omega)]
  refine Finset.sum_congr rfl (fun k hk => ?_)
  refine QuadratureAxisymmetric.stiffEntry_symm _ _ _ _ _ _ _ (by omega) (by omega)
    (fun a ha b hb d hd g hg => ?_)
  rw [QuadratureAxisymmetric.C_view_eq_get6 C _ _ hC,
    QuadratureAxisymmetric.C_view_eq_get6 C _ _ hC]
  exact hsym k (Finset.mem_range.mp hk) a ha b hb d hd g hg

/-- Witness for `stiffness_symmetric`: the off-axis unit square with the one-point
scheme and the field `C(a,b,d,g) = 1 + (a + g) + 2 (b + d) + a g`. -/
theorem QuadratureAxisymmetric.stiffness_symmetric_witness :
    (∀ k, k < Examples.axiOnePoint.m_nip → ∀ a, a < 3 → ∀ b, b < 3 → ∀ d, d < 3 →
      ∀ g, g < 3 →
        Examples.tangentSym.get6 0 k a b d g = Examples.tangentSym.get6 0 k g d b a) ∧
    ∀ i j, i < 8 → j < 8 →
      (Examples.axiOnePoint.int_gradN_dot_tensor4_dot_gradNT_dV Examples.tangentSym).get3
          0 i j =
        (Examples.axiOnePoint.int_gradN_dot_tensor4_dot_gradNT_dV Examples.tangentSym).get3
          0 j i :=
  ⟨by decide!,
    @QuadratureAxisymmetric.stiffness_symmetric ℚ _ Examples.axiOnePoint Examples.tangentSym
      1 1 0 rfl (by decide) (by decide!)⟩

end Element.Quad4

namespace Element.Quad4

variable {α : Type} [LinearOrderedField α]

/-- The shape function values written by the constructor of the axisymmetric class,
read through the view that `compute_dN` takes at integration point `k`. -/
theorem QuadratureAxisymmetric.allocate_N_view (x xi w : ArrD α) (k m : Nat)
    (hk : k < w.size) (hm : m < 4) :
    (QuadratureAxisymmetric.allocate x xi w).m_N.view
        ((QuadratureAxisymmetric.allocate x xi w).m_N.offset [k, 0]) m =
      ([1 / 4 * (1 - xi.get2 k 0) * (1 - xi.get2 k 1),
        1 / 4 * (1 + xi.get2 k 0) * (1 - xi.get2 k 1),
        1 / 4 * (1 + xi.get2 k 0) * (1 + xi.get2 k 1),
        1 / 4 * (1 - xi.get2 k 0) * (1 + xi.get2 k 1)] : List α).getD m 0 := by
  have hN : (QuadratureAxisymmetric.allocate x xi w).m_N.shape = [w.size, 4] := rfl
  simp only [ArrD.view, ArrD.read, ArrD.offset2_of_shape hN, Nat.add_zero]
  simp only [QuadratureAxisymmetric.allocate]
  rw [getD_flatMap_range 0 w.size 4 _ (fun _ => by simp) k m hk hm]

/-- The interpolated radius of a state of the constructor, written out in the
integration point and the nodal radii of element `e`. -/
theorem QuadratureAxisymmetric.new_radius (pi : α) (x xi w : ArrD α) (n e k : Nat)
    (hx : x.shape = [n, 4, 2]) (hk : k < w.size) :
    (QuadratureAxisymmetric.new pi x xi w).radius e k =
      1 / 4 * (1 - xi.get2 k 0) * (1 - xi.get2 k 1) * x.get3 e 0 1 +
      1 / 4 * (1 + xi.get2 k 0) * (1 - xi.get2 k 1) * x.get3 e 1 1 +
      1 / 4 * (1 + xi.get2 k 0) * (1 + xi.get2 k 1) * x.get3 e 2 1 +
      1 / 4 * (1 - xi.get2 k 0) * (1 + xi.get2 k 1) * x.get3 e 3 1 := by
  have h0 : (QuadratureAxisymmetric.new pi x xi w).radius e k =
      (QuadratureAxisymmetric.allocate x xi w).radius e k := rfl
  have hxv : ∀ m j, ((QuadratureAxisymmetric.allocate x xi w).m_x.view
      ((QuadratureAxisymmetric.allocate x xi w).m_x.offset [e, 0, 0])).at2 2 m j =
      x.get3 e m j := fun m j => view3_at2_eq_get3 x n e m j hx
  rw [h0]
  simp only [QuadratureAxisymmetric.radius, hxv,
    QuadratureAxisymmetric.allocate_N_view x xi w k 0 hk (by decide),
    QuadratureAxisymmetric.allocate_N_view x xi w k 1 hk (by decide),
    QuadratureAxisymmetric.allocate_N_view x xi w k 2 hk (by decide),
    QuadratureAxisymmetric.allocate_N_view x xi w k 3 hk (by decide),
    List.getD_cons_zero, List.getD_cons_succ]

/-- A bilinear interpolation at a point of the closed reference square is at least
every lower bound of the four nodal values. -/
theorem bilinear_lower_bound (s t r0 r1 r2 r3 rho : α) (hs : |s| ≤ 1) (ht : |t| ≤ 1)
    (h0 : rho ≤ r0) (h1 : rho ≤ r1) (h2 : rho ≤ r2) (h3 : rho ≤ r3) :
    rho ≤ 1 / 4 * (1 - s) * (1 - t) * r0 + 1 / 4 * (1 + s) * (1 - t) * r1 +
      1 / 4 * (1 + s) * (1 + t) * r2 + 1 / 4 * (1 - s) * (1 + t) * r3 := by
  obtain ⟨hs1, hs2⟩ := abs_le.mp hs
  obtain ⟨ht1, ht2⟩ := abs_le.mp ht
  have a0 : 0 ≤ (1 - s) * (1 - t) * (r0 - rho) :=
    mul_nonneg (mul_nonneg (by linarith) (by linarith)) (by linarith)
  have a1 : 0 ≤ (1 + s) * (1 - t) * (r1 - rho) :=
    mul_nonneg (mul_nonneg (by linarith) (by linarith)) (by linarith)
  have a2 : 0 ≤ (1 + s) * (1 + t) * (r2 - rho) :=
    mul_nonneg (mul_nonneg (by linarith) (by linarith)) (by linarith)
  have a3 : 0 ≤ (1 - s) * (1 + t) * (r3 - rho) :=
    mul_nonneg (mul_nonneg (by linarith) (by linarith)) (by linarith)
  nlinarith [a0, a1, a2, a3]

/-- C38: the division by the radius in `compute_dN` of the axisymmetric class is
guarded by the geometry.  For a state of the constructor, an element `e` whose four
nodes have `x(e,m,1) > 0` and an integration point `k` in the closed reference square
(`|xi(k,0)| ≤ 1`, `|xi(k,1)| ≤ 1`), the interpolated radius `r(e,k)` is at least the
smallest nodal radius, hence strictly positive, and the stored hoop term satisfies
`B(e,k,m,1,1,0) * r(e,k) = N(k,m)`. -/
theorem QuadratureAxisymmetric.radius_pos (pi : α) (x xi w : ArrD α) (n e k : Nat)
    (hx : x.shape = [n, 4, 2]) (he : e < n) (hk : k < w.size)
    (hr : ∀ m, m < 4 → 0 < x.get3 e m 1)
    (hs : |xi.get2 k 0| ≤ 1) (ht : |xi.get2 k 1| ≤ 1) :
    min (min (x.get3 e 0 1) (x.get3 e 1 1)) (min (x.get3 e 2 1) (x.get3 e 3 1)) ≤
      (QuadratureAxisymmetric.new pi x xi w).radius e k ∧
    0 < (QuadratureAxisymmetric.new pi x xi w).radius e k ∧
    ∀ m, m < 4 →
      (QuadratureAxisymmetric.new pi x xi w).m_B.get6 e k m 1 1 0 *
          (QuadratureAxisymmetric.new pi x xi w).radius e k =
        (QuadratureAxisymmetric.new pi x xi w).m_N.get2 k m := by
  have hmin : min (min (x.get3 e 0 1) (x.get3 e 1 1)) (min (x.get3 e 2 1) (x.get3 e 3 1)) ≤
      (QuadratureAxisymmetric.new pi x xi w).radius e k := by
    rw [QuadratureAxisymmetric.new_radius pi x xi w n e k hx hk]
    exact bilinear_lower_bound _ _ _ _ _ _ _ hs ht
      ((min_le_left _ _).trans (min_le_left _ _)) ((min_le_left _ _).trans (min_le_right _ _))
      ((min_le_right _ _).trans (min_le_left _ _))
      ((min_le_right _ _).trans (min_le_right _ _))
  have hpos : 0 < (QuadratureAxisymmetric.new pi x xi w).radius e k :=
    lt_of_lt_of_le
      (lt_min (lt_min (hr 0 (by decide)) (hr 1 (by decide)))
        (lt_min (hr 2 (by decide)) (hr 3 (by decide)))) hmin
  refine ⟨hmin, hpos, fun m hm => ?_⟩
  have hn : x.shape.getD 0 0 = n := by rw [hx]; rfl
  have he2 : e < (QuadratureAxisymmetric.allocate x xi w).m_nelem := by
    show e < x.shape.getD 0 0
    rw [hn]; exact he
  have hN : (QuadratureAxisymmetric.new pi x xi w).m_N.shape = [w.size, 4] := rfl
  have hNv : (QuadratureAxisymmetric.allocate x xi w).m_N.view
      ((QuadratureAxisymmetric.allocate x xi w).m_N.offset [k, 0]) m =
      (QuadratureAxisymmetric.new pi x xi w).m_N.get2 k m := by
    simp only [ArrD.view, ArrD.get2, ArrD.offset2_of_shape hN]
    rfl
  have hB : (QuadratureAxisymmetric.new pi x xi w).m_B.get6 e k m 1 1 0 =
      1 / (QuadratureAxisymmetric.new pi x xi w).radius e k *
        (QuadratureAxisymmetric.new pi x xi w).m_N.get2 k m := by
    rw [← hNv]
    refine (QuadratureAxisymmetric.compute_dN_B_get6 pi
      (QuadratureAxisymmetric.allocate x xi w) rfl e k m 1 1 0 he2 hk hm (by decide)
      (by decide) (by decide)).trans ?_
    rw [QuadratureAxisymmetric.BBlock_apply _ e k m 1 1 0 hm (by decide) (by decide)
      (by decide), if_neg (by decide), if_neg (by decide), if_pos (by decide)]
    rfl
  rw [hB]
  field_simp

/-- Witness for `radius_pos`: the off-axis unit square (nodal radii 1, 1, 2, 2) with the
nodal scheme, at element 0 and point 0. -/
theorem QuadratureAxisymmetric.radius_pos_witness :
    (∀ m, m < 4 → 0 < Examples.squareOffAxis.get3 0 m 1) ∧
    |(Nodal.xi : ArrD ℚ).get2 0 0| ≤ 1 ∧ |(Nodal.xi : ArrD ℚ).get2 0 1| ≤ 1 ∧
    (min (min (Examples.squareOffAxis.get3 0 0 1) (Examples.squareOffAxis.get3 0 1 1))
        (min (Examples.squareOffAxis.get3 0 2 1) (Examples.squareOffAxis.get3 0 3 1)) ≤
      Examples.axiCCW.radius 0 0 ∧
    0 < Examples.axiCCW.radius 0 0 ∧
    ∀ m, m < 4 →
      Examples.axiCCW.m_B.get6 0 0 m 1 1 0 * Examples.axiCCW.radius 0 0 =
        Examples.axiCCW.m_N.get2 0 m) :=
  ⟨by decide!, by decide!, by decide!,
    @QuadratureAxisymmetric.radius_pos ℚ _ (22 / 7) Examples.squareOffAxis Nodal.xi Nodal.w
      1 0 0 rfl (by decide) (by decide) (by decide!) (by decide!) (by decide!)⟩

end Element.Quad4

/-! ## Frame of `update_x` -/

namespace Element.Quad4

variable {α : Type} [LinearOrderedField α]

/-- C39: `update_x` changes only geometry-dependent data.  For every state of the planar
and of the axisymmetric class and every array of new coordinates, after `update_x` the
numbers of elements and of integration points, the integration points `xi`, the weights
`w`, the shape function values `N` and the local gradients `dNxi` are the ones from
before.  They depend on the scheme only: the constructors give the same `nip`, `xi`, `w`,
`N` and `dNxi` for any two coordinate arrays `x`, `y` with the same scheme. -/
theorem update_x_frame :
    (∀ (q : Quadrature α) (y : ArrD α),
      (q.update_x y).m_nelem = q.m_nelem ∧ (q.update_x y).m_nip = q.m_nip ∧
      (q.update_x y).m_xi = q.m_xi ∧ (q.update_x y).m_w = q.m_w ∧
      (q.update_x y).m_N = q.m_N ∧ (q.update_x y).m_dNxi = q.m_dNxi) ∧
    (∀ (pi : α) (q : QuadratureAxisymmetric α) (y : ArrD α),
      (q.update_x pi y).m_nelem = q.m_nelem ∧ (q.update_x pi y).m_nip = q.m_nip ∧
      (q.update_x pi y).m_xi = q.m_xi ∧ (q.update_x pi y).m_w = q.m_w ∧
      (q.update_x pi y).m_N = q.m_N ∧ (q.update_x pi y).m_dNxi = q.m_dNxi) ∧
    (∀ (sqrt3 : α) (x y xi w : ArrD α),
      (Quadrature.new sqrt3 x xi w).map
          (fun q => (q.m_nip, q.m_xi, q.m_w, q.m_N, q.m_dNxi)) =
        (Quadrature.new sqrt3 y xi w).map
          (fun q => (q.m_nip, q.m_xi, q.m_w, q.m_N, q.m_dNxi))) ∧
    (∀ (pi : α) (x y xi w : ArrD α),
      (QuadratureAxisymmetric.new pi x xi w).m_nip =
        (QuadratureAxisymmetric.new pi y xi w).m_nip ∧
      (QuadratureAxisymmetric.new pi x xi w).m_xi =
        (QuadratureAxisymmetric.new pi y xi w).m_xi ∧
      (QuadratureAxisymmetric.new pi x xi w).m_w =
        (QuadratureAxisymmetric.new pi y xi w).m_w ∧
      (QuadratureAxisymmetric.new pi x xi w).m_N =
        (QuadratureAxisymmetric.new pi y xi w).m_N ∧
      (QuadratureAxisymmetric.new pi x xi w).m_dNxi =
        (QuadratureAxisymmetric.new pi y xi w).m_dNxi) := by
  refine ⟨fun q y => ⟨rfl, rfl, rfl, rfl, rfl, rfl⟩, fun pi q y => ⟨rfl, rfl, rfl, rfl, rfl, rfl⟩,
    fun sqrt3 x y xi w => ?_, fun pi x y xi w => ⟨rfl, rfl, rfl, rfl, rfl⟩⟩
  unfold Quadrature.new
  split_ifs <;> rfl

end Element.Quad4

end GooseFEM
